import Mathlib

/-!
# A verification model of the okmongo BSON codec and response parser

This file gives a shallow embedding, in Lean, of the core of the okmongo
C++ library: the little-endian byte primitives, the tag table
(`ToBsonTag`, src/bson.cc), the `BsonWriter` (src/bson.h), the
random-access view `BsonValue` with `GetField` and the iterator
(src/bson.cc), the streaming `BsonReader` state machine (src/bson.h),
the `StringMatcher` (src/string_matcher.h) and the `OpResponseParser`
(src/mongo.h, src/mongo.cc).

Bytes are modelled as `Nat` values in `[0, 256)`; buffers as `List Nat`.
Signed `char` / `int32_t` reads are made explicit through `sbyte` and
`toInt32`.  All definitions are executable (structural recursion, with
fuel where the C++ loops on cursors), so concrete runs evaluate by
`decide` / `rfl`.
-/

namespace Okmongo

/-- The value of a byte when read as a signed `char` (two's complement). -/
def sbyte (b : Nat) : Int :=
  if b < 128 then (b : Int) else (b : Int) - 256

/-- The value of a 4-byte group when re-read as a signed `int32_t`. -/
def toInt32 (n : Nat) : Int :=
  if n < 2 ^ 31 then (n : Int) else (n : Int) - 2 ^ 32

/-- Little-endian 4-byte encoding of a natural number (`memcpy` of a 32-bit
value; higher bits are discarded bytewise). -/
def le32 (n : Nat) : List Nat :=
  [n % 256, n / 256 % 256, n / 65536 % 256, n / 16777216 % 256]

/-- Little-endian 4-byte encoding of an `int32_t` value. -/
def le32I (v : Int) : List Nat :=
  le32 ((v % (2 ^ 32 : Int)).toNat)

/-- Little-endian 8-byte encoding of a natural number below `2^64`. -/
def le64 (n : Nat) : List Nat :=
  [n % 256, n / 256 % 256, n / 65536 % 256, n / 16777216 % 256,
   n / 2 ^ 32 % 256, n / 2 ^ 40 % 256, n / 2 ^ 48 % 256, n / 2 ^ 56 % 256]

/-- Little-endian 8-byte encoding of an `int64_t` value. -/
def le64I (v : Int) : List Nat :=
  le64 ((v % (2 ^ 64 : Int)).toNat)

/-- Read 4 bytes little-endian at offset `off` (unsigned view of the
`memcpy` into an `int32_t`; out-of-range bytes read as 0). -/
def rd32 (l : List Nat) (off : Nat) : Nat :=
  l.getD off 0 + 256 * l.getD (off + 1) 0 + 65536 * l.getD (off + 2) 0 +
    16777216 * l.getD (off + 3) 0

/-- Read 8 bytes little-endian at offset `off`. -/
def rd64 (l : List Nat) (off : Nat) : Nat :=
  l.getD off 0 + 256 * l.getD (off + 1) 0 + 65536 * l.getD (off + 2) 0 +
    16777216 * l.getD (off + 3) 0 + 2 ^ 32 * l.getD (off + 4) 0 +
    2 ^ 40 * l.getD (off + 5) 0 + 2 ^ 48 * l.getD (off + 6) 0 +
    2 ^ 56 * l.getD (off + 7) 0

/-- Overwrite the 4 bytes at offset `off` with the little-endian encoding
of `n` (the `memcpy(start_pos, &doc_len, 4)` of `BsonWriter::Pop`). -/
def wr32 (l : List Nat) (off n : Nat) : List Nat :=
  l.take off ++ le32 n ++ l.drop (off + 4)

@[simp] theorem le32_length (n : Nat) : (le32 n).length = 4 := rfl

@[simp] theorem le64_length (n : Nat) : (le64 n).length = 8 := rfl

@[simp] theorem le32I_length (v : Int) : (le32I v).length = 4 := rfl

@[simp] theorem le64I_length (v : Int) : (le64I v).length = 8 := rfl

theorem rd32_le32 (n : Nat) (rest : List Nat) (h : n < 2 ^ 32) :
    rd32 (le32 n ++ rest) 0 = n := by
  simp only [rd32, le32, List.cons_append, List.getD_cons_zero, List.getD_cons_succ]
  have h0 := Nat.div_add_mod n 256
  have h1 := Nat.div_add_mod (n / 256) 256
  have h2 := Nat.div_add_mod (n / 256 / 256) 256
  have h3 : n / 256 / 256 = n / 65536 := by
    rw [Nat.div_div_eq_div_mul]
  have h4 : n / 65536 / 256 = n / 16777216 := by
    rw [Nat.div_div_eq_div_mul]
  have h5 : n / 16777216 % 256 = n / 16777216 := by
    apply Nat.mod_eq_of_lt
    omega
  omega

/-- The BSON element tags, as in `enum class BsonTag` (src/bson.h). -/
inductive BsonTag where
  | kDouble | kUtf8 | kDocument | kArray | kBindata | kObjectId | kBool
  | kUtcDatetime | kNull | kRegexp | kJs | kScopedJs | kInt32 | kTimestamp
  | kInt64 | kMinKey | kMaxKey
  deriving DecidableEq, Repr

/-- The numeric value of a tag (`kMinKey = -1`, `kMaxKey = 127`). -/
def BsonTag.val : BsonTag → Int
  | .kDouble => 1 | .kUtf8 => 2 | .kDocument => 3 | .kArray => 4
  | .kBindata => 5 | .kObjectId => 7 | .kBool => 8 | .kUtcDatetime => 9
  | .kNull => 10 | .kRegexp => 11 | .kJs => 13 | .kScopedJs => 15
  | .kInt32 => 16 | .kTimestamp => 17 | .kInt64 => 18 | .kMinKey => -1
  | .kMaxKey => 127

/-- The byte written for a tag (`static_cast<char>(tag)` re-read unsigned). -/
def BsonTag.byte (t : BsonTag) : Nat :=
  ((t.val % (256 : Int)).toNat)

/-- Size (in bytes) of an objectid (`kObjectIdLen`, src/bson.h). -/
def kObjectIdLen : Nat := 12

/-- `ToBsonTag` from src/bson.cc: cast a signed char to a `BsonTag`,
returning `kMinKey` when the input is not accepted.  The guard
`c <= kMinKey || c >= kMaxKey` rejects every negative byte and 127
before the switch. -/
def ToBsonTag (c : Int) : BsonTag :=
  if c ≤ -1 ∨ 127 ≤ c then .kMinKey
  else
    match c.toNat with
    | 1 => .kDouble
    | 2 => .kUtf8
    | 3 => .kDocument
    | 4 => .kArray
    | 5 => .kBindata
    | 7 => .kObjectId
    | 8 => .kBool
    | 9 => .kUtcDatetime
    | 10 => .kNull
    | 11 => .kRegexp
    | 13 => .kJs
    | 15 => .kScopedJs
    | 16 => .kInt32
    | 17 => .kTimestamp
    | 18 => .kInt64
    | _ => .kMinKey

/-- The tag table exactly as the spec's claim words it: every listed byte
maps to its listed tag — including `0x7F ↦ kMaxKey` — and every other
byte maps to `kMinKey`.  This is the spec-side table used to compare the
claim against `ToBsonTag`. -/
def claimTagTable (c : Int) : BsonTag :=
  if c = 1 then .kDouble
  else if c = 2 then .kUtf8
  else if c = 3 then .kDocument
  else if c = 4 then .kArray
  else if c = 5 then .kBindata
  else if c = 7 then .kObjectId
  else if c = 8 then .kBool
  else if c = 9 then .kUtcDatetime
  else if c = 10 then .kNull
  else if c = 11 then .kRegexp
  else if c = 13 then .kJs
  else if c = 15 then .kScopedJs
  else if c = 16 then .kInt32
  else if c = 17 then .kTimestamp
  else if c = 18 then .kInt64
  else if c = -1 then .kMinKey
  else if c = 127 then .kMaxKey
  else .kMinKey

/-- C8 (counterexample): the claim says the byte `0x7F` decodes to
`kMaxKey`, but `ToBsonTag` rejects it up front (`c >= kMaxKey`) and
returns `kMinKey`, so the claimed table disagrees with the code at 127. -/
theorem c8_toBsonTag_maxkey_refuted :
    ToBsonTag 127 = BsonTag.kMinKey ∧ claimTagTable 127 = BsonTag.kMaxKey ∧
      BsonTag.kMinKey ≠ BsonTag.kMaxKey := by
  refine ⟨rfl, rfl, by decide⟩

/-- C8 (amended): for every signed-char input, `ToBsonTag` returns the
tag listed in the claim's table except at `0x7F`, which also decodes to
`kMinKey` (the code never produces `kMaxKey`). -/
theorem c8_toBsonTag_amended (b : Fin 256) :
    ToBsonTag (sbyte b.val) =
      (if sbyte b.val = 127 then BsonTag.kMinKey else claimTagTable (sbyte b.val)) := by
  revert b
  set_option maxRecDepth 4096 in decide

/-! ## The random-access view (`BsonValue`, src/bson.cc) -/

/-- `TagLengthOffset` from src/bson.cc: how many bytes must be added to
the stored length to get the full field length. -/
def TagLengthOffset (tag : BsonTag) : Int :=
  match tag with
  | .kJs | .kUtf8 => 4
  | .kBindata => 5
  | _ => 0

/-- `GetValueLength` from src/bson.cc, on the suffix of the buffer that
starts at the value (`data`), with `size` available bytes.  Returns
`-1` in case of error. -/
def GetValueLength (tag : BsonTag) (data : List Nat) (size : Int) : Int :=
  let resNull : Option (Int × Bool) :=
    match tag with
    | .kDocument | .kArray | .kJs | .kUtf8 | .kBindata =>
      if size < 4 + 1 then none
      else
        let r := toInt32 (rd32 data 0)
        if r ≤ 0 then none
        else some (r + TagLengthOffset tag, tag ≠ .kBindata)
    | .kDouble => some (8, false)
    | .kObjectId => some (12, false)
    | .kBool => some (1, false)
    | .kInt32 => some (4, false)
    | .kInt64 | .kUtcDatetime | .kTimestamp => some (8, false)
    | .kNull => some (0, false)
    | .kRegexp | .kScopedJs | .kMinKey | .kMaxKey => none
  match resNull with
  | none => -1
  | some (res, nullTerminated) =>
    if size < res then -1
    else if nullTerminated ∧ data.getD (res - 1).toNat 0 ≠ 0 then -1
    else res

/-- A non-empty `BsonValue`: `data_` is modelled as the suffix `data` of
the underlying buffer that starts at the value's first byte. -/
structure BsonValue where
  data : List Nat
  tag : BsonTag
  size : Int
  deriving DecidableEq, Repr

/-- The `BsonValue(data, size, tag)` constructor: validates the value via
`GetValueLength` and returns `none` (the empty view) on failure. -/
def BsonValueMk (data : List Nat) (size : Int) (tag : BsonTag := .kDocument) :
    Option BsonValue :=
  let realSize := GetValueLength tag data size
  if realSize = -1 then none else some ⟨data, tag, realSize⟩

/-- `BsonValue::GetData`: the start of the payload, as an offset from
`data_` (`none` models returning `nullptr`). -/
def BsonValue.GetData (v : BsonValue) : Option Nat :=
  match v.tag with
  | .kObjectId => some 0
  | .kUtf8 | .kJs => some 4
  | .kBindata => some 5
  | _ => none

/-- `BsonValue::GetDataSize` from src/bson.cc. -/
def BsonValue.GetDataSize (v : BsonValue) : Int :=
  match v.tag with
  | .kObjectId => 9
  | .kUtf8 | .kJs | .kBindata => v.size - 5
  | _ => -1

/-- `BsonValue::GetBool`: reads the payload byte as a `char` and compares
it to 1 (non-`kBool` tags read the fallback 0). -/
def BsonValue.GetBool (v : BsonValue) : Bool :=
  if v.tag = .kBool then v.data.getD 0 0 = 1 else false

/-- `BsonValue::GetInt32`: little-endian payload read as an `int32_t`,
`-1` when the tag does not match. -/
def BsonValue.GetInt32 (v : BsonValue) : Int :=
  if v.tag = .kInt32 then toInt32 (rd32 v.data 0) else -1

/-- C9: on an objectid value `GetDataSize` returns the constant 9, even
though `GetData` points at the start (offset 0) of the payload, the
payload constant `kObjectIdLen` is 12, and the validated size of an
objectid value is in fact 12 bytes. -/
theorem c9_objectid_data_size (v : BsonValue) (h : v.tag = BsonTag.kObjectId) :
    v.GetDataSize = 9 ∧ v.GetData = some 0 ∧ kObjectIdLen = 12 ∧
      (∀ data size w, BsonValueMk data size .kObjectId = some w → w.size = 12) := by
  refine ⟨by simp [BsonValue.GetDataSize, h], by simp [BsonValue.GetData, h], rfl, ?_⟩
  intro data size w hw
  have hval : GetValueLength .kObjectId data size = if size < 12 then -1 else 12 := by
    simp [GetValueLength]
  simp only [BsonValueMk, hval] at hw
  by_cases hsz : size < 12
  · simp [hsz] at hw
  · simp [hsz] at hw
    cases hw
    rfl

/-- C9 witness: a concrete objectid value. -/
theorem c9_objectid_data_size_witness :
    (BsonValue.mk (List.replicate 12 0) .kObjectId 12).GetDataSize = 9 ∧
      (BsonValue.mk (List.replicate 12 0) .kObjectId 12).GetData = some 0 := by
  have h := c9_objectid_data_size (BsonValue.mk (List.replicate 12 0) .kObjectId 12) rfl
  exact ⟨h.1, h.2.1⟩

/-! ## The writer (`BsonWriter`, src/bson.h)

The writer appends to a single growable buffer; `doc_start_` holds the
offset of the length slot of the innermost open container, and that slot
temporarily stores the parent's `doc_start_` (the back-patching trick of
`StartDocument` / `Pop`).  Buffer growth and the small-buffer
optimization only move bytes around in memory, so the model keeps just
the written prefix (`buf`, whose length is `pos_`) and `docStart`. -/

/-- A scalar element value passed to one of the `BsonWriter::Element`
overloads.  A double is carried as the 8-byte pattern `memcpy` copies
(as a natural number below `2^64`). -/
inductive WVal where
  | vint32 (v : Int)
  | vint64 (v : Int)
  | vdouble (bits : Nat)
  | vbool (b : Bool)
  | vnull
  | vutf8 (s : List Nat)
  | voidb (oid : List Nat)
  | vbindata (subtype : Nat) (s : List Nat)
  | vdatetime (v : Int)
  | vtimestamp (v : Int)
  deriving DecidableEq, Repr

/-- The tag written by the corresponding `Element` overload. -/
def WVal.tag : WVal → BsonTag
  | .vint32 _ => .kInt32
  | .vint64 _ => .kInt64
  | .vdouble _ => .kDouble
  | .vbool _ => .kBool
  | .vnull => .kNull
  | .vutf8 _ => .kUtf8
  | .voidb _ => .kObjectId
  | .vbindata _ _ => .kBindata
  | .vdatetime _ => .kUtcDatetime
  | .vtimestamp _ => .kTimestamp

/-- The payload bytes the corresponding `Element` overload appends after
`StartField`.  `ElementObjectId` always copies exactly `kObjectIdLen`
bytes from the caller's array; `Element(key, value, value_len)` writes
`value_len + 1` as the stored length and null-terminates. -/
def WVal.payload : WVal → List Nat
  | .vint32 v => le32I v
  | .vint64 v => le64I v
  | .vdouble bits => le64 bits
  | .vbool b => [if b then 1 else 0]
  | .vnull => []
  | .vutf8 s => le32I ((s.length : Int) + 1) ++ s ++ [0]
  | .voidb oid => (oid ++ List.replicate kObjectIdLen 0).take kObjectIdLen
  | .vbindata subtype s => le32I (s.length : Int) ++ [subtype % 256] ++ s
  | .vdatetime v => le64I v
  | .vtimestamp v => le64I v

mutual
/-- One call (or balanced call group) on the writer between the opening
`Document()` and its final `Pop()`: a scalar `Element`, or a
`PushDocument`/`PushArray` with its children and matching `Pop`. -/
inductive WItem where
  | elem (key : List Nat) (v : WVal)
  | wdoc (key : List Nat) (children : WItems)
  | warr (key : List Nat) (children : WItems)
  deriving DecidableEq, Repr
/-- A sequence of balanced writer calls. -/
inductive WItems where
  | nil
  | cons (i : WItem) (rest : WItems)
  deriving DecidableEq, Repr
end

/-- Writer state: the written bytes (`pos_` is `buf.length`) and
`doc_start_`. -/
structure WState where
  buf : List Nat
  docStart : Nat
  deriving DecidableEq, Repr

/-- `BsonWriter::StartField`: append the tag byte, the key bytes and the
key's null terminator. -/
def startField (s : WState) (tag : BsonTag) (key : List Nat) : WState :=
  { s with buf := s.buf ++ (tag.byte :: key ++ [0]) }

/-- `BsonWriter::StartDocument`: append the current `doc_start_` into the
new length slot and point `doc_start_` at that slot. -/
def startDocument (s : WState) : WState :=
  { buf := s.buf ++ le32 s.docStart, docStart := s.buf.length }

/-- `BsonWriter::Document()` on the current state. -/
def wDocument (s : WState) : WState := startDocument s

/-- `BsonWriter::Pop`: append the terminator, compute the container
length, restore the parent `doc_start_` from the length slot, and
back-patch the slot with the true length. -/
def wPop (s : WState) : WState :=
  let b := s.buf ++ [0]
  let docLen := b.length - s.docStart
  let parent := rd32 b s.docStart
  { buf := wr32 b s.docStart docLen, docStart := parent }

/-- An `Element` call: `StartField` then the payload bytes. -/
def wElem (s : WState) (key : List Nat) (v : WVal) : WState :=
  let s1 := startField s v.tag key
  { s1 with buf := s1.buf ++ v.payload }

mutual
/-- Run one balanced call group on the writer. -/
def runWItem : WItem → WState → WState
  | .elem k v, s => wElem s k v
  | .wdoc k c, s => wPop (runWItems c (startDocument (startField s .kDocument k)))
  | .warr k c, s => wPop (runWItems c (startDocument (startField s .kArray k)))
/-- Run a sequence of balanced call groups on the writer. -/
def runWItems : WItems → WState → WState
  | .nil, s => s
  | .cons i r, s => runWItems r (runWItem i s)
end

/-- A full writer run: fresh writer, `Document()`, the balanced calls,
final `Pop()`. -/
def writeTop (items : WItems) : WState :=
  wPop (runWItems items (wDocument ⟨[], 0⟩))

mutual
/-- Direct serialization of one field (the bytes the writer should
produce for it). -/
def serWItem : WItem → List Nat
  | .elem k v => v.tag.byte :: k ++ [0] ++ v.payload
  | .wdoc k c =>
    BsonTag.byte .kDocument :: k ++ [0] ++
      (le32 (5 + (serWItems c).length) ++ serWItems c ++ [0])
  | .warr k c =>
    BsonTag.byte .kArray :: k ++ [0] ++
      (le32 (5 + (serWItems c).length) ++ serWItems c ++ [0])
/-- Direct serialization of a field sequence. -/
def serWItems : WItems → List Nat
  | .nil => []
  | .cons i r => serWItem i ++ serWItems r
end

/-- Direct serialization of a whole document: inclusive length prefix,
fields, terminator. -/
def serDoc (c : WItems) : List Nat :=
  le32 (5 + (serWItems c).length) ++ serWItems c ++ [0]

/-- C7: writing `{"a": int32(1)}` (Document(); Element("a", 1); Pop())
produces exactly the twelve bytes 0C 00 00 00 10 61 00 01 00 00 00 00. -/
theorem c7_write_a_int32_1 :
    (writeTop (.cons (.elem [0x61] (.vint32 1)) .nil)).buf =
      [0x0C, 0, 0, 0, 0x10, 0x61, 0, 1, 0, 0, 0, 0] := by
  decide

theorem getD_shift (a l : List Nat) (k d : Nat) :
    (a ++ l).getD (a.length + k) d = l.getD k d := by
  rw [List.getD_append_right _ _ _ _ (by omega)]
  congr 1
  omega

theorem rd32_append (a l : List Nat) : rd32 (a ++ l) a.length = rd32 l 0 := by
  have h1 := getD_shift a l 1 0
  have h2 := getD_shift a l 2 0
  have h3 := getD_shift a l 3 0
  simp only [rd32, h1, h2, h3]
  rw [List.getD_append_right _ _ _ _ (le_refl _), Nat.sub_self]

theorem wr32_append (a x c : List Nat) (n : Nat) (hx : x.length = 4) :
    wr32 (a ++ (x ++ c)) a.length n = a ++ (le32 n ++ c) := by
  simp only [wr32]
  have h1 : List.take a.length (a ++ (x ++ c)) = a := List.take_left a (x ++ c)
  have h2 : List.drop (a.length + 4) (a ++ (x ++ c)) = c := by
    rw [show a ++ (x ++ c) = (a ++ x) ++ c by simp]
    rw [show a.length + 4 = (a ++ x).length by simp [hx]]
    exact List.drop_left _ _
  rw [h1, h2, List.append_assoc]

/-- `s` occurs as a contiguous segment of `t`. -/
def IsSeg (s t : List Nat) : Prop := ∃ u v, t = u ++ s ++ v

theorem IsSeg.embed {s t : List Nat} (p q : List Nat) (h : IsSeg s t) :
    IsSeg s (p ++ t ++ q) := by
  obtain ⟨u, v, rfl⟩ := h
  exact ⟨p ++ u, v ++ q, by simp⟩

theorem IsSeg.length_le {s t : List Nat} (h : IsSeg s t) : s.length ≤ t.length := by
  obtain ⟨u, v, rfl⟩ := h
  simp
  omega

mutual
/-- The children lists of every nested container below one call group. -/
def subDocsI : WItem → List WItems
  | .elem _ _ => []
  | .wdoc _ c => c :: subDocs c
  | .warr _ c => c :: subDocs c
/-- The children lists of every nested container below a call sequence. -/
def subDocs : WItems → List WItems
  | .nil => []
  | .cons i r => subDocsI i ++ subDocs r
end

theorem getD_last_zero (y : List Nat) :
    (y ++ [0]).getD ((y ++ [0]).length - 1) 1 = 0 := by
  rw [List.getD_append_right _ _ _ _ (by simp)]
  simp

theorem serDoc_last (c : WItems) :
    (serDoc c).getD ((serDoc c).length - 1) 1 = 0 := by
  have h : serDoc c = (le32 (5 + (serWItems c).length) ++ serWItems c) ++ [0] := by
    simp [serDoc]
  rw [h]
  exact getD_last_zero _

theorem rd32_serDoc (c : WItems) (h : 5 + (serWItems c).length < 2 ^ 32) :
    rd32 (serDoc c) 0 = (serDoc c).length := by
  simp only [serDoc]
  rw [List.append_assoc, rd32_le32 _ _ h]
  simp
  omega

theorem wPop_eq (b1 rest : List Nat) (d : Nat) (hd : d < 2 ^ 32) :
    wPop ⟨b1 ++ le32 d ++ rest, b1.length⟩ =
      ⟨b1 ++ (le32 (5 + rest.length) ++ (rest ++ [0])), d⟩ := by
  simp only [wPop]
  have hb : (b1 ++ le32 d ++ rest) ++ [0] = b1 ++ (le32 d ++ (rest ++ [0])) := by
    simp
  rw [hb]
  have hdl : (b1 ++ (le32 d ++ (rest ++ [0]))).length - b1.length =
      5 + rest.length := by
    simp
    omega
  rw [hdl, rd32_append, rd32_le32 _ _ hd, wr32_append _ _ _ _ (by simp)]

mutual
theorem runWItem_eq (i : WItem) :
    ∀ (b : List Nat) (d : Nat), d < 2 ^ 32 →
      b.length + (serWItem i).length < 2 ^ 32 →
      runWItem i ⟨b, d⟩ = ⟨b ++ serWItem i, d⟩ :=
  match i with
  | .elem k v => by
    intro b d _ _
    simp [runWItem, wElem, startField, serWItem]
  | .wdoc k c => by
    intro b d hd hb
    have hlen : (serWItem (.wdoc k c)).length =
        7 + k.length + (serWItems c).length := by
      simp [serWItem]
      omega
    rw [hlen] at hb
    have h1 : runWItems c
        (startDocument (startField ⟨b, d⟩ .kDocument k)) =
        ⟨(b ++ (BsonTag.byte .kDocument :: k ++ [0])) ++ le32 d ++ serWItems c,
          (b ++ (BsonTag.byte .kDocument :: k ++ [0])).length⟩ := by
      have := runWItems_eq c
        ((b ++ (BsonTag.byte .kDocument :: k ++ [0])) ++ le32 d)
        (b ++ (BsonTag.byte .kDocument :: k ++ [0])).length
        (by simp; omega) (by simp; omega)
      simpa [startDocument, startField] using this
    simp only [runWItem, h1, wPop_eq _ _ _ hd]
    simp [serWItem]
  | .warr k c => by
    intro b d hd hb
    have hlen : (serWItem (.warr k c)).length =
        7 + k.length + (serWItems c).length := by
      simp [serWItem]
      omega
    rw [hlen] at hb
    have h1 : runWItems c
        (startDocument (startField ⟨b, d⟩ .kArray k)) =
        ⟨(b ++ (BsonTag.byte .kArray :: k ++ [0])) ++ le32 d ++ serWItems c,
          (b ++ (BsonTag.byte .kArray :: k ++ [0])).length⟩ := by
      have := runWItems_eq c
        ((b ++ (BsonTag.byte .kArray :: k ++ [0])) ++ le32 d)
        (b ++ (BsonTag.byte .kArray :: k ++ [0])).length
        (by simp; omega) (by simp; omega)
      simpa [startDocument, startField] using this
    simp only [runWItem, h1, wPop_eq _ _ _ hd]
    simp [serWItem]

theorem runWItems_eq (c : WItems) :
    ∀ (b : List Nat) (d : Nat), d < 2 ^ 32 →
      b.length + (serWItems c).length < 2 ^ 32 →
      runWItems c ⟨b, d⟩ = ⟨b ++ serWItems c, d⟩ :=
  match c with
  | .nil => by
    intro b d _ _
    simp [runWItems, serWItems]
  | .cons i r => by
    intro b d hd hb
    simp only [serWItems] at hb
    have h1 := runWItem_eq i b d hd (by simp at hb ⊢; omega)
    have h2 := runWItems_eq r (b ++ serWItem i) d hd (by simp at hb ⊢; omega)
    simp [runWItems, h1, h2, serWItems]
end

theorem writeTop_eq (items : WItems)
    (h : (serWItems items).length + 5 < 2 ^ 32) :
    (writeTop items).buf = serDoc items := by
  have h0 : wDocument ⟨[], 0⟩ = ⟨le32 0, 0⟩ := by
    simp [wDocument, startDocument]
  have h1 : runWItems items ⟨le32 0, 0⟩ = ⟨le32 0 ++ serWItems items, 0⟩ :=
    runWItems_eq items (le32 0) 0 (by norm_num) (by simp; omega)
  have h2 := wPop_eq [] (serWItems items) 0 (by norm_num)
  simp only [List.nil_append, List.length_nil] at h2
  simp only [writeTop, h0, h1, h2]
  simp [serDoc]

mutual
theorem subDocsI_seg (i : WItem) :
    ∀ x ∈ subDocsI i, IsSeg (serDoc x) (serWItem i) :=
  match i with
  | .elem _ _ => by simp [subDocsI]
  | .wdoc k c => by
    intro x hx
    simp only [subDocsI, List.mem_cons] at hx
    rcases hx with rfl | hx
    · exact ⟨BsonTag.byte .kDocument :: k ++ [0], [], by simp [serWItem, serDoc]⟩
    · have h := subDocs_seg c x hx
      obtain ⟨u, v, hv⟩ := h
      exact ⟨(BsonTag.byte .kDocument :: k ++ [0]) ++ le32 (5 + (serWItems c).length) ++ u,
        v ++ [0], by simp [serWItem, hv]⟩
  | .warr k c => by
    intro x hx
    simp only [subDocsI, List.mem_cons] at hx
    rcases hx with rfl | hx
    · exact ⟨BsonTag.byte .kArray :: k ++ [0], [], by simp [serWItem, serDoc]⟩
    · have h := subDocs_seg c x hx
      obtain ⟨u, v, hv⟩ := h
      exact ⟨(BsonTag.byte .kArray :: k ++ [0]) ++ le32 (5 + (serWItems c).length) ++ u,
        v ++ [0], by simp [serWItem, hv]⟩

theorem subDocs_seg (c : WItems) :
    ∀ x ∈ subDocs c, IsSeg (serDoc x) (serWItems c) :=
  match c with
  | .nil => by simp [subDocs]
  | .cons i r => by
    intro x hx
    simp only [subDocs, List.mem_append] at hx
    rcases hx with hx | hx
    · obtain ⟨u, v, hv⟩ := subDocsI_seg i x hx
      exact ⟨u, v ++ serWItems r, by simp [serWItems, hv]⟩
    · obtain ⟨u, v, hv⟩ := subDocs_seg r x hx
      exact ⟨serWItem i ++ u, v, by simp [serWItems, hv]⟩
end

/-- C3: after any balanced writer sequence (one `Document()`, matching
push/pop pairs, arbitrary elements) closed by the final `Pop`, the
buffer `B` satisfies: `B` is the direct serialization, its first four
bytes read little-endian as `B.length`, its last byte is the 0x00
terminator, and every nested container's serialization occurs inside
`B` with a length prefix equal to its own inclusive size and a trailing
terminator.  The size bound keeps all back-patched offsets inside
`int32_t` range. -/
theorem c3_writer_length_consistency (items : WItems)
    (hlen : (serDoc items).length < 2 ^ 31) :
    (writeTop items).buf = serDoc items ∧
    rd32 (writeTop items).buf 0 = (writeTop items).buf.length ∧
    (writeTop items).buf.getD ((writeTop items).buf.length - 1) 1 = 0 ∧
    ∀ x ∈ subDocs items,
      IsSeg (serDoc x) (writeTop items).buf ∧
      rd32 (serDoc x) 0 = (serDoc x).length ∧
      (serDoc x).getD ((serDoc x).length - 1) 1 = 0 := by
  have hl : (serWItems items).length + 5 < 2 ^ 32 := by
    simp [serDoc] at hlen
    omega
  have hB := writeTop_eq items hl
  refine ⟨hB, ?_, ?_, ?_⟩
  · rw [hB, rd32_serDoc items (by omega)]
  · rw [hB]
    exact serDoc_last items
  · intro x hx
    have hseg0 := subDocs_seg items x hx
    have hseg : IsSeg (serDoc x) (serDoc items) := by
      obtain ⟨u, v, hv⟩ := hseg0
      exact ⟨le32 (5 + (serWItems items).length) ++ u, v ++ [0], by simp [serDoc, hv]⟩
    have hxl : (serDoc x).length ≤ (serDoc items).length := hseg.length_le
    have hxs : 5 + (serWItems x).length < 2 ^ 32 := by
      simp [serDoc] at hxl ⊢
      omega
    exact ⟨hB ▸ hseg, rd32_serDoc x hxs, serDoc_last x⟩

/-- C3 witness: the writer sequence of S1 satisfies the hypothesis and
the consistency properties. -/
theorem c3_writer_length_consistency_witness :
    (serDoc (.cons (.elem [0x61] (.vint32 1)) .nil)).length < 2 ^ 31 ∧
      (writeTop (.cons (.elem [0x61] (.vint32 1)) .nil)).buf =
        serDoc (.cons (.elem [0x61] (.vint32 1)) .nil) :=
  ⟨by decide, (c3_writer_length_consistency (.cons (.elem [0x61] (.vint32 1)) .nil)
    (by decide)).1⟩

/-! ## The streaming parser (`BsonReader` / `ResponseReader`)

The C++ reader is a reentrant machine: each `Consume(s, len)` call runs a
set of mutually recursive functions (`ConsumeFieldTyp`,
`ConsumeFieldName`, `ConsumeValue*`, `ReadBytes`, plus
`ResponseReader::ConsumeHdr` / `NextDocument` through CRTP), suspending
by recording a `State` when the chunk is exhausted.  The model merges
those functions into one interpreter `runF` over a `Phase` (one phase
per C++ function; `int32Cnt t` is the continuation `ConsumeValueInt32Cnt`
with the decoded value, which the C++ keeps in `scratch_`).  The `mode`
flag is the CRTP choice: `false` is a plain `BsonReader` (its
`DocumentDone` latches `kDone`, `kHdr` hits `Missing()`), `true` is a
`ResponseReader` (its `DocumentDone` is `NextDocument`, and parsing
starts at `kHdr`).  `scratch`/`hdrScratch` hold the bytes collected so
far by `ReadBytes` (`partial_` is their length) and `srem` is `partial_`
in its other role, the remaining payload bytes of a string read.

`runF` takes a fuel argument and consumes exactly one unit per call;
`9 * l.length + rank` bounds the number of calls, and `consume` (the
model of one `Consume` call) applies the canonical sufficient fuel.
Bytes a chunk leaves unconsumed after reaching `kDone`/`kError` are
dropped: the C++ returns a short count (or the `-1` error sentinel) and
later calls refuse the leftovers (`Consume` returns 0 in `kDone` and
`kError`), emitting nothing either way. -/

/-- The value of an 8-byte group when re-read as a signed `int64_t`. -/
def toInt64 (n : Nat) : Int :=
  if n < 2 ^ 63 then (n : Int) else (n : Int) - 2 ^ 64

/-- The phases of the merged reader interpreter: one per C++ state or
mutually recursive consume function. -/
inductive Phase where
  | fieldTyp
  | fieldName
  | readInt32
  | int32Cnt (t : Int)
  | readInt64
  | int64Cnt (t : Int)
  | readBool
  | readDouble
  | doubleCnt (bits : Nat)
  | readString
  | stringTerm
  | readBinSubtype
  | readObjectId
  | value
  | nextDoc
  | hdr
  | done
  | error
  deriving DecidableEq, Repr

/-- Rank used by the termination measure: a phase only hands over to a
strictly smaller rank without consuming input. -/
def Phase.rank : Phase → Nat
  | .fieldTyp => 0
  | .stringTerm => 1
  | .readString => 2
  | .readBinSubtype => 3
  | .int32Cnt _ => 4
  | .int64Cnt _ => 4
  | .doubleCnt _ => 4
  | .readInt32 => 5
  | .readInt64 => 5
  | .readDouble => 5
  | .readBool => 5
  | .readObjectId => 5
  | .value => 6
  | .fieldName => 7
  | .nextDoc => 7
  | .hdr => 8
  | .done => 0
  | .error => 0

/-- Reader state (`BsonReader` members plus the `ResponseReader`
overlay). -/
structure RState where
  mode : Bool
  phase : Phase
  typ : BsonTag
  depth : Int
  scratch : List Nat
  srem : Nat
  hdrScratch : List Nat
  docCount : Int
  numberReturned : Int
  deriving DecidableEq, Repr

/-- The parse events delivered through the CRTP `Emit*` callbacks.
`utf8`/`js`/`bindata`/`fieldName` data arrives in chunks; a chunk of
length zero signals the end of the value. -/
inductive Event where
  | openDoc
  | openArray
  | close
  | int32 (v : Int)
  | int64 (v : Int)
  | utcDatetime (v : Int)
  | timestamp (v : Int)
  | boolE (b : Bool)
  | doubleE (bits : Nat)
  | nullE
  | utf8 (l : List Nat)
  | js (l : List Nat)
  | bindata (l : List Nat)
  | bindataSubtype (s : Nat)
  | objectId (l : List Nat)
  | fieldName (l : List Nat)
  | errorE (msg : String)
  | docStart (i : Int)
  | docDone
  | start (hdr : List Nat)
  | stop
  deriving DecidableEq, Repr

/-- The boolean the reader emits for a stored byte:
`impl().EmitBool(*s > 0)` with `*s` a signed char
(`BsonReader::ConsumeValueBool`). -/
def readBoolVal (b : Nat) : Bool := decide (0 < sbyte b)

/-- `DispatchStringData`: route a data chunk to `EmitUtf8` / `EmitJs` /
`EmitBindata` according to the current tag (other tags assert and emit
nothing). -/
def strEvents (t : BsonTag) (l : List Nat) : List Event :=
  match t with
  | .kUtf8 => [.utf8 l]
  | .kJs => [.js l]
  | .kBindata => [.bindata l]
  | _ => []

/-- `BsonReader::ReadBytes`: append incoming bytes to the `need`-byte
scratch collection; `inl` is the completed read (collected bytes,
remaining input), `inr` the partial collection at chunk end. -/
def grab (need : Nat) (scratch l : List Nat) :
    (List Nat × List Nat) ⊕ List Nat :=
  if l.length < need - scratch.length then .inr (scratch ++ l)
  else .inl (scratch ++ l.take (need - scratch.length),
    l.drop (need - scratch.length))

theorem grab_inl_len {need : Nat} {sc l f r : List Nat}
    (h : grab need sc l = .inl (f, r)) : r.length ≤ l.length := by
  simp only [grab] at h
  split at h
  · cases h
  · cases h
    simp

/-- The scan of `ConsumeFieldName`: split the chunk at its first null
byte if it has one. -/
def splitAtNull : List Nat → Option (List Nat × List Nat)
  | [] => none
  | b :: r =>
    if b = 0 then some ([], r)
    else (splitAtNull r).map (fun p => (b :: p.1, p.2))

theorem splitAtNull_len {l name rest : List Nat}
    (h : splitAtNull l = some (name, rest)) :
    name.length + 1 + rest.length = l.length := by
  induction l generalizing name rest with
  | nil => simp [splitAtNull] at h
  | cons b bs ih =>
    simp only [splitAtNull] at h
    by_cases hb : b = 0
    · rw [if_pos hb] at h
      cases h
      simp
      omega
    · rw [if_neg hb, Option.map_eq_some'] at h
      obtain ⟨⟨n1, r1⟩, h1, h2⟩ := h
      cases h2
      have := ih h1
      simp at this ⊢
      omega

/-- Modelled from the spec: `ResponseReader::DocumentStart` calls
`BsonReader::ConsumeValueDocument`, which exists nowhere under src/
(only this caller does).  Per spec §4.5 the response parser, for each
returned document, "drives the streaming parser through one document",
whose parse "begins in `ReadInt32` to consume the outermost length
prefix" (§4.3, with `typ_` set to `kDocument` by `NextDocument`); so the
missing function is modelled as entering the `kReadInt32` state. -/
def documentStartPhase : Phase := .readInt32

/-- The merged reader interpreter.  Each case is the body of the
corresponding C++ function; `fuel` only forces termination (one unit per
call, `9 * l.length + rank` bounds the depth). -/
def runF : Nat → RState → List Nat → RState × List Event
  | 0, s, _ => (s, [])
  | f + 1, s, l =>
    match s.phase with
    | .done => (s, [])
    | .error => (s, [])
    | .fieldTyp =>
      match l with
      | [] => (s, [])
      | b :: rest =>
        if b = 0 then
          let s1 := { s with depth := s.depth - 1 }
          if s1.depth = (0 : Int) then
            if s.mode then
              let (s2, e2) := runF f { s1 with phase := .nextDoc } rest
              (s2, Event.close :: e2)
            else
              ({ s1 with phase := .done }, [Event.close])
          else
            let (s2, e2) := runF f { s1 with phase := .fieldTyp } rest
            (s2, Event.close :: e2)
        else
          runF f { s with phase := .fieldName, typ := ToBsonTag (sbyte b) } rest
    | .fieldName =>
      match splitAtNull l with
      | some (name, rest) =>
        let evs := (if name.isEmpty then [] else [Event.fieldName name]) ++
          [Event.fieldName []]
        let (s2, e2) := runF f { s with phase := .value } rest
        (s2, evs ++ e2)
      | none =>
        ({ s with phase := .fieldName },
          if l.isEmpty then [] else [Event.fieldName l])
    | .value =>
      match s.typ with
      | .kInt32 | .kArray | .kDocument | .kUtf8 | .kJs | .kBindata =>
        runF f { s with phase := .readInt32 } l
      | .kInt64 | .kUtcDatetime | .kTimestamp =>
        runF f { s with phase := .readInt64 } l
      | .kBool => runF f { s with phase := .readBool } l
      | .kDouble => runF f { s with phase := .readDouble } l
      | .kNull =>
        let (s2, e2) := runF f { s with phase := .fieldTyp } l
        (s2, Event.nullE :: e2)
      | .kObjectId => runF f { s with phase := .readObjectId } l
      | .kRegexp | .kScopedJs =>
        ({ s with phase := .error }, [Event.errorE "Field type no handled"])
      | .kMinKey => ({ s with phase := .error }, [Event.errorE "Invalid bson tag"])
      | .kMaxKey => ({ s with phase := .error }, [Event.errorE "Internal error"])
    | .readInt32 =>
      match grab 4 s.scratch l with
      | .inr sc => ({ s with phase := .readInt32, scratch := sc }, [])
      | .inl (full, rest) =>
        runF f { s with phase := .int32Cnt (toInt32 (rd32 full 0)), scratch := [] } rest
    | .int32Cnt t =>
      match s.typ with
      | .kDocument =>
        let (s2, e2) := runF f { s with phase := .fieldTyp, depth := s.depth + 1 } l
        (s2, Event.openDoc :: e2)
      | .kArray =>
        let (s2, e2) := runF f { s with phase := .fieldTyp, depth := s.depth + 1 } l
        (s2, Event.openArray :: e2)
      | .kInt32 =>
        let (s2, e2) := runF f { s with phase := .fieldTyp } l
        (s2, Event.int32 t :: e2)
      | .kUtf8 | .kJs =>
        if t < 1 then
          ({ s with phase := .error }, [Event.errorE "Negative length!"])
        else
          runF f { s with phase := .readString, srem := (t - 1).toNat } l
      | .kBindata =>
        if t < 0 then
          ({ s with phase := .error }, [Event.errorE "Negative length!"])
        else
          runF f { s with phase := .readBinSubtype, srem := t.toNat } l
      | _ => ({ s with phase := .error }, [Event.errorE "internal error"])
    | .readInt64 =>
      match grab 8 s.scratch l with
      | .inr sc => ({ s with phase := .readInt64, scratch := sc }, [])
      | .inl (full, rest) =>
        runF f { s with phase := .int64Cnt (toInt64 (rd64 full 0)), scratch := [] } rest
    | .int64Cnt t =>
      match s.typ with
      | .kInt64 =>
        let (s2, e2) := runF f { s with phase := .fieldTyp } l
        (s2, Event.int64 t :: e2)
      | .kUtcDatetime =>
        let (s2, e2) := runF f { s with phase := .fieldTyp } l
        (s2, Event.utcDatetime t :: e2)
      | .kTimestamp =>
        let (s2, e2) := runF f { s with phase := .fieldTyp } l
        (s2, Event.timestamp t :: e2)
      | _ => runF f { s with phase := .fieldTyp } l
    | .readBool =>
      match l with
      | [] => (s, [])
      | b :: rest =>
        let (s2, e2) := runF f { s with phase := .fieldTyp } rest
        (s2, Event.boolE (readBoolVal b) :: e2)
    | .readDouble =>
      match grab 8 s.scratch l with
      | .inr sc => ({ s with phase := .readDouble, scratch := sc }, [])
      | .inl (full, rest) =>
        runF f { s with phase := .doubleCnt (rd64 full 0), scratch := [] } rest
    | .doubleCnt bits =>
      let (s2, e2) := runF f { s with phase := .fieldTyp } l
      (s2, Event.doubleE bits :: e2)
    | .readString =>
      if l.length < s.srem then
        ({ s with phase := .readString, srem := s.srem - l.length },
          if l.isEmpty then [] else strEvents s.typ l)
      else
        let evs := strEvents s.typ (l.take s.srem) ++ strEvents s.typ []
        if s.typ = .kBindata then
          let (s2, e2) := runF f { s with phase := .fieldTyp, srem := 0 } (l.drop s.srem)
          (s2, evs ++ e2)
        else
          let (s2, e2) := runF f { s with phase := .stringTerm } (l.drop s.srem)
          (s2, evs ++ e2)
    | .stringTerm =>
      match l with
      | [] => (s, [])
      | b :: rest =>
        let s1 := { s with srem := 0 }
        if b ≠ 0 then
          ({ s1 with phase := .error }, [Event.errorE "expected null byte"])
        else
          runF f { s1 with phase := .fieldTyp } rest
    | .readBinSubtype =>
      match l with
      | [] => (s, [])
      | b :: rest =>
        let (s2, e2) := runF f { s with phase := .readString } rest
        (s2, Event.bindataSubtype b :: e2)
    | .readObjectId =>
      match grab 12 s.scratch l with
      | .inr sc => ({ s with phase := .readObjectId, scratch := sc }, [])
      | .inl (full, rest) =>
        let (s2, e2) := runF f { s with phase := .fieldTyp, scratch := [] } rest
        (s2, Event.objectId (full.take 12) :: e2)
    | .hdr =>
      if s.mode then
        match grab 36 s.hdrScratch l with
        | .inr sc => ({ s with phase := .hdr, hdrScratch := sc }, [])
        | .inl (full, rest) =>
          let hdrB := full.take 36
          let s1 := { s with phase := Phase.nextDoc, hdrScratch := hdrB, numberReturned := toInt32 (rd32 hdrB 32) }
          let (s2, e2) := runF f s1 rest
          (s2, Event.start hdrB :: e2)
      else (s, [])
    | .nextDoc =>
      if s.mode then
        let evs1 := if 0 < s.docCount then [Event.docDone] else []
        if s.docCount ≠ s.numberReturned then
          let s1 := { s with phase := documentStartPhase, docCount := s.docCount + 1, typ := BsonTag.kDocument }
          let (s2, e2) := runF f s1 l
          (s2, evs1 ++ Event.docStart s.docCount :: e2)
        else
          ({ s with phase := .done }, evs1 ++ [Event.stop])
      else (s, [])

/-- The number of interpreter calls `runF` can make on input `l` from
phase `p`, plus one. -/
def fuelFor (l : List Nat) (p : Phase) : Nat := 9 * l.length + p.rank + 1

/-- One `Consume(s, len)` call of the reader: `Consume` returns
immediately when `len == 0` (src/bson.h 831), otherwise it runs the
interpreter with sufficient fuel. -/
def consume (s : RState) (l : List Nat) : RState × List Event :=
  if l.isEmpty then (s, []) else runF (fuelFor l s.phase) s l

/-- A freshly `Clear()`ed plain `BsonReader`: initial state `kReadInt32`,
`typ_ = kDocument`, zero depth and scratch. -/
def plainInit : RState :=
  { mode := false, phase := .readInt32, typ := .kDocument, depth := 0,
    scratch := [], srem := 0, hdrScratch := [], docCount := 0,
    numberReturned := 0 }

/-- A freshly constructed `ResponseReader`: initial state `kHdr`. -/
def responseInit : RState :=
  { plainInit with mode := true, phase := .hdr }

/-! ### One-step unfolding lemmas for `runF`

`runF` is structural in its fuel, so each phase's body is exposed by a
definitional (`rfl`) lemma over a destructured state.  These are the
interface the later proofs use; `simp` never unfolds `runF` itself. -/

theorem runF_zero (s : RState) (l : List Nat) : runF 0 s l = (s, []) := rfl

theorem runF_done (f : Nat) (m : Bool) (t : BsonTag) (d : Int)
    (sc : List Nat) (sr : Nat) (h : List Nat) (dc nr : Int) (l : List Nat) :
    runF (f + 1) ⟨m, .done, t, d, sc, sr, h, dc, nr⟩ l =
      (⟨m, .done, t, d, sc, sr, h, dc, nr⟩, []) := rfl

theorem runF_err (f : Nat) (m : Bool) (t : BsonTag) (d : Int)
    (sc : List Nat) (sr : Nat) (h : List Nat) (dc nr : Int) (l : List Nat) :
    runF (f + 1) ⟨m, .error, t, d, sc, sr, h, dc, nr⟩ l =
      (⟨m, .error, t, d, sc, sr, h, dc, nr⟩, []) := rfl

theorem runF_fieldTyp (f : Nat) (m : Bool) (t : BsonTag) (d : Int)
    (sc : List Nat) (sr : Nat) (h : List Nat) (dc nr : Int) (l : List Nat) :
    runF (f + 1) ⟨m, .fieldTyp, t, d, sc, sr, h, dc, nr⟩ l =
      (match l with
      | [] => ((⟨m, .fieldTyp, t, d, sc, sr, h, dc, nr⟩ : RState), ([] : List Event))
      | b :: rest =>
        if b = 0 then
          if d - 1 = (0 : Int) then
            if m then
              let (s2, e2) := runF f ⟨m, .nextDoc, t, d - 1, sc, sr, h, dc, nr⟩ rest
              (s2, Event.close :: e2)
            else
              (⟨m, .done, t, d - 1, sc, sr, h, dc, nr⟩, [Event.close])
          else
            let (s2, e2) := runF f ⟨m, .fieldTyp, t, d - 1, sc, sr, h, dc, nr⟩ rest
            (s2, Event.close :: e2)
        else
          runF f ⟨m, .fieldName, ToBsonTag (sbyte b), d, sc, sr, h, dc, nr⟩ rest) := rfl

theorem runF_fieldName (f : Nat) (m : Bool) (t : BsonTag) (d : Int)
    (sc : List Nat) (sr : Nat) (h : List Nat) (dc nr : Int) (l : List Nat) :
    runF (f + 1) ⟨m, .fieldName, t, d, sc, sr, h, dc, nr⟩ l =
      (match splitAtNull l with
      | some (name, rest) =>
        let evs := (if name.isEmpty then [] else [Event.fieldName name]) ++
          [Event.fieldName []]
        let (s2, e2) := runF f ⟨m, .value, t, d, sc, sr, h, dc, nr⟩ rest
        (s2, evs ++ e2)
      | none =>
        (⟨m, .fieldName, t, d, sc, sr, h, dc, nr⟩,
          if l.isEmpty then [] else [Event.fieldName l])) := rfl

theorem runF_value (f : Nat) (m : Bool) (t : BsonTag) (d : Int)
    (sc : List Nat) (sr : Nat) (h : List Nat) (dc nr : Int) (l : List Nat) :
    runF (f + 1) ⟨m, .value, t, d, sc, sr, h, dc, nr⟩ l =
      (match t with
      | .kInt32 | .kArray | .kDocument | .kUtf8 | .kJs | .kBindata =>
        runF f ⟨m, .readInt32, t, d, sc, sr, h, dc, nr⟩ l
      | .kInt64 | .kUtcDatetime | .kTimestamp =>
        runF f ⟨m, .readInt64, t, d, sc, sr, h, dc, nr⟩ l
      | .kBool => runF f ⟨m, .readBool, t, d, sc, sr, h, dc, nr⟩ l
      | .kDouble => runF f ⟨m, .readDouble, t, d, sc, sr, h, dc, nr⟩ l
      | .kNull =>
        let (s2, e2) := runF f ⟨m, .fieldTyp, t, d, sc, sr, h, dc, nr⟩ l
        (s2, Event.nullE :: e2)
      | .kObjectId => runF f ⟨m, .readObjectId, t, d, sc, sr, h, dc, nr⟩ l
      | .kRegexp | .kScopedJs =>
        (⟨m, .error, t, d, sc, sr, h, dc, nr⟩,
          [Event.errorE "Field type no handled"])
      | .kMinKey =>
        (⟨m, .error, t, d, sc, sr, h, dc, nr⟩, [Event.errorE "Invalid bson tag"])
      | .kMaxKey =>
        (⟨m, .error, t, d, sc, sr, h, dc, nr⟩, [Event.errorE "Internal error"])) := rfl

theorem runF_readInt32 (f : Nat) (m : Bool) (t : BsonTag) (d : Int)
    (sc : List Nat) (sr : Nat) (h : List Nat) (dc nr : Int) (l : List Nat) :
    runF (f + 1) ⟨m, .readInt32, t, d, sc, sr, h, dc, nr⟩ l =
      (match grab 4 sc l with
      | .inr sc2 => (⟨m, .readInt32, t, d, sc2, sr, h, dc, nr⟩, [])
      | .inl (full, rest) =>
        runF f ⟨m, .int32Cnt (toInt32 (rd32 full 0)), t, d, [], sr, h, dc, nr⟩
          rest) := rfl

theorem runF_int32Cnt (f : Nat) (m : Bool) (t : BsonTag) (d : Int)
    (sc : List Nat) (sr : Nat) (h : List Nat) (dc nr : Int) (v : Int)
    (l : List Nat) :
    runF (f + 1) ⟨m, .int32Cnt v, t, d, sc, sr, h, dc, nr⟩ l =
      (match t with
      | .kDocument =>
        let (s2, e2) := runF f ⟨m, .fieldTyp, t, d + 1, sc, sr, h, dc, nr⟩ l
        (s2, Event.openDoc :: e2)
      | .kArray =>
        let (s2, e2) := runF f ⟨m, .fieldTyp, t, d + 1, sc, sr, h, dc, nr⟩ l
        (s2, Event.openArray :: e2)
      | .kInt32 =>
        let (s2, e2) := runF f ⟨m, .fieldTyp, t, d, sc, sr, h, dc, nr⟩ l
        (s2, Event.int32 v :: e2)
      | .kUtf8 =>
        if v < 1 then
          (⟨m, .error, t, d, sc, sr, h, dc, nr⟩, [Event.errorE "Negative length!"])
        else runF f ⟨m, .readString, t, d, sc, (v - 1).toNat, h, dc, nr⟩ l
      | .kJs =>
        if v < 1 then
          (⟨m, .error, t, d, sc, sr, h, dc, nr⟩, [Event.errorE "Negative length!"])
        else runF f ⟨m, .readString, t, d, sc, (v - 1).toNat, h, dc, nr⟩ l
      | .kBindata =>
        if v < 0 then
          (⟨m, .error, t, d, sc, sr, h, dc, nr⟩, [Event.errorE "Negative length!"])
        else runF f ⟨m, .readBinSubtype, t, d, sc, v.toNat, h, dc, nr⟩ l
      | _ => (⟨m, .error, t, d, sc, sr, h, dc, nr⟩,
          [Event.errorE "internal error"])) := rfl

theorem runF_readInt64 (f : Nat) (m : Bool) (t : BsonTag) (d : Int)
    (sc : List Nat) (sr : Nat) (h : List Nat) (dc nr : Int) (l : List Nat) :
    runF (f + 1) ⟨m, .readInt64, t, d, sc, sr, h, dc, nr⟩ l =
      (match grab 8 sc l with
      | .inr sc2 => (⟨m, .readInt64, t, d, sc2, sr, h, dc, nr⟩, [])
      | .inl (full, rest) =>
        runF f ⟨m, .int64Cnt (toInt64 (rd64 full 0)), t, d, [], sr, h, dc, nr⟩
          rest) := rfl

theorem runF_int64Cnt (f : Nat) (m : Bool) (t : BsonTag) (d : Int)
    (sc : List Nat) (sr : Nat) (h : List Nat) (dc nr : Int) (v : Int)
    (l : List Nat) :
    runF (f + 1) ⟨m, .int64Cnt v, t, d, sc, sr, h, dc, nr⟩ l =
      (match t with
      | .kInt64 =>
        let (s2, e2) := runF f ⟨m, .fieldTyp, t, d, sc, sr, h, dc, nr⟩ l
        (s2, Event.int64 v :: e2)
      | .kUtcDatetime =>
        let (s2, e2) := runF f ⟨m, .fieldTyp, t, d, sc, sr, h, dc, nr⟩ l
        (s2, Event.utcDatetime v :: e2)
      | .kTimestamp =>
        let (s2, e2) := runF f ⟨m, .fieldTyp, t, d, sc, sr, h, dc, nr⟩ l
        (s2, Event.timestamp v :: e2)
      | _ => runF f ⟨m, .fieldTyp, t, d, sc, sr, h, dc, nr⟩ l) := rfl

theorem runF_readBool (f : Nat) (m : Bool) (t : BsonTag) (d : Int)
    (sc : List Nat) (sr : Nat) (h : List Nat) (dc nr : Int) (l : List Nat) :
    runF (f + 1) ⟨m, .readBool, t, d, sc, sr, h, dc, nr⟩ l =
      (match l with
      | [] => ((⟨m, .readBool, t, d, sc, sr, h, dc, nr⟩ : RState), ([] : List Event))
      | b :: rest =>
        let (s2, e2) := runF f ⟨m, .fieldTyp, t, d, sc, sr, h, dc, nr⟩ rest
        (s2, Event.boolE (readBoolVal b) :: e2)) := rfl

theorem runF_readDouble (f : Nat) (m : Bool) (t : BsonTag) (d : Int)
    (sc : List Nat) (sr : Nat) (h : List Nat) (dc nr : Int) (l : List Nat) :
    runF (f + 1) ⟨m, .readDouble, t, d, sc, sr, h, dc, nr⟩ l =
      (match grab 8 sc l with
      | .inr sc2 => (⟨m, .readDouble, t, d, sc2, sr, h, dc, nr⟩, [])
      | .inl (full, rest) =>
        runF f ⟨m, .doubleCnt (rd64 full 0), t, d, [], sr, h, dc, nr⟩ rest) := rfl

theorem runF_doubleCnt (f : Nat) (m : Bool) (t : BsonTag) (d : Int)
    (sc : List Nat) (sr : Nat) (h : List Nat) (dc nr : Int) (bits : Nat)
    (l : List Nat) :
    runF (f + 1) ⟨m, .doubleCnt bits, t, d, sc, sr, h, dc, nr⟩ l =
      (let (s2, e2) := runF f ⟨m, .fieldTyp, t, d, sc, sr, h, dc, nr⟩ l
      (s2, Event.doubleE bits :: e2)) := rfl

theorem runF_readString (f : Nat) (m : Bool) (t : BsonTag) (d : Int)
    (sc : List Nat) (sr : Nat) (h : List Nat) (dc nr : Int) (l : List Nat) :
    runF (f + 1) ⟨m, .readString, t, d, sc, sr, h, dc, nr⟩ l =
      (if l.length < sr then
        ((⟨m, .readString, t, d, sc, sr - l.length, h, dc, nr⟩ : RState),
          if l.isEmpty then [] else strEvents t l)
      else
        let evs := strEvents t (l.take sr) ++ strEvents t []
        if t = .kBindata then
          let (s2, e2) := runF f ⟨m, .fieldTyp, t, d, sc, 0, h, dc, nr⟩ (l.drop sr)
          (s2, evs ++ e2)
        else
          let (s2, e2) := runF f ⟨m, .stringTerm, t, d, sc, sr, h, dc, nr⟩ (l.drop sr)
          (s2, evs ++ e2)) := rfl

theorem runF_stringTerm (f : Nat) (m : Bool) (t : BsonTag) (d : Int)
    (sc : List Nat) (sr : Nat) (h : List Nat) (dc nr : Int) (l : List Nat) :
    runF (f + 1) ⟨m, .stringTerm, t, d, sc, sr, h, dc, nr⟩ l =
      (match l with
      | [] => ((⟨m, .stringTerm, t, d, sc, sr, h, dc, nr⟩ : RState), ([] : List Event))
      | b :: rest =>
        if b ≠ 0 then
          (⟨m, .error, t, d, sc, 0, h, dc, nr⟩, [Event.errorE "expected null byte"])
        else runF f ⟨m, .fieldTyp, t, d, sc, 0, h, dc, nr⟩ rest) := rfl

theorem runF_readBinSubtype (f : Nat) (m : Bool) (t : BsonTag) (d : Int)
    (sc : List Nat) (sr : Nat) (h : List Nat) (dc nr : Int) (l : List Nat) :
    runF (f + 1) ⟨m, .readBinSubtype, t, d, sc, sr, h, dc, nr⟩ l =
      (match l with
      | [] => ((⟨m, .readBinSubtype, t, d, sc, sr, h, dc, nr⟩ : RState),
          ([] : List Event))
      | b :: rest =>
        let (s2, e2) := runF f ⟨m, .readString, t, d, sc, sr, h, dc, nr⟩ rest
        (s2, Event.bindataSubtype b :: e2)) := rfl

theorem runF_readObjectId (f : Nat) (m : Bool) (t : BsonTag) (d : Int)
    (sc : List Nat) (sr : Nat) (h : List Nat) (dc nr : Int) (l : List Nat) :
    runF (f + 1) ⟨m, .readObjectId, t, d, sc, sr, h, dc, nr⟩ l =
      (match grab 12 sc l with
      | .inr sc2 => (⟨m, .readObjectId, t, d, sc2, sr, h, dc, nr⟩, [])
      | .inl (full, rest) =>
        let (s2, e2) := runF f ⟨m, .fieldTyp, t, d, [], sr, h, dc, nr⟩ rest
        (s2, Event.objectId (full.take 12) :: e2)) := rfl

theorem runF_hdr (f : Nat) (m : Bool) (t : BsonTag) (d : Int)
    (sc : List Nat) (sr : Nat) (h : List Nat) (dc nr : Int) (l : List Nat) :
    runF (f + 1) ⟨m, .hdr, t, d, sc, sr, h, dc, nr⟩ l =
      (if m then
        match grab 36 h l with
        | .inr h2 => (⟨m, .hdr, t, d, sc, sr, h2, dc, nr⟩, [])
        | .inl (full, rest) =>
          let (s2, e2) := runF f ⟨m, .nextDoc, t, d, sc, sr, full.take 36, dc,
            toInt32 (rd32 (full.take 36) 32)⟩ rest
          (s2, Event.start (full.take 36) :: e2)
      else (⟨m, .hdr, t, d, sc, sr, h, dc, nr⟩, [])) := rfl

theorem runF_nextDoc (f : Nat) (m : Bool) (t : BsonTag) (d : Int)
    (sc : List Nat) (sr : Nat) (h : List Nat) (dc nr : Int) (l : List Nat) :
    runF (f + 1) ⟨m, .nextDoc, t, d, sc, sr, h, dc, nr⟩ l =
      (if m then
        let evs1 := if 0 < dc then [Event.docDone] else []
        if dc ≠ nr then
          let (s2, e2) := runF f ⟨m, documentStartPhase, .kDocument, d, sc, sr, h,
            dc + 1, nr⟩ l
          (s2, evs1 ++ Event.docStart dc :: e2)
        else (⟨m, .done, t, d, sc, sr, h, dc, nr⟩, evs1 ++ [Event.stop])
      else (⟨m, .nextDoc, t, d, sc, sr, h, dc, nr⟩, [])) := rfl

theorem consume_eq (s : RState) (b : Nat) (l : List Nat) :
    consume s (b :: l) =
      runF (9 * (b :: l).length + s.phase.rank + 1) s (b :: l) := rfl

theorem consume_nil (s : RState) : consume s [] = (s, []) := rfl

/-- C2 (counterexample): the claim says a document whose 4-byte length
prefix `L` satisfies `L ≤ 0` latches the `Error` state, but feeding a
document with prefix 0 (bytes 00 00 00 00 00) runs to `Done` with the
normal `open_doc`/`close` events and no error:
`ConsumeValueInt32Cnt` never inspects the decoded prefix for the
`kDocument`/`kArray` tags. -/
theorem c2_doc_len_check_refuted :
    toInt32 (rd32 [0, 0, 0, 0, 0] 0) = 0 ∧
      consume plainInit [0, 0, 0, 0, 0] =
        ({ plainInit with phase := .done, typ := .kDocument },
          [Event.openDoc, Event.close]) ∧
      Phase.done ≠ Phase.error := by
  exact ⟨by decide, by decide, by decide⟩

/-- C2 (amended): after the 4-byte length prefix `L` of a value is read
(`ConsumeValueInt32Cnt`, with `L` decoded from scratch), the parser
latches `Error` — emitting the `error` event, which is how `Consume`
comes to return the negative sentinel — iff `L ≤ 0` for the `Utf8`/`Js`
tags and iff `L < 0` for `Bindata`; for `Document`/`Array` the prefix is
not validated at all: the outcome is the same for every decoded `L`. -/
theorem c2_value_length_amended (s : RState) (t : Int) (f : Nat)
    (l : List Nat) (hp : s.phase = .int32Cnt t) :
    ((s.typ = .kUtf8 ∨ s.typ = .kJs) → t ≤ 0 →
      runF (f + 1) s l = ({ s with phase := .error },
        [Event.errorE "Negative length!"])) ∧
    (s.typ = .kBindata → t < 0 →
      runF (f + 1) s l = ({ s with phase := .error },
        [Event.errorE "Negative length!"])) ∧
    ((s.typ = .kDocument ∨ s.typ = .kArray) → ∀ t' : Int,
      runF (f + 1) s l = runF (f + 1) { s with phase := .int32Cnt t' } l) := by
  obtain ⟨mode, ph, typ, depth, scratch, srem, hsc, dc, nr⟩ := s
  simp only at hp
  subst hp
  refine ⟨?_, ?_, ?_⟩
  · rintro (rfl | rfl) hle
    · simp only [runF_int32Cnt]
      rw [if_pos (show t < 1 by omega)]
    · simp only [runF_int32Cnt]
      rw [if_pos (show t < 1 by omega)]
  · rintro rfl hlt
    simp only [runF_int32Cnt]
    rw [if_pos hlt]
  · rintro (rfl | rfl) t'
    · rfl
    · rfl

/-- C2 witness: a utf8 value with length prefix 0 latches the error, at
a concrete state. -/
theorem c2_value_length_amended_witness :
    runF 1 { plainInit with phase := .int32Cnt 0, typ := .kUtf8 } [] =
      ({ plainInit with phase := .error, typ := .kUtf8 },
        [Event.errorE "Negative length!"]) := by
  have h := (c2_value_length_amended
    { plainInit with phase := .int32Cnt 0, typ := .kUtf8 } 0 0 [] rfl).1
    (Or.inl rfl) (by norm_num)
  exact h

/-- C10 (counterexample): for the stored bool payload byte 0xFF (signed
value −1) the claim says the two read paths disagree, but both report
`false`: the streaming parser emits `*s > 0 = false` and
`BsonValue::GetBool` returns `*data == 1 = false`. -/
theorem c10_bool_negative_agree_refuted :
    sbyte 255 < 0 ∧
      (consume { plainInit with phase := .readBool, typ := .kBool }
        [255]).2 = [Event.boolE false] ∧
      (BsonValue.mk [255] .kBool 1).GetBool = false := by
  exact ⟨by decide, by decide, by decide⟩

/-- C10 (amended): the streaming parser emits `b > 0` (as a signed char)
for a stored bool byte `b` while `GetBool` on the same byte returns
`b == 1`; consequently the two paths differ exactly for the bytes with
signed value strictly greater than 1 (2..127), and they agree on 0, 1
and every negative byte (128..255). -/
theorem c10_bool_paths_amended (b : Fin 256) (s : RState) (l : List Nat)
    (hp : s.phase = .readBool) :
    (consume s (b.val :: l)).2.head? =
      some (Event.boolE (readBoolVal b.val)) ∧
    readBoolVal b.val = decide (0 < sbyte b.val) ∧
    (BsonValue.mk [b.val] .kBool 1).GetBool = decide (b.val = 1) ∧
    ((readBoolVal b.val = (BsonValue.mk [b.val] .kBool 1).GetBool) ↔
      (b.val ≤ 1 ∨ 128 ≤ b.val)) := by
  obtain ⟨mode, ph, typ, depth, scratch, srem, hsc, dc, nr⟩ := s
  simp only at hp
  subst hp
  refine ⟨rfl, rfl, ?_, ?_⟩
  · revert b
    set_option maxRecDepth 8192 in decide
  · revert b
    set_option maxRecDepth 8192 in decide

/-- C10 witness: at byte 2 the paths disagree (stream `true`, view
`false`); conjuncts instantiated at a concrete state. -/
theorem c10_bool_paths_amended_witness :
    (consume { plainInit with phase := .readBool } [2, 0]).2.head? =
      some (Event.boolE (readBoolVal 2)) ∧
    readBoolVal 2 = true ∧
    (BsonValue.mk [2] .kBool 1).GetBool = false := by
  have h := c10_bool_paths_amended (2 : Fin 256)
    { plainInit with phase := .readBool } [0] rfl
  exact ⟨h.1, by decide, by decide⟩

/-! ### Specialized unfolding lemmas (scrutinee given) -/

theorem runF_fieldTyp_nil (f : Nat) (m : Bool) (t : BsonTag) (d : Int)
    (sc : List Nat) (sr : Nat) (h : List Nat) (dc nr : Int) :
    runF (f + 1) ⟨m, .fieldTyp, t, d, sc, sr, h, dc, nr⟩ [] =
      (⟨m, .fieldTyp, t, d, sc, sr, h, dc, nr⟩, []) := rfl

theorem runF_fieldTyp_cons (f : Nat) (m : Bool) (t : BsonTag) (d : Int)
    (sc : List Nat) (sr : Nat) (h : List Nat) (dc nr : Int) (b : Nat)
    (rest : List Nat) :
    runF (f + 1) ⟨m, .fieldTyp, t, d, sc, sr, h, dc, nr⟩ (b :: rest) =
      (if b = 0 then
        if d - 1 = (0 : Int) then
          if m then
            let (s2, e2) := runF f ⟨m, .nextDoc, t, d - 1, sc, sr, h, dc, nr⟩ rest
            (s2, Event.close :: e2)
          else
            (⟨m, .done, t, d - 1, sc, sr, h, dc, nr⟩, [Event.close])
        else
          let (s2, e2) := runF f ⟨m, .fieldTyp, t, d - 1, sc, sr, h, dc, nr⟩ rest
          (s2, Event.close :: e2)
      else
        runF f ⟨m, .fieldName, ToBsonTag (sbyte b), d, sc, sr, h, dc, nr⟩ rest) := rfl

theorem runF_fieldName_none (f : Nat) (m : Bool) (t : BsonTag) (d : Int)
    (sc : List Nat) (sr : Nat) (h : List Nat) (dc nr : Int) {l : List Nat}
    (hsp : splitAtNull l = none) :
    runF (f + 1) ⟨m, .fieldName, t, d, sc, sr, h, dc, nr⟩ l =
      (⟨m, .fieldName, t, d, sc, sr, h, dc, nr⟩,
        if l.isEmpty then [] else [Event.fieldName l]) := by
  rw [runF_fieldName, hsp]

theorem runF_fieldName_some (f : Nat) (m : Bool) (t : BsonTag) (d : Int)
    (sc : List Nat) (sr : Nat) (h : List Nat) (dc nr : Int) {l : List Nat}
    {name rest : List Nat} (hsp : splitAtNull l = some (name, rest)) :
    runF (f + 1) ⟨m, .fieldName, t, d, sc, sr, h, dc, nr⟩ l =
      (let (s2, e2) := runF f ⟨m, .value, t, d, sc, sr, h, dc, nr⟩ rest
      (s2, ((if name.isEmpty then [] else [Event.fieldName name]) ++
        [Event.fieldName []]) ++ e2)) := by
  rw [runF_fieldName, hsp]

theorem runF_readInt32_inr (f : Nat) (m : Bool) (t : BsonTag) (d : Int)
    (sc : List Nat) (sr : Nat) (h : List Nat) (dc nr : Int) {l : List Nat}
    {sc2 : List Nat} (hg : grab 4 sc l = .inr sc2) :
    runF (f + 1) ⟨m, .readInt32, t, d, sc, sr, h, dc, nr⟩ l =
      (⟨m, .readInt32, t, d, sc2, sr, h, dc, nr⟩, []) := by
  rw [runF_readInt32, hg]

theorem runF_readInt32_inl (f : Nat) (m : Bool) (t : BsonTag) (d : Int)
    (sc : List Nat) (sr : Nat) (h : List Nat) (dc nr : Int) {l : List Nat}
    {full rest : List Nat} (hg : grab 4 sc l = .inl (full, rest)) :
    runF (f + 1) ⟨m, .readInt32, t, d, sc, sr, h, dc, nr⟩ l =
      runF f ⟨m, .int32Cnt (toInt32 (rd32 full 0)), t, d, [], sr, h, dc, nr⟩
        rest := by
  rw [runF_readInt32, hg]

theorem runF_readInt64_inr (f : Nat) (m : Bool) (t : BsonTag) (d : Int)
    (sc : List Nat) (sr : Nat) (h : List Nat) (dc nr : Int) {l : List Nat}
    {sc2 : List Nat} (hg : grab 8 sc l = .inr sc2) :
    runF (f + 1) ⟨m, .readInt64, t, d, sc, sr, h, dc, nr⟩ l =
      (⟨m, .readInt64, t, d, sc2, sr, h, dc, nr⟩, []) := by
  rw [runF_readInt64, hg]

theorem runF_readInt64_inl (f : Nat) (m : Bool) (t : BsonTag) (d : Int)
    (sc : List Nat) (sr : Nat) (h : List Nat) (dc nr : Int) {l : List Nat}
    {full rest : List Nat} (hg : grab 8 sc l = .inl (full, rest)) :
    runF (f + 1) ⟨m, .readInt64, t, d, sc, sr, h, dc, nr⟩ l =
      runF f ⟨m, .int64Cnt (toInt64 (rd64 full 0)), t, d, [], sr, h, dc, nr⟩
        rest := by
  rw [runF_readInt64, hg]

theorem runF_readDouble_inr (f : Nat) (m : Bool) (t : BsonTag) (d : Int)
    (sc : List Nat) (sr : Nat) (h : List Nat) (dc nr : Int) {l : List Nat}
    {sc2 : List Nat} (hg : grab 8 sc l = .inr sc2) :
    runF (f + 1) ⟨m, .readDouble, t, d, sc, sr, h, dc, nr⟩ l =
      (⟨m, .readDouble, t, d, sc2, sr, h, dc, nr⟩, []) := by
  rw [runF_readDouble, hg]

theorem runF_readDouble_inl (f : Nat) (m : Bool) (t : BsonTag) (d : Int)
    (sc : List Nat) (sr : Nat) (h : List Nat) (dc nr : Int) {l : List Nat}
    {full rest : List Nat} (hg : grab 8 sc l = .inl (full, rest)) :
    runF (f + 1) ⟨m, .readDouble, t, d, sc, sr, h, dc, nr⟩ l =
      runF f ⟨m, .doubleCnt (rd64 full 0), t, d, [], sr, h, dc, nr⟩ rest := by
  rw [runF_readDouble, hg]

theorem runF_readBool_nil (f : Nat) (m : Bool) (t : BsonTag) (d : Int)
    (sc : List Nat) (sr : Nat) (h : List Nat) (dc nr : Int) :
    runF (f + 1) ⟨m, .readBool, t, d, sc, sr, h, dc, nr⟩ [] =
      (⟨m, .readBool, t, d, sc, sr, h, dc, nr⟩, []) := rfl

theorem runF_readBool_cons (f : Nat) (m : Bool) (t : BsonTag) (d : Int)
    (sc : List Nat) (sr : Nat) (h : List Nat) (dc nr : Int) (b : Nat)
    (rest : List Nat) :
    runF (f + 1) ⟨m, .readBool, t, d, sc, sr, h, dc, nr⟩ (b :: rest) =
      (let (s2, e2) := runF f ⟨m, .fieldTyp, t, d, sc, sr, h, dc, nr⟩ rest
      (s2, Event.boolE (readBoolVal b) :: e2)) := rfl

theorem runF_stringTerm_nil (f : Nat) (m : Bool) (t : BsonTag) (d : Int)
    (sc : List Nat) (sr : Nat) (h : List Nat) (dc nr : Int) :
    runF (f + 1) ⟨m, .stringTerm, t, d, sc, sr, h, dc, nr⟩ [] =
      (⟨m, .stringTerm, t, d, sc, sr, h, dc, nr⟩, []) := rfl

theorem runF_stringTerm_cons (f : Nat) (m : Bool) (t : BsonTag) (d : Int)
    (sc : List Nat) (sr : Nat) (h : List Nat) (dc nr : Int) (b : Nat)
    (rest : List Nat) :
    runF (f + 1) ⟨m, .stringTerm, t, d, sc, sr, h, dc, nr⟩ (b :: rest) =
      (if b ≠ 0 then
        (⟨m, .error, t, d, sc, 0, h, dc, nr⟩, [Event.errorE "expected null byte"])
      else runF f ⟨m, .fieldTyp, t, d, sc, 0, h, dc, nr⟩ rest) := rfl

theorem runF_readBinSubtype_nil (f : Nat) (m : Bool) (t : BsonTag) (d : Int)
    (sc : List Nat) (sr : Nat) (h : List Nat) (dc nr : Int) :
    runF (f + 1) ⟨m, .readBinSubtype, t, d, sc, sr, h, dc, nr⟩ [] =
      (⟨m, .readBinSubtype, t, d, sc, sr, h, dc, nr⟩, []) := rfl

theorem runF_readBinSubtype_cons (f : Nat) (m : Bool) (t : BsonTag) (d : Int)
    (sc : List Nat) (sr : Nat) (h : List Nat) (dc nr : Int) (b : Nat)
    (rest : List Nat) :
    runF (f + 1) ⟨m, .readBinSubtype, t, d, sc, sr, h, dc, nr⟩ (b :: rest) =
      (let (s2, e2) := runF f ⟨m, .readString, t, d, sc, sr, h, dc, nr⟩ rest
      (s2, Event.bindataSubtype b :: e2)) := rfl

theorem runF_readObjectId_inr (f : Nat) (m : Bool) (t : BsonTag) (d : Int)
    (sc : List Nat) (sr : Nat) (h : List Nat) (dc nr : Int) {l : List Nat}
    {sc2 : List Nat} (hg : grab 12 sc l = .inr sc2) :
    runF (f + 1) ⟨m, .readObjectId, t, d, sc, sr, h, dc, nr⟩ l =
      (⟨m, .readObjectId, t, d, sc2, sr, h, dc, nr⟩, []) := by
  rw [runF_readObjectId, hg]

theorem runF_readObjectId_inl (f : Nat) (m : Bool) (t : BsonTag) (d : Int)
    (sc : List Nat) (sr : Nat) (h : List Nat) (dc nr : Int) {l : List Nat}
    {full rest : List Nat} (hg : grab 12 sc l = .inl (full, rest)) :
    runF (f + 1) ⟨m, .readObjectId, t, d, sc, sr, h, dc, nr⟩ l =
      (let (s2, e2) := runF f ⟨m, .fieldTyp, t, d, [], sr, h, dc, nr⟩ rest
      (s2, Event.objectId (full.take 12) :: e2)) := by
  rw [runF_readObjectId, hg]

theorem runF_hdr_plain (f : Nat) (t : BsonTag) (d : Int)
    (sc : List Nat) (sr : Nat) (h : List Nat) (dc nr : Int) (l : List Nat) :
    runF (f + 1) ⟨false, .hdr, t, d, sc, sr, h, dc, nr⟩ l =
      (⟨false, .hdr, t, d, sc, sr, h, dc, nr⟩, []) := rfl

theorem runF_hdr_inr (f : Nat) (t : BsonTag) (d : Int)
    (sc : List Nat) (sr : Nat) (h : List Nat) (dc nr : Int) {l : List Nat}
    {h2 : List Nat} (hg : grab 36 h l = .inr h2) :
    runF (f + 1) ⟨true, .hdr, t, d, sc, sr, h, dc, nr⟩ l =
      (⟨true, .hdr, t, d, sc, sr, h2, dc, nr⟩, []) := by
  rw [runF_hdr, if_pos rfl, hg]

theorem runF_hdr_inl (f : Nat) (t : BsonTag) (d : Int)
    (sc : List Nat) (sr : Nat) (h : List Nat) (dc nr : Int) {l : List Nat}
    {full rest : List Nat} (hg : grab 36 h l = .inl (full, rest)) :
    runF (f + 1) ⟨true, .hdr, t, d, sc, sr, h, dc, nr⟩ l =
      (let (s2, e2) := runF f ⟨true, .nextDoc, t, d, sc, sr, full.take 36, dc,
        toInt32 (rd32 (full.take 36) 32)⟩ rest
      (s2, Event.start (full.take 36) :: e2)) := by
  rw [runF_hdr, if_pos rfl, hg]

theorem runF_nextDoc_plain (f : Nat) (t : BsonTag) (d : Int)
    (sc : List Nat) (sr : Nat) (h : List Nat) (dc nr : Int) (l : List Nat) :
    runF (f + 1) ⟨false, .nextDoc, t, d, sc, sr, h, dc, nr⟩ l =
      (⟨false, .nextDoc, t, d, sc, sr, h, dc, nr⟩, []) := rfl

theorem runF_nextDoc_true (f : Nat) (t : BsonTag) (d : Int)
    (sc : List Nat) (sr : Nat) (h : List Nat) (dc nr : Int) (l : List Nat) :
    runF (f + 1) ⟨true, .nextDoc, t, d, sc, sr, h, dc, nr⟩ l =
      (if dc ≠ nr then
        let (s2, e2) := runF f ⟨true, documentStartPhase, .kDocument, d, sc, sr,
          h, dc + 1, nr⟩ l
        (s2, (if 0 < dc then [Event.docDone] else []) ++ Event.docStart dc :: e2)
      else (⟨true, .done, t, d, sc, sr, h, dc, nr⟩,
        (if 0 < dc then [Event.docDone] else []) ++ [Event.stop])) := rfl

/-! ## Chunk invariance (C4)

String-valued data (`EmitUtf8` / `EmitJs` / `EmitBindata` /
`EmitFieldName`) is delivered in chunks whose sizes depend on how the
input was sliced, each value closed by a zero-length call.  The
concatenated event sequence of a parse is therefore compared after
assembling each chunked value into one event (`norm`); all other events
are compared verbatim. -/

/-- The four chunk-delivered event kinds. -/
inductive SKind where
  | su | sj | sb | sf
  deriving DecidableEq, Repr

/-- The chunked-data payload of an event, if it is a data event. -/
def Event.strData : Event → Option (SKind × List Nat)
  | .utf8 l => some (.su, l)
  | .js l => some (.sj, l)
  | .bindata l => some (.sb, l)
  | .fieldName l => some (.sf, l)
  | _ => none

/-- Build the data event of a kind. -/
def mkData : SKind → List Nat → Event
  | .su, l => .utf8 l
  | .sj, l => .js l
  | .sb, l => .bindata l
  | .sf, l => .fieldName l

/-- A normalized event: either a non-data event, or a fully assembled
string value. -/
inductive NEvent where
  | plain (e : Event)
  | strFull (k : SKind) (data : List Nat)
  deriving DecidableEq, Repr

/-- Normalization step: data chunks accumulate; a zero-length chunk
closes the value. -/
def stepNorm (acc : Option (SKind × List Nat)) (e : Event) :
    Option (SKind × List Nat) × List NEvent :=
  match e.strData with
  | some (k, l) =>
    match acc with
    | some (k', a) =>
      if k' = k then
        if l.isEmpty then (none, [.strFull k a]) else (some (k, a ++ l), [])
      else
        if l.isEmpty then (none, [.strFull k' a, .strFull k []])
        else (some (k, l), [.strFull k' a])
    | none => if l.isEmpty then (none, [.strFull k []]) else (some (k, l), [])
  | none =>
    match acc with
    | some (k', a) => (none, [.strFull k' a, .plain e])
    | none => (none, [.plain e])

/-- Normalize an event list under an accumulator. -/
def normList (acc : Option (SKind × List Nat)) :
    List Event → Option (SKind × List Nat) × List NEvent
  | [] => (acc, [])
  | e :: es =>
    ((normList (stepNorm acc e).1 es).1,
      (stepNorm acc e).2 ++ (normList (stepNorm acc e).1 es).2)

/-- The normalized event sequence of a parse (an unterminated trailing
value is flushed). -/
def norm (es : List Event) : List NEvent :=
  let (a, o) := normList none es
  o ++ (match a with | some (k, x) => [.strFull k x] | none => [])

/-- Two raw event sequences are equivalent when they normalize alike
under every accumulator. -/
def EvEq (x y : List Event) : Prop := ∀ acc, normList acc x = normList acc y

theorem EvEq.refl (x : List Event) : EvEq x x := fun _ => rfl

theorem EvEq.norm_eq {x y : List Event} (h : EvEq x y) : norm x = norm y := by
  simp only [norm, h none]

theorem normList_append (acc : Option (SKind × List Nat))
    (x y : List Event) :
    normList acc (x ++ y) =
      ((normList (normList acc x).1 y).1,
        (normList acc x).2 ++ (normList (normList acc x).1 y).2) := by
  induction x generalizing acc with
  | nil => simp [normList]
  | cons e es ih =>
    simp only [List.cons_append, normList, List.append_eq]
    rw [ih]
    simp

theorem EvEq.append_left {x y : List Event} (p : List Event) (h : EvEq x y) :
    EvEq (p ++ x) (p ++ y) := by
  intro acc
  rw [normList_append, normList_append, h]

theorem EvEq.append_right {x y : List Event} (q : List Event) (h : EvEq x y) :
    EvEq (x ++ q) (y ++ q) := by
  intro acc
  rw [normList_append, normList_append, h]

theorem EvEq.trans {x y z : List Event} (h1 : EvEq x y) (h2 : EvEq y z) :
    EvEq x z := fun acc => (h1 acc).trans (h2 acc)

theorem mkData_strData (k : SKind) (l : List Nat) :
    (mkData k l).strData = some (k, l) := by
  cases k <;> rfl

/-- Splitting a non-empty data chunk in two non-empty pieces does not
change the normalized sequence. -/
theorem evEq_data_split (k : SKind) (a b : List Nat) (ha : ¬a.isEmpty)
    (hb : ¬b.isEmpty) :
    EvEq [mkData k (a ++ b)] [mkData k a, mkData k b] := by
  intro acc
  have hab : ¬(a ++ b).isEmpty = true := by
    simp_all [List.isEmpty_iff]
  simp only [normList, stepNorm, mkData_strData]
  cases acc with
  | none =>
    simp [ha, hb, hab]
  | some p =>
    obtain ⟨k', x⟩ := p
    by_cases hk : k' = k
    · subst hk
      simp [ha, hb, hab, List.append_assoc]
    · simp [ha, hb, hab, hk]

/-- `strEvents` of a non-`isEmpty`-sensitive kind as `mkData`. -/
def strKindOf (t : BsonTag) : Option SKind :=
  match t with
  | .kUtf8 => some .su
  | .kJs => some .sj
  | .kBindata => some .sb
  | _ => none

theorem strEvents_eq_some {t : BsonTag} {k : SKind}
    (h : strKindOf t = some k) (l : List Nat) :
    strEvents t l = [mkData k l] := by
  cases t <;> simp only [strKindOf, Option.some.injEq, reduceCtorEq] at h
  all_goals (subst h; rfl)

theorem strEvents_eq_none {t : BsonTag} (h : strKindOf t = none)
    (l : List Nat) : strEvents t l = [] := by
  cases t <;> simp_all [strKindOf, strEvents]

theorem splitAtNull_append_some {l1 : List Nat} {n r : List Nat}
    (h : splitAtNull l1 = some (n, r)) (l2 : List Nat) :
    splitAtNull (l1 ++ l2) = some (n, r ++ l2) := by
  induction l1 generalizing n r with
  | nil => simp [splitAtNull] at h
  | cons b bs ih =>
    simp only [splitAtNull] at h ⊢
    by_cases hb : b = 0
    · rw [if_pos hb] at h
      cases h
      rw [if_pos hb]
      rfl
    · rw [if_neg hb, Option.map_eq_some'] at h
      obtain ⟨⟨n1, r1⟩, h1, h2⟩ := h
      cases h2
      rw [if_neg hb, show bs.append l2 = bs ++ l2 from rfl, ih h1,
        Option.map_some']

theorem splitAtNull_append_none {l1 : List Nat}
    (h : splitAtNull l1 = none) (l2 : List Nat) :
    splitAtNull (l1 ++ l2) =
      (splitAtNull l2).map (fun p => (l1 ++ p.1, p.2)) := by
  induction l1 with
  | nil =>
    simp only [List.nil_append]
    cases hs : splitAtNull l2 with
    | none => simp [hs]
    | some p => simp [hs]
  | cons b bs ih =>
    simp only [splitAtNull] at h ⊢
    by_cases hb : b = 0
    · rw [if_pos hb] at h
      cases h
    · rw [if_neg hb, Option.map_eq_none'] at h
      rw [if_neg hb, show bs.append l2 = bs ++ l2 from rfl, ih h]
      cases splitAtNull l2 <;> simp

theorem grab_append_short {need : Nat} {sc l1 : List Nat}
    (h : l1.length < need - sc.length) (l2 : List Nat) :
    grab need sc (l1 ++ l2) = grab need (sc ++ l1) l2 := by
  simp only [grab, List.length_append]
  have he1 : need - (sc.length + l1.length) = need - sc.length - l1.length := by
    omega
  by_cases hc : l1.length + l2.length < need - sc.length
  · rw [if_pos hc, if_pos (by omega)]
    simp
  · rw [if_neg hc, if_neg (by omega)]
    have hk : need - sc.length = l1.length + (need - sc.length - l1.length) := by
      omega
    rw [hk]
    rw [List.take_append, List.drop_append]
    simp [he1]

theorem grab_append_enough {need : Nat} {sc l1 : List Nat}
    (h : need - sc.length ≤ l1.length) (l2 : List Nat) :
    grab need sc (l1 ++ l2) =
      .inl (sc ++ l1.take (need - sc.length),
        l1.drop (need - sc.length) ++ l2) := by
  simp only [grab, List.length_append]
  rw [if_neg (by omega)]
  rw [List.take_append_of_le_length h, List.drop_append_of_le_length h]

theorem grab_self_enough {need : Nat} {sc l1 : List Nat}
    (h : need - sc.length ≤ l1.length) :
    grab need sc l1 =
      .inl (sc ++ l1.take (need - sc.length), l1.drop (need - sc.length)) := by
  simp only [grab]
  rw [if_neg (by omega)]

theorem grab_self_short {need : Nat} {sc l1 : List Nat}
    (h : l1.length < need - sc.length) :
    grab need sc l1 = .inr (sc ++ l1) := by
  simp only [grab]
  rw [if_pos h]

/-- Fuel irrelevance: any fuel above the step bound gives the same
result. -/
theorem runF_irrel : ∀ (f g : Nat) (s : RState) (l : List Nat),
    9 * l.length + s.phase.rank < f → 9 * l.length + s.phase.rank < g →
    runF f s l = runF g s l := by
  intro f
  induction f with
  | zero =>
    intro g s l hf hg
    omega
  | succ f ih =>
    intro g s l hf hg
    obtain ⟨g', rfl⟩ : ∃ g', g = g' + 1 := ⟨g - 1, by omega⟩
    obtain ⟨m, p, t, d, sc, sr, hs, dc, nr⟩ := s
    cases p with
    | done => rw [runF_done, runF_done]
    | error => rw [runF_err, runF_err]
    | fieldTyp =>
      simp only [Phase.rank] at hf hg
      cases l with
      | nil => rw [runF_fieldTyp_nil, runF_fieldTyp_nil]
      | cons b rest =>
        simp only [List.length_cons] at hf hg
        rw [runF_fieldTyp_cons, runF_fieldTyp_cons]
        by_cases hb : b = 0
        · rw [if_pos hb, if_pos hb]
          by_cases hd : d - 1 = (0 : Int)
          · rw [if_pos hd, if_pos hd]
            cases m with
            | false => rfl
            | true =>
              rw [if_pos rfl, if_pos rfl,
                ih g' ⟨true, .nextDoc, t, d - 1, sc, sr, hs, dc, nr⟩ rest
                  (by simp [Phase.rank]; omega) (by simp [Phase.rank]; omega)]
          · rw [if_neg hd, if_neg hd,
              ih g' ⟨m, .fieldTyp, t, d - 1, sc, sr, hs, dc, nr⟩ rest
                (by simp [Phase.rank]; omega) (by simp [Phase.rank]; omega)]
        · rw [if_neg hb, if_neg hb]
          exact ih g' ⟨m, .fieldName, ToBsonTag (sbyte b), d, sc, sr, hs, dc, nr⟩
            rest (by simp [Phase.rank]; omega) (by simp [Phase.rank]; omega)
    | fieldName =>
      simp only [Phase.rank] at hf hg
      rcases hsp : splitAtNull l with _ | ⟨name, rest⟩
      · rw [runF_fieldName_none f m t d sc sr hs dc nr hsp,
          runF_fieldName_none g' m t d sc sr hs dc nr hsp]
      · have hlen := splitAtNull_len hsp
        rw [runF_fieldName_some f m t d sc sr hs dc nr hsp,
          runF_fieldName_some g' m t d sc sr hs dc nr hsp,
          ih g' ⟨m, .value, t, d, sc, sr, hs, dc, nr⟩ rest
            (by simp [Phase.rank]; omega) (by simp [Phase.rank]; omega)]
    | value =>
      simp only [Phase.rank] at hf hg
      rw [runF_value, runF_value]
      cases t with
      | kInt32 =>
        exact ih g' ⟨m, .readInt32, .kInt32, d, sc, sr, hs, dc, nr⟩ l
          (by simp [Phase.rank]; omega) (by simp [Phase.rank]; omega)
      | kArray =>
        exact ih g' ⟨m, .readInt32, .kArray, d, sc, sr, hs, dc, nr⟩ l
          (by simp [Phase.rank]; omega) (by simp [Phase.rank]; omega)
      | kDocument =>
        exact ih g' ⟨m, .readInt32, .kDocument, d, sc, sr, hs, dc, nr⟩ l
          (by simp [Phase.rank]; omega) (by simp [Phase.rank]; omega)
      | kUtf8 =>
        exact ih g' ⟨m, .readInt32, .kUtf8, d, sc, sr, hs, dc, nr⟩ l
          (by simp [Phase.rank]; omega) (by simp [Phase.rank]; omega)
      | kJs =>
        exact ih g' ⟨m, .readInt32, .kJs, d, sc, sr, hs, dc, nr⟩ l
          (by simp [Phase.rank]; omega) (by simp [Phase.rank]; omega)
      | kBindata =>
        exact ih g' ⟨m, .readInt32, .kBindata, d, sc, sr, hs, dc, nr⟩ l
          (by simp [Phase.rank]; omega) (by simp [Phase.rank]; omega)
      | kInt64 =>
        exact ih g' ⟨m, .readInt64, .kInt64, d, sc, sr, hs, dc, nr⟩ l
          (by simp [Phase.rank]; omega) (by simp [Phase.rank]; omega)
      | kUtcDatetime =>
        exact ih g' ⟨m, .readInt64, .kUtcDatetime, d, sc, sr, hs, dc, nr⟩ l
          (by simp [Phase.rank]; omega) (by simp [Phase.rank]; omega)
      | kTimestamp =>
        exact ih g' ⟨m, .readInt64, .kTimestamp, d, sc, sr, hs, dc, nr⟩ l
          (by simp [Phase.rank]; omega) (by simp [Phase.rank]; omega)
      | kBool =>
        exact ih g' ⟨m, .readBool, .kBool, d, sc, sr, hs, dc, nr⟩ l
          (by simp [Phase.rank]; omega) (by simp [Phase.rank]; omega)
      | kDouble =>
        exact ih g' ⟨m, .readDouble, .kDouble, d, sc, sr, hs, dc, nr⟩ l
          (by simp [Phase.rank]; omega) (by simp [Phase.rank]; omega)
      | kNull =>
        rw [ih g' ⟨m, .fieldTyp, .kNull, d, sc, sr, hs, dc, nr⟩ l
          (by simp [Phase.rank]; omega) (by simp [Phase.rank]; omega)]
      | kObjectId =>
        exact ih g' ⟨m, .readObjectId, .kObjectId, d, sc, sr, hs, dc, nr⟩ l
          (by simp [Phase.rank]; omega) (by simp [Phase.rank]; omega)
      | kRegexp => rfl
      | kScopedJs => rfl
      | kMinKey => rfl
      | kMaxKey => rfl
    | readInt32 =>
      simp only [Phase.rank] at hf hg
      rcases hg4 : grab 4 sc l with ⟨full, rest⟩ | sc2
      · have hrl := grab_inl_len hg4
        rw [runF_readInt32_inl f m t d sc sr hs dc nr hg4,
          runF_readInt32_inl g' m t d sc sr hs dc nr hg4]
        exact ih g' ⟨m, .int32Cnt (toInt32 (rd32 full 0)), t, d, [], sr, hs, dc,
          nr⟩ rest (by simp [Phase.rank]; omega) (by simp [Phase.rank]; omega)
      · rw [runF_readInt32_inr f m t d sc sr hs dc nr hg4,
          runF_readInt32_inr g' m t d sc sr hs dc nr hg4]
    | int32Cnt v =>
      simp only [Phase.rank] at hf hg
      rw [runF_int32Cnt, runF_int32Cnt]
      cases t with
      | kDocument =>
        rw [ih g' ⟨m, .fieldTyp, .kDocument, d + 1, sc, sr, hs, dc, nr⟩ l
          (by simp [Phase.rank]; omega) (by simp [Phase.rank]; omega)]
      | kArray =>
        rw [ih g' ⟨m, .fieldTyp, .kArray, d + 1, sc, sr, hs, dc, nr⟩ l
          (by simp [Phase.rank]; omega) (by simp [Phase.rank]; omega)]
      | kInt32 =>
        rw [ih g' ⟨m, .fieldTyp, .kInt32, d, sc, sr, hs, dc, nr⟩ l
          (by simp [Phase.rank]; omega) (by simp [Phase.rank]; omega)]
      | kUtf8 =>
        by_cases hv : v < 1
        · rw [if_pos hv, if_pos hv]
        · rw [if_neg hv, if_neg hv]
          exact ih g' ⟨m, .readString, .kUtf8, d, sc, (v - 1).toNat, hs, dc, nr⟩
            l (by simp [Phase.rank]; omega) (by simp [Phase.rank]; omega)
      | kJs =>
        by_cases hv : v < 1
        · rw [if_pos hv, if_pos hv]
        · rw [if_neg hv, if_neg hv]
          exact ih g' ⟨m, .readString, .kJs, d, sc, (v - 1).toNat, hs, dc, nr⟩
            l (by simp [Phase.rank]; omega) (by simp [Phase.rank]; omega)
      | kBindata =>
        by_cases hv : v < 0
        · rw [if_pos hv, if_pos hv]
        · rw [if_neg hv, if_neg hv]
          exact ih g' ⟨m, .readBinSubtype, .kBindata, d, sc, v.toNat, hs, dc, nr⟩
            l (by simp [Phase.rank]; omega) (by simp [Phase.rank]; omega)
      | kDouble => rfl
      | kObjectId => rfl
      | kBool => rfl
      | kUtcDatetime => rfl
      | kNull => rfl
      | kRegexp => rfl
      | kScopedJs => rfl
      | kInt64 => rfl
      | kTimestamp => rfl
      | kMinKey => rfl
      | kMaxKey => rfl
    | readInt64 =>
      simp only [Phase.rank] at hf hg
      rcases hg8 : grab 8 sc l with ⟨full, rest⟩ | sc2
      · have hrl := grab_inl_len hg8
        rw [runF_readInt64_inl f m t d sc sr hs dc nr hg8,
          runF_readInt64_inl g' m t d sc sr hs dc nr hg8]
        exact ih g' ⟨m, .int64Cnt (toInt64 (rd64 full 0)), t, d, [], sr, hs, dc,
          nr⟩ rest (by simp [Phase.rank]; omega) (by simp [Phase.rank]; omega)
      · rw [runF_readInt64_inr f m t d sc sr hs dc nr hg8,
          runF_readInt64_inr g' m t d sc sr hs dc nr hg8]
    | int64Cnt v =>
      simp only [Phase.rank] at hf hg
      rw [runF_int64Cnt, runF_int64Cnt]
      have hr := ih g' ⟨m, .fieldTyp, t, d, sc, sr, hs, dc, nr⟩ l
        (by simp [Phase.rank]; omega) (by simp [Phase.rank]; omega)
      cases t <;> rw [hr]
    | readBool =>
      simp only [Phase.rank] at hf hg
      cases l with
      | nil => rw [runF_readBool_nil, runF_readBool_nil]
      | cons b rest =>
        simp only [List.length_cons] at hf hg
        rw [runF_readBool_cons, runF_readBool_cons,
          ih g' ⟨m, .fieldTyp, t, d, sc, sr, hs, dc, nr⟩ rest
            (by simp [Phase.rank]; omega) (by simp [Phase.rank]; omega)]
    | readDouble =>
      simp only [Phase.rank] at hf hg
      rcases hg8 : grab 8 sc l with ⟨full, rest⟩ | sc2
      · have hrl := grab_inl_len hg8
        rw [runF_readDouble_inl f m t d sc sr hs dc nr hg8,
          runF_readDouble_inl g' m t d sc sr hs dc nr hg8]
        exact ih g' ⟨m, .doubleCnt (rd64 full 0), t, d, [], sr, hs, dc, nr⟩ rest
          (by simp [Phase.rank]; omega) (by simp [Phase.rank]; omega)
      · rw [runF_readDouble_inr f m t d sc sr hs dc nr hg8,
          runF_readDouble_inr g' m t d sc sr hs dc nr hg8]
    | doubleCnt bits =>
      simp only [Phase.rank] at hf hg
      rw [runF_doubleCnt, runF_doubleCnt,
        ih g' ⟨m, .fieldTyp, t, d, sc, sr, hs, dc, nr⟩ l
          (by simp [Phase.rank]; omega) (by simp [Phase.rank]; omega)]
    | readString =>
      simp only [Phase.rank] at hf hg
      rw [runF_readString, runF_readString]
      by_cases hl : l.length < sr
      · rw [if_pos hl, if_pos hl]
      · rw [if_neg hl, if_neg hl]
        by_cases ht : t = .kBindata
        · rw [if_pos ht, if_pos ht,
            ih g' ⟨m, .fieldTyp, t, d, sc, 0, hs, dc, nr⟩ (l.drop sr)
              (by simp [Phase.rank]; omega) (by simp [Phase.rank]; omega)]
        · rw [if_neg ht, if_neg ht,
            ih g' ⟨m, .stringTerm, t, d, sc, sr, hs, dc, nr⟩ (l.drop sr)
              (by simp [Phase.rank]; omega) (by simp [Phase.rank]; omega)]
    | stringTerm =>
      simp only [Phase.rank] at hf hg
      cases l with
      | nil => rw [runF_stringTerm_nil, runF_stringTerm_nil]
      | cons b rest =>
        simp only [List.length_cons] at hf hg
        rw [runF_stringTerm_cons, runF_stringTerm_cons]
        by_cases hb : b ≠ 0
        · rw [if_pos hb, if_pos hb]
        · rw [if_neg hb, if_neg hb]
          exact ih g' ⟨m, .fieldTyp, t, d, sc, 0, hs, dc, nr⟩ rest
            (by simp [Phase.rank]; omega) (by simp [Phase.rank]; omega)
    | readBinSubtype =>
      simp only [Phase.rank] at hf hg
      cases l with
      | nil => rw [runF_readBinSubtype_nil, runF_readBinSubtype_nil]
      | cons b rest =>
        simp only [List.length_cons] at hf hg
        rw [runF_readBinSubtype_cons, runF_readBinSubtype_cons,
          ih g' ⟨m, .readString, t, d, sc, sr, hs, dc, nr⟩ rest
            (by simp [Phase.rank]; omega) (by simp [Phase.rank]; omega)]
    | readObjectId =>
      simp only [Phase.rank] at hf hg
      rcases hg12 : grab 12 sc l with ⟨full, rest⟩ | sc2
      · have hrl := grab_inl_len hg12
        rw [runF_readObjectId_inl f m t d sc sr hs dc nr hg12,
          runF_readObjectId_inl g' m t d sc sr hs dc nr hg12,
          ih g' ⟨m, .fieldTyp, t, d, [], sr, hs, dc, nr⟩ rest
            (by simp [Phase.rank]; omega) (by simp [Phase.rank]; omega)]
      · rw [runF_readObjectId_inr f m t d sc sr hs dc nr hg12,
          runF_readObjectId_inr g' m t d sc sr hs dc nr hg12]
    | hdr =>
      simp only [Phase.rank] at hf hg
      cases m with
      | false => rw [runF_hdr_plain, runF_hdr_plain]
      | true =>
        rcases hg36 : grab 36 hs l with ⟨full, rest⟩ | hs2
        · have hrl := grab_inl_len hg36
          rw [runF_hdr_inl f t d sc sr hs dc nr hg36,
            runF_hdr_inl g' t d sc sr hs dc nr hg36,
            ih g' ⟨true, .nextDoc, t, d, sc, sr, full.take 36, dc,
              toInt32 (rd32 (full.take 36) 32)⟩ rest
              (by simp [Phase.rank]; omega) (by simp [Phase.rank]; omega)]
        · rw [runF_hdr_inr f t d sc sr hs dc nr hg36,
            runF_hdr_inr g' t d sc sr hs dc nr hg36]
    | nextDoc =>
      simp only [Phase.rank] at hf hg
      cases m with
      | false => rw [runF_nextDoc_plain, runF_nextDoc_plain]
      | true =>
        rw [runF_nextDoc_true, runF_nextDoc_true]
        by_cases hdc : dc ≠ nr
        · rw [if_pos hdc, if_pos hdc,
            ih g' ⟨true, documentStartPhase, .kDocument, d, sc, sr, hs, dc + 1,
              nr⟩ l (by simp [Phase.rank, documentStartPhase]; omega)
              (by simp [Phase.rank, documentStartPhase]; omega)]
        · rw [if_neg hdc, if_neg hdc]

/-- One `Consume` continuation with canonical fuel (no empty-input
guard: this is the semantics of the in-flight consume functions, which
`consume` equals on non-empty input). -/
def consumeRaw (s : RState) (l : List Nat) : RState × List Event :=
  runF (9 * l.length + s.phase.rank + 1) s l

theorem consume_eq_raw (s : RState) (b : Nat) (l : List Nat) :
    consume s (b :: l) = consumeRaw s (b :: l) := rfl

theorem grab_inr_elim {need : Nat} {sc l sc2 : List Nat}
    (h : grab need sc l = .inr sc2) :
    sc2 = sc ++ l ∧ l.length < need - sc.length := by
  simp only [grab] at h
  split at h
  · cases h
    exact ⟨rfl, by assumption⟩
  · cases h

theorem grab_inl_elim {need : Nat} {sc l full rest : List Nat}
    (h : grab need sc l = .inl (full, rest)) :
    need - sc.length ≤ l.length ∧ full = sc ++ l.take (need - sc.length) ∧
      rest = l.drop (need - sc.length) := by
  simp only [grab] at h
  split at h
  · cases h
  · cases h
    refine ⟨by omega, rfl, rfl⟩

/-- `partial_` is scratch for the `kReadString` state; when a chunk ends
exactly before a string's null terminator, `ConsumeValueStringTerm`
(bson.h 1002-1015) parks in `kReadStringTerm` without resetting it, so
the stale value left behind depends on how the input was chunked.
States are therefore compared after clearing it in that one state (where
it is dead: the next byte sets it to 0 on every path). -/
def canonSrem (s : RState) : RState :=
  if s.phase = .stringTerm then { s with srem := 0 } else s

theorem canonSrem_phase (s : RState) : (canonSrem s).phase = s.phase := by
  unfold canonSrem
  split <;> rfl

/-- The stale `partial_` in `kReadStringTerm` does not influence the
run: results from two values agree on events and on canonical states. -/
theorem runF_canon (f : Nat) (m : Bool) (t : BsonTag) (d : Int)
    (sc : List Nat) (sr sr' : Nat) (hs : List Nat) (dc nr : Int)
    (l : List Nat) :
    (runF f ⟨m, .stringTerm, t, d, sc, sr, hs, dc, nr⟩ l).2 =
      (runF f ⟨m, .stringTerm, t, d, sc, sr', hs, dc, nr⟩ l).2 ∧
    canonSrem (runF f ⟨m, .stringTerm, t, d, sc, sr, hs, dc, nr⟩ l).1 =
      canonSrem (runF f ⟨m, .stringTerm, t, d, sc, sr', hs, dc, nr⟩ l).1 := by
  cases f with
  | zero =>
    rw [runF_zero, runF_zero]
    exact ⟨rfl, by simp [canonSrem]⟩
  | succ f =>
    cases l with
    | nil =>
      rw [runF_stringTerm_nil, runF_stringTerm_nil]
      exact ⟨rfl, by simp [canonSrem]⟩
    | cons b rest =>
      rw [runF_stringTerm_cons, runF_stringTerm_cons]
      exact ⟨rfl, rfl⟩

/-- The split decomposition relation: a whole-input run `w` agrees with
a first-chunk run `p` continued on the second chunk (states compared
canonically, events up to chunked-data reassembly). -/
def SplitOk (w p : RState × List Event) (l2 : List Nat) : Prop :=
  canonSrem w.1 = canonSrem (consumeRaw p.1 l2).1 ∧
    EvEq w.2 (p.2 ++ (consumeRaw p.1 l2).2)

theorem evEq_of_eq {x y : List Event} (h : x = y) : EvEq x y := by
  intro acc
  rw [h]

theorem SplitOk.with_prefix {w p : RState × List Event} {l2 : List Nat}
    (pre : List Event) (h : SplitOk w p l2) :
    SplitOk (w.1, pre ++ w.2) (p.1, pre ++ p.2) l2 := by
  obtain ⟨h1, h2⟩ := h
  refine ⟨h1, ?_⟩
  have := EvEq.append_left pre h2
  rw [List.append_assoc]
  exact this

theorem SplitOk.of_eq {w : RState × List Event} {s1 : RState} {l2 : List Nat}
    (h : w = consumeRaw s1 l2) : SplitOk w (s1, []) l2 := by
  subst h
  exact ⟨rfl, fun acc => by rw [List.nil_append]⟩

theorem SplitOk.terminal {sE : RState} {evs : List Event} {l2 : List Nat}
    (hterm : consumeRaw sE l2 = (sE, [])) :
    SplitOk (sE, evs) (sE, evs) l2 := by
  refine ⟨by rw [hterm], ?_⟩
  rw [hterm]
  exact evEq_of_eq (by simp)

theorem runF_readInt32_absorb (f : Nat) (m : Bool) (t : BsonTag) (d : Int)
    (sc : List Nat) (sr : Nat) (h : List Nat) (dc nr : Int) {l1 : List Nat}
    (l2 : List Nat) (hlen : l1.length < 4 - sc.length) :
    runF (f + 1) ⟨m, .readInt32, t, d, sc, sr, h, dc, nr⟩ (l1 ++ l2) =
      runF (f + 1) ⟨m, .readInt32, t, d, sc ++ l1, sr, h, dc, nr⟩ l2 := by
  rw [runF_readInt32, runF_readInt32, grab_append_short hlen]

theorem runF_readInt64_absorb (f : Nat) (m : Bool) (t : BsonTag) (d : Int)
    (sc : List Nat) (sr : Nat) (h : List Nat) (dc nr : Int) {l1 : List Nat}
    (l2 : List Nat) (hlen : l1.length < 8 - sc.length) :
    runF (f + 1) ⟨m, .readInt64, t, d, sc, sr, h, dc, nr⟩ (l1 ++ l2) =
      runF (f + 1) ⟨m, .readInt64, t, d, sc ++ l1, sr, h, dc, nr⟩ l2 := by
  rw [runF_readInt64, runF_readInt64, grab_append_short hlen]

theorem runF_readDouble_absorb (f : Nat) (m : Bool) (t : BsonTag) (d : Int)
    (sc : List Nat) (sr : Nat) (h : List Nat) (dc nr : Int) {l1 : List Nat}
    (l2 : List Nat) (hlen : l1.length < 8 - sc.length) :
    runF (f + 1) ⟨m, .readDouble, t, d, sc, sr, h, dc, nr⟩ (l1 ++ l2) =
      runF (f + 1) ⟨m, .readDouble, t, d, sc ++ l1, sr, h, dc, nr⟩ l2 := by
  rw [runF_readDouble, runF_readDouble, grab_append_short hlen]

theorem runF_readObjectId_absorb (f : Nat) (m : Bool) (t : BsonTag) (d : Int)
    (sc : List Nat) (sr : Nat) (h : List Nat) (dc nr : Int) {l1 : List Nat}
    (l2 : List Nat) (hlen : l1.length < 12 - sc.length) :
    runF (f + 1) ⟨m, .readObjectId, t, d, sc, sr, h, dc, nr⟩ (l1 ++ l2) =
      runF (f + 1) ⟨m, .readObjectId, t, d, sc ++ l1, sr, h, dc, nr⟩ l2 := by
  rw [runF_readObjectId, runF_readObjectId, grab_append_short hlen]

theorem runF_hdr_absorb (f : Nat) (t : BsonTag) (d : Int)
    (sc : List Nat) (sr : Nat) (h : List Nat) (dc nr : Int) {l1 : List Nat}
    (l2 : List Nat) (hlen : l1.length < 36 - h.length) :
    runF (f + 1) ⟨true, .hdr, t, d, sc, sr, h, dc, nr⟩ (l1 ++ l2) =
      runF (f + 1) ⟨true, .hdr, t, d, sc, sr, h ++ l1, dc, nr⟩ l2 := by
  rw [runF_hdr, runF_hdr, grab_append_short hlen, if_pos rfl, if_pos rfl]

theorem SplitOk.with_cons {w p : RState × List Event} {l2 : List Nat}
    (e : Event) (h : SplitOk w p l2) :
    SplitOk (w.1, e :: w.2) (p.1, e :: p.2) l2 := by
  have h2 := h.with_prefix [e]
  exact h2

theorem SplitOk.with_mid {w p : RState × List Event} {l2 : List Nat}
    (pre : List Event) (e : Event) (h : SplitOk w p l2) :
    SplitOk (w.1, pre ++ e :: w.2) (p.1, pre ++ e :: p.2) l2 := by
  have h2 := h.with_prefix (pre ++ [e])
  obtain ⟨h1, h3⟩ := h2
  refine ⟨h1, ?_⟩
  simpa using h3

theorem SplitOk.parts {s1 s2 : RState} {e1 e2 : List Event} {l2 : List Nat}
    (h1 : canonSrem s1 = canonSrem (consumeRaw s2 l2).1)
    (h2 : EvEq e1 (e2 ++ (consumeRaw s2 l2).2)) :
    SplitOk (s1, e1) (s2, e2) l2 := ⟨h1, h2⟩

theorem EvEq.symm {x y : List Event} (h : EvEq x y) : EvEq y x :=
  fun acc => (h acc).symm

theorem drop_append_long {l1 : List Nat} (l2 : List Nat) {n : Nat}
    (h : l1.length ≤ n) : (l1 ++ l2).drop n = l2.drop (n - l1.length) := by
  have hk : n = l1.length + (n - l1.length) := by omega
  rw [hk, List.drop_append]
  simp

theorem take_append_long {l1 : List Nat} (l2 : List Nat) {n : Nat}
    (h : l1.length ≤ n) : (l1 ++ l2).take n = l1 ++ l2.take (n - l1.length) := by
  have hk : n = l1.length + (n - l1.length) := by omega
  rw [hk, List.take_append]
  simp

/-- The central decomposition: one run over `l1 ++ l2` agrees with a
`Consume` of `l1` followed by a `Consume` of `l2` — canonical final
states, and events up to reassembly of chunked string data. -/
theorem runF_append : ∀ (f : Nat) (s : RState) (l1 l2 : List Nat),
    9 * (l1.length + l2.length) + s.phase.rank < f →
    SplitOk (runF f s (l1 ++ l2)) (consumeRaw s l1) l2 := by
  intro f
  induction f with
  | zero =>
    intro s l1 l2 hbnd
    omega
  | succ f ih =>
    intro s l1 l2 hbnd
    obtain ⟨m, p, t, d, sc, sr, hs, dc, nr⟩ := s
    cases p with
    | done =>
      have hw : runF (f + 1) ⟨m, .done, t, d, sc, sr, hs, dc, nr⟩ (l1 ++ l2) = (⟨m, .done, t, d, sc, sr, hs, dc, nr⟩, []) := by
        rw [runF_done]
      have hp : consumeRaw ⟨m, .done, t, d, sc, sr, hs, dc, nr⟩ l1 = (⟨m, .done, t, d, sc, sr, hs, dc, nr⟩, []) := by
        simp only [consumeRaw]
        rw [runF_done]
      rw [hw, hp]
      exact SplitOk.terminal rfl
    | error =>
      have hw : runF (f + 1) ⟨m, .error, t, d, sc, sr, hs, dc, nr⟩ (l1 ++ l2) = (⟨m, .error, t, d, sc, sr, hs, dc, nr⟩, []) := by
        rw [runF_err]
      have hp : consumeRaw ⟨m, .error, t, d, sc, sr, hs, dc, nr⟩ l1 = (⟨m, .error, t, d, sc, sr, hs, dc, nr⟩, []) := by
        simp only [consumeRaw]
        rw [runF_err]
      rw [hw, hp]
      exact SplitOk.terminal rfl
    | fieldTyp =>
      simp only [Phase.rank] at hbnd
      cases l1 with
      | nil =>
        simp only [List.length_nil] at hbnd
        exact SplitOk.of_eq (runF_irrel (f + 1) _ _ l2
          (by simp only [Phase.rank]; omega) (by simp only [Phase.rank]; omega))
      | cons b rest =>
        simp only [List.length_cons] at hbnd
        by_cases hb : b = 0
        · by_cases hd : d - 1 = (0 : Int)
          · cases m with
            | false =>
              have hw : runF (f + 1) ⟨false, .fieldTyp, t, d, sc, sr, hs, dc, nr⟩ ((b :: rest) ++ l2) =
                  (⟨false, .done, t, d - 1, sc, sr, hs, dc, nr⟩, [Event.close]) := by
                simp only [List.cons_append]
                rw [runF_fieldTyp_cons, if_pos hb, if_pos hd, if_neg (by simp)]
              have hp : consumeRaw ⟨false, .fieldTyp, t, d, sc, sr, hs, dc, nr⟩ (b :: rest) =
                  (⟨false, .done, t, d - 1, sc, sr, hs, dc, nr⟩, [Event.close]) := by
                simp only [consumeRaw]
                rw [runF_fieldTyp_cons, if_pos hb, if_pos hd, if_neg (by simp)]
              rw [hw, hp]
              exact SplitOk.terminal rfl
            | true =>
              have hw : runF (f + 1) ⟨true, .fieldTyp, t, d, sc, sr, hs, dc, nr⟩ ((b :: rest) ++ l2) =
                  ((runF f ⟨true, .nextDoc, t, d - 1, sc, sr, hs, dc, nr⟩ (rest ++ l2)).1,
                    Event.close ::
                      (runF f ⟨true, .nextDoc, t, d - 1, sc, sr, hs, dc, nr⟩ (rest ++ l2)).2) := by
                simp only [List.cons_append]
                rw [runF_fieldTyp_cons, if_pos hb, if_pos hd, if_pos rfl]
              have hp : consumeRaw ⟨true, .fieldTyp, t, d, sc, sr, hs, dc, nr⟩ (b :: rest) =
                  ((consumeRaw ⟨true, .nextDoc, t, d - 1, sc, sr, hs, dc, nr⟩ rest).1,
                    Event.close ::
                      (consumeRaw ⟨true, .nextDoc, t, d - 1, sc, sr, hs, dc, nr⟩ rest).2) := by
                simp only [consumeRaw]
                rw [runF_fieldTyp_cons, if_pos hb, if_pos hd, if_pos rfl]
                rw [runF_irrel (9 * (b :: rest).length + Phase.rank .fieldTyp)
                  (9 * rest.length + Phase.rank .nextDoc + 1)
                  ⟨true, .nextDoc, t, d - 1, sc, sr, hs, dc, nr⟩ rest
                  (by simp only [Phase.rank, List.length_cons]; omega)
                  (by simp only [Phase.rank]; omega)]
              rw [hw, hp]
              exact SplitOk.with_cons Event.close
                (ih ⟨true, .nextDoc, t, d - 1, sc, sr, hs, dc, nr⟩ rest l2
                  (by simp only [Phase.rank]; omega))
          · have hw : runF (f + 1) ⟨m, .fieldTyp, t, d, sc, sr, hs, dc, nr⟩ ((b :: rest) ++ l2) =
                ((runF f ⟨m, .fieldTyp, t, d - 1, sc, sr, hs, dc, nr⟩ (rest ++ l2)).1,
                  Event.close :: (runF f ⟨m, .fieldTyp, t, d - 1, sc, sr, hs, dc, nr⟩ (rest ++ l2)).2) := by
              simp only [List.cons_append]
              rw [runF_fieldTyp_cons, if_pos hb, if_neg hd]
            have hp : consumeRaw ⟨m, .fieldTyp, t, d, sc, sr, hs, dc, nr⟩ (b :: rest) =
                ((consumeRaw ⟨m, .fieldTyp, t, d - 1, sc, sr, hs, dc, nr⟩ rest).1,
                  Event.close :: (consumeRaw ⟨m, .fieldTyp, t, d - 1, sc, sr, hs, dc, nr⟩ rest).2) := by
              simp only [consumeRaw]
              rw [runF_fieldTyp_cons, if_pos hb, if_neg hd]
              rw [runF_irrel (9 * (b :: rest).length + Phase.rank .fieldTyp)
                (9 * rest.length + Phase.rank .fieldTyp + 1)
                ⟨m, .fieldTyp, t, d - 1, sc, sr, hs, dc, nr⟩ rest
                (by simp only [Phase.rank, List.length_cons]; omega)
                (by simp only [Phase.rank]; omega)]
            rw [hw, hp]
            exact SplitOk.with_cons Event.close
              (ih ⟨m, .fieldTyp, t, d - 1, sc, sr, hs, dc, nr⟩ rest l2
                (by simp only [Phase.rank]; omega))
        · have hw : runF (f + 1) ⟨m, .fieldTyp, t, d, sc, sr, hs, dc, nr⟩ ((b :: rest) ++ l2) =
              runF f ⟨m, .fieldName, ToBsonTag (sbyte b), d, sc, sr, hs, dc, nr⟩ (rest ++ l2) := by
            simp only [List.cons_append]
            rw [runF_fieldTyp_cons, if_neg hb]
          have hp : consumeRaw ⟨m, .fieldTyp, t, d, sc, sr, hs, dc, nr⟩ (b :: rest) =
              consumeRaw ⟨m, .fieldName, ToBsonTag (sbyte b), d, sc, sr, hs, dc, nr⟩ rest := by
            simp only [consumeRaw]
            rw [runF_fieldTyp_cons, if_neg hb]
            exact runF_irrel (9 * (b :: rest).length + Phase.rank .fieldTyp)
              (9 * rest.length + Phase.rank .fieldName + 1)
              ⟨m, .fieldName, ToBsonTag (sbyte b), d, sc, sr, hs, dc, nr⟩ rest
              (by simp only [Phase.rank, List.length_cons]; omega)
              (by simp only [Phase.rank]; omega)
          rw [hw, hp]
          exact ih ⟨m, .fieldName, ToBsonTag (sbyte b), d, sc, sr, hs, dc, nr⟩ rest l2
            (by simp only [Phase.rank]; omega)
    | fieldName =>
      simp only [Phase.rank] at hbnd
      rcases hsp : splitAtNull l1 with _ | ⟨name, rest⟩
      · rcases hsp2 : splitAtNull l2 with _ | ⟨n2, r2⟩
        · have hall : splitAtNull (l1 ++ l2) = none := by
            simp [splitAtNull_append_none hsp, hsp2]
          have hw := runF_fieldName_none f m t d sc sr hs dc nr hall
          have hp : consumeRaw ⟨m, .fieldName, t, d, sc, sr, hs, dc, nr⟩ l1 =
              (⟨m, .fieldName, t, d, sc, sr, hs, dc, nr⟩, if l1.isEmpty then [] else [Event.fieldName l1]) := by
            simp only [consumeRaw]
            rw [runF_fieldName_none _ m t d sc sr hs dc nr hsp]
          have hq : consumeRaw ⟨m, .fieldName, t, d, sc, sr, hs, dc, nr⟩ l2 =
              (⟨m, .fieldName, t, d, sc, sr, hs, dc, nr⟩, if l2.isEmpty then [] else [Event.fieldName l2]) := by
            simp only [consumeRaw]
            rw [runF_fieldName_none _ m t d sc sr hs dc nr hsp2]
          rw [hw, hp]
          refine SplitOk.parts ?_ ?_
          · rw [hq]
          · rw [hq]
            rcases l1 with _ | ⟨x1, xs1⟩
            · exact evEq_of_eq (by simp)
            · rcases l2 with _ | ⟨x2, xs2⟩
              · exact evEq_of_eq (by simp)
              · have hsplit := evEq_data_split .sf (x1 :: xs1) (x2 :: xs2)
                  (by simp) (by simp)
                simp only [mkData] at hsplit
                refine EvEq.trans (evEq_of_eq ?_)
                  (EvEq.trans hsplit (evEq_of_eq ?_))
                · simp
                · simp
        · have hlen2 := splitAtNull_len hsp2
          have hall : splitAtNull (l1 ++ l2) = some (l1 ++ n2, r2) := by
            simp [splitAtNull_append_none hsp, hsp2]
          have hw : runF (f + 1) ⟨m, .fieldName, t, d, sc, sr, hs, dc, nr⟩ (l1 ++ l2) =
              ((runF f ⟨m, .value, t, d, sc, sr, hs, dc, nr⟩ r2).1,
                ((if (l1 ++ n2).isEmpty then [] else [Event.fieldName (l1 ++ n2)]) ++
                  [Event.fieldName []]) ++ (runF f ⟨m, .value, t, d, sc, sr, hs, dc, nr⟩ r2).2) := by
            rw [runF_fieldName_some f m t d sc sr hs dc nr hall]
          have hp : consumeRaw ⟨m, .fieldName, t, d, sc, sr, hs, dc, nr⟩ l1 =
              (⟨m, .fieldName, t, d, sc, sr, hs, dc, nr⟩, if l1.isEmpty then [] else [Event.fieldName l1]) := by
            simp only [consumeRaw]
            rw [runF_fieldName_none _ m t d sc sr hs dc nr hsp]
          have hq : consumeRaw ⟨m, .fieldName, t, d, sc, sr, hs, dc, nr⟩ l2 =
              ((runF (9 * l2.length + Phase.rank .fieldName) ⟨m, .value, t, d, sc, sr, hs, dc, nr⟩ r2).1,
                ((if n2.isEmpty then [] else [Event.fieldName n2]) ++
                  [Event.fieldName []]) ++
                  (runF (9 * l2.length + Phase.rank .fieldName) ⟨m, .value, t, d, sc, sr, hs, dc, nr⟩ r2).2) := by
            simp only [consumeRaw]
            rw [runF_fieldName_some _ m t d sc sr hs dc nr hsp2]
          have hWQ : runF f ⟨m, .value, t, d, sc, sr, hs, dc, nr⟩ r2 =
              runF (9 * l2.length + Phase.rank .fieldName) ⟨m, .value, t, d, sc, sr, hs, dc, nr⟩ r2 :=
            runF_irrel f _ ⟨m, .value, t, d, sc, sr, hs, dc, nr⟩ r2
              (by simp only [Phase.rank]; omega) (by simp only [Phase.rank]; omega)
          rw [hw, hp]
          refine SplitOk.parts ?_ ?_
          · rw [hq, hWQ]
          · rw [hq, hWQ]
            have hcore : EvEq
                ((if (l1 ++ n2).isEmpty then [] else [Event.fieldName (l1 ++ n2)]) ++
                  [Event.fieldName []])
                ((if l1.isEmpty then [] else [Event.fieldName l1]) ++
                  ((if n2.isEmpty then [] else [Event.fieldName n2]) ++
                    [Event.fieldName []])) := by
              rcases l1 with _ | ⟨x1, xs1⟩
              · exact evEq_of_eq (by simp)
              · rcases n2 with _ | ⟨y1, ys1⟩
                · exact evEq_of_eq (by simp)
                · have hsplit := evEq_data_split .sf (x1 :: xs1) (y1 :: ys1)
                    (by simp) (by simp)
                  simp only [mkData] at hsplit
                  refine EvEq.trans (evEq_of_eq ?_)
                    (EvEq.trans (EvEq.append_right [Event.fieldName []] hsplit)
                      (evEq_of_eq ?_))
                  · simp
                  · simp
            refine EvEq.trans (EvEq.append_right _ hcore) (evEq_of_eq (by simp))
      · have hlen1 := splitAtNull_len hsp
        have hall := splitAtNull_append_some hsp l2
        have hw : runF (f + 1) ⟨m, .fieldName, t, d, sc, sr, hs, dc, nr⟩ (l1 ++ l2) =
            ((runF f ⟨m, .value, t, d, sc, sr, hs, dc, nr⟩ (rest ++ l2)).1,
              ((if name.isEmpty then [] else [Event.fieldName name]) ++
                [Event.fieldName []]) ++ (runF f ⟨m, .value, t, d, sc, sr, hs, dc, nr⟩ (rest ++ l2)).2) := by
          rw [runF_fieldName_some f m t d sc sr hs dc nr hall]
        have hp : consumeRaw ⟨m, .fieldName, t, d, sc, sr, hs, dc, nr⟩ l1 =
            ((consumeRaw ⟨m, .value, t, d, sc, sr, hs, dc, nr⟩ rest).1,
              ((if name.isEmpty then [] else [Event.fieldName name]) ++
                [Event.fieldName []]) ++ (consumeRaw ⟨m, .value, t, d, sc, sr, hs, dc, nr⟩ rest).2) := by
          simp only [consumeRaw]
          rw [runF_fieldName_some _ m t d sc sr hs dc nr hsp]
          rw [runF_irrel (9 * l1.length + Phase.rank .fieldName)
            (9 * rest.length + Phase.rank .value + 1) ⟨m, .value, t, d, sc, sr, hs, dc, nr⟩ rest
            (by simp only [Phase.rank]; omega) (by simp only [Phase.rank]; omega)]
        rw [hw, hp]
        exact SplitOk.with_prefix _
          (ih ⟨m, .value, t, d, sc, sr, hs, dc, nr⟩ rest l2 (by simp only [Phase.rank]; omega))
    | value =>
      simp only [Phase.rank] at hbnd
      cases t with
      | kInt32 =>
        have hw : runF (f + 1) ⟨m, .value, .kInt32, d, sc, sr, hs, dc, nr⟩ (l1 ++ l2) =
            runF f ⟨m, .readInt32, .kInt32, d, sc, sr, hs, dc, nr⟩ (l1 ++ l2) := by
          rw [runF_value]
        have hp : consumeRaw ⟨m, .value, .kInt32, d, sc, sr, hs, dc, nr⟩ l1 =
            consumeRaw ⟨m, .readInt32, .kInt32, d, sc, sr, hs, dc, nr⟩ l1 := by
          simp only [consumeRaw]
          rw [runF_value]
          exact runF_irrel (9 * l1.length + Phase.rank .value)
            (9 * l1.length + Phase.rank .readInt32 + 1) ⟨m, .readInt32, .kInt32, d, sc, sr, hs, dc, nr⟩ l1
            (by simp only [Phase.rank]; omega) (by simp only [Phase.rank]; omega)
        rw [hw, hp]
        exact ih ⟨m, .readInt32, .kInt32, d, sc, sr, hs, dc, nr⟩ l1 l2 (by simp only [Phase.rank]; omega)
      | kArray =>
        have hw : runF (f + 1) ⟨m, .value, .kArray, d, sc, sr, hs, dc, nr⟩ (l1 ++ l2) =
            runF f ⟨m, .readInt32, .kArray, d, sc, sr, hs, dc, nr⟩ (l1 ++ l2) := by
          rw [runF_value]
        have hp : consumeRaw ⟨m, .value, .kArray, d, sc, sr, hs, dc, nr⟩ l1 =
            consumeRaw ⟨m, .readInt32, .kArray, d, sc, sr, hs, dc, nr⟩ l1 := by
          simp only [consumeRaw]
          rw [runF_value]
          exact runF_irrel (9 * l1.length + Phase.rank .value)
            (9 * l1.length + Phase.rank .readInt32 + 1) ⟨m, .readInt32, .kArray, d, sc, sr, hs, dc, nr⟩ l1
            (by simp only [Phase.rank]; omega) (by simp only [Phase.rank]; omega)
        rw [hw, hp]
        exact ih ⟨m, .readInt32, .kArray, d, sc, sr, hs, dc, nr⟩ l1 l2 (by simp only [Phase.rank]; omega)
      | kDocument =>
        have hw : runF (f + 1) ⟨m, .value, .kDocument, d, sc, sr, hs, dc, nr⟩ (l1 ++ l2) =
            runF f ⟨m, .readInt32, .kDocument, d, sc, sr, hs, dc, nr⟩ (l1 ++ l2) := by
          rw [runF_value]
        have hp : consumeRaw ⟨m, .value, .kDocument, d, sc, sr, hs, dc, nr⟩ l1 =
            consumeRaw ⟨m, .readInt32, .kDocument, d, sc, sr, hs, dc, nr⟩ l1 := by
          simp only [consumeRaw]
          rw [runF_value]
          exact runF_irrel (9 * l1.length + Phase.rank .value)
            (9 * l1.length + Phase.rank .readInt32 + 1) ⟨m, .readInt32, .kDocument, d, sc, sr, hs, dc, nr⟩ l1
            (by simp only [Phase.rank]; omega) (by simp only [Phase.rank]; omega)
        rw [hw, hp]
        exact ih ⟨m, .readInt32, .kDocument, d, sc, sr, hs, dc, nr⟩ l1 l2 (by simp only [Phase.rank]; omega)
      | kUtf8 =>
        have hw : runF (f + 1) ⟨m, .value, .kUtf8, d, sc, sr, hs, dc, nr⟩ (l1 ++ l2) =
            runF f ⟨m, .readInt32, .kUtf8, d, sc, sr, hs, dc, nr⟩ (l1 ++ l2) := by
          rw [runF_value]
        have hp : consumeRaw ⟨m, .value, .kUtf8, d, sc, sr, hs, dc, nr⟩ l1 =
            consumeRaw ⟨m, .readInt32, .kUtf8, d, sc, sr, hs, dc, nr⟩ l1 := by
          simp only [consumeRaw]
          rw [runF_value]
          exact runF_irrel (9 * l1.length + Phase.rank .value)
            (9 * l1.length + Phase.rank .readInt32 + 1) ⟨m, .readInt32, .kUtf8, d, sc, sr, hs, dc, nr⟩ l1
            (by simp only [Phase.rank]; omega) (by simp only [Phase.rank]; omega)
        rw [hw, hp]
        exact ih ⟨m, .readInt32, .kUtf8, d, sc, sr, hs, dc, nr⟩ l1 l2 (by simp only [Phase.rank]; omega)
      | kJs =>
        have hw : runF (f + 1) ⟨m, .value, .kJs, d, sc, sr, hs, dc, nr⟩ (l1 ++ l2) =
            runF f ⟨m, .readInt32, .kJs, d, sc, sr, hs, dc, nr⟩ (l1 ++ l2) := by
          rw [runF_value]
        have hp : consumeRaw ⟨m, .value, .kJs, d, sc, sr, hs, dc, nr⟩ l1 =
            consumeRaw ⟨m, .readInt32, .kJs, d, sc, sr, hs, dc, nr⟩ l1 := by
          simp only [consumeRaw]
          rw [runF_value]
          exact runF_irrel (9 * l1.length + Phase.rank .value)
            (9 * l1.length + Phase.rank .readInt32 + 1) ⟨m, .readInt32, .kJs, d, sc, sr, hs, dc, nr⟩ l1
            (by simp only [Phase.rank]; omega) (by simp only [Phase.rank]; omega)
        rw [hw, hp]
        exact ih ⟨m, .readInt32, .kJs, d, sc, sr, hs, dc, nr⟩ l1 l2 (by simp only [Phase.rank]; omega)
      | kBindata =>
        have hw : runF (f + 1) ⟨m, .value, .kBindata, d, sc, sr, hs, dc, nr⟩ (l1 ++ l2) =
            runF f ⟨m, .readInt32, .kBindata, d, sc, sr, hs, dc, nr⟩ (l1 ++ l2) := by
          rw [runF_value]
        have hp : consumeRaw ⟨m, .value, .kBindata, d, sc, sr, hs, dc, nr⟩ l1 =
            consumeRaw ⟨m, .readInt32, .kBindata, d, sc, sr, hs, dc, nr⟩ l1 := by
          simp only [consumeRaw]
          rw [runF_value]
          exact runF_irrel (9 * l1.length + Phase.rank .value)
            (9 * l1.length + Phase.rank .readInt32 + 1) ⟨m, .readInt32, .kBindata, d, sc, sr, hs, dc, nr⟩ l1
            (by simp only [Phase.rank]; omega) (by simp only [Phase.rank]; omega)
        rw [hw, hp]
        exact ih ⟨m, .readInt32, .kBindata, d, sc, sr, hs, dc, nr⟩ l1 l2 (by simp only [Phase.rank]; omega)
      | kInt64 =>
        have hw : runF (f + 1) ⟨m, .value, .kInt64, d, sc, sr, hs, dc, nr⟩ (l1 ++ l2) =
            runF f ⟨m, .readInt64, .kInt64, d, sc, sr, hs, dc, nr⟩ (l1 ++ l2) := by
          rw [runF_value]
        have hp : consumeRaw ⟨m, .value, .kInt64, d, sc, sr, hs, dc, nr⟩ l1 =
            consumeRaw ⟨m, .readInt64, .kInt64, d, sc, sr, hs, dc, nr⟩ l1 := by
          simp only [consumeRaw]
          rw [runF_value]
          exact runF_irrel (9 * l1.length + Phase.rank .value)
            (9 * l1.length + Phase.rank .readInt64 + 1) ⟨m, .readInt64, .kInt64, d, sc, sr, hs, dc, nr⟩ l1
            (by simp only [Phase.rank]; omega) (by simp only [Phase.rank]; omega)
        rw [hw, hp]
        exact ih ⟨m, .readInt64, .kInt64, d, sc, sr, hs, dc, nr⟩ l1 l2 (by simp only [Phase.rank]; omega)
      | kUtcDatetime =>
        have hw : runF (f + 1) ⟨m, .value, .kUtcDatetime, d, sc, sr, hs, dc, nr⟩ (l1 ++ l2) =
            runF f ⟨m, .readInt64, .kUtcDatetime, d, sc, sr, hs, dc, nr⟩ (l1 ++ l2) := by
          rw [runF_value]
        have hp : consumeRaw ⟨m, .value, .kUtcDatetime, d, sc, sr, hs, dc, nr⟩ l1 =
            consumeRaw ⟨m, .readInt64, .kUtcDatetime, d, sc, sr, hs, dc, nr⟩ l1 := by
          simp only [consumeRaw]
          rw [runF_value]
          exact runF_irrel (9 * l1.length + Phase.rank .value)
            (9 * l1.length + Phase.rank .readInt64 + 1) ⟨m, .readInt64, .kUtcDatetime, d, sc, sr, hs, dc, nr⟩ l1
            (by simp only [Phase.rank]; omega) (by simp only [Phase.rank]; omega)
        rw [hw, hp]
        exact ih ⟨m, .readInt64, .kUtcDatetime, d, sc, sr, hs, dc, nr⟩ l1 l2 (by simp only [Phase.rank]; omega)
      | kTimestamp =>
        have hw : runF (f + 1) ⟨m, .value, .kTimestamp, d, sc, sr, hs, dc, nr⟩ (l1 ++ l2) =
            runF f ⟨m, .readInt64, .kTimestamp, d, sc, sr, hs, dc, nr⟩ (l1 ++ l2) := by
          rw [runF_value]
        have hp : consumeRaw ⟨m, .value, .kTimestamp, d, sc, sr, hs, dc, nr⟩ l1 =
            consumeRaw ⟨m, .readInt64, .kTimestamp, d, sc, sr, hs, dc, nr⟩ l1 := by
          simp only [consumeRaw]
          rw [runF_value]
          exact runF_irrel (9 * l1.length + Phase.rank .value)
            (9 * l1.length + Phase.rank .readInt64 + 1) ⟨m, .readInt64, .kTimestamp, d, sc, sr, hs, dc, nr⟩ l1
            (by simp only [Phase.rank]; omega) (by simp only [Phase.rank]; omega)
        rw [hw, hp]
        exact ih ⟨m, .readInt64, .kTimestamp, d, sc, sr, hs, dc, nr⟩ l1 l2 (by simp only [Phase.rank]; omega)
      | kBool =>
        have hw : runF (f + 1) ⟨m, .value, .kBool, d, sc, sr, hs, dc, nr⟩ (l1 ++ l2) =
            runF f ⟨m, .readBool, .kBool, d, sc, sr, hs, dc, nr⟩ (l1 ++ l2) := by
          rw [runF_value]
        have hp : consumeRaw ⟨m, .value, .kBool, d, sc, sr, hs, dc, nr⟩ l1 =
            consumeRaw ⟨m, .readBool, .kBool, d, sc, sr, hs, dc, nr⟩ l1 := by
          simp only [consumeRaw]
          rw [runF_value]
          exact runF_irrel (9 * l1.length + Phase.rank .value)
            (9 * l1.length + Phase.rank .readBool + 1) ⟨m, .readBool, .kBool, d, sc, sr, hs, dc, nr⟩ l1
            (by simp only [Phase.rank]; omega) (by simp only [Phase.rank]; omega)
        rw [hw, hp]
        exact ih ⟨m, .readBool, .kBool, d, sc, sr, hs, dc, nr⟩ l1 l2 (by simp only [Phase.rank]; omega)
      | kDouble =>
        have hw : runF (f + 1) ⟨m, .value, .kDouble, d, sc, sr, hs, dc, nr⟩ (l1 ++ l2) =
            runF f ⟨m, .readDouble, .kDouble, d, sc, sr, hs, dc, nr⟩ (l1 ++ l2) := by
          rw [runF_value]
        have hp : consumeRaw ⟨m, .value, .kDouble, d, sc, sr, hs, dc, nr⟩ l1 =
            consumeRaw ⟨m, .readDouble, .kDouble, d, sc, sr, hs, dc, nr⟩ l1 := by
          simp only [consumeRaw]
          rw [runF_value]
          exact runF_irrel (9 * l1.length + Phase.rank .value)
            (9 * l1.length + Phase.rank .readDouble + 1) ⟨m, .readDouble, .kDouble, d, sc, sr, hs, dc, nr⟩ l1
            (by simp only [Phase.rank]; omega) (by simp only [Phase.rank]; omega)
        rw [hw, hp]
        exact ih ⟨m, .readDouble, .kDouble, d, sc, sr, hs, dc, nr⟩ l1 l2 (by simp only [Phase.rank]; omega)
      | kObjectId =>
        have hw : runF (f + 1) ⟨m, .value, .kObjectId, d, sc, sr, hs, dc, nr⟩ (l1 ++ l2) =
            runF f ⟨m, .readObjectId, .kObjectId, d, sc, sr, hs, dc, nr⟩ (l1 ++ l2) := by
          rw [runF_value]
        have hp : consumeRaw ⟨m, .value, .kObjectId, d, sc, sr, hs, dc, nr⟩ l1 =
            consumeRaw ⟨m, .readObjectId, .kObjectId, d, sc, sr, hs, dc, nr⟩ l1 := by
          simp only [consumeRaw]
          rw [runF_value]
          exact runF_irrel (9 * l1.length + Phase.rank .value)
            (9 * l1.length + Phase.rank .readObjectId + 1) ⟨m, .readObjectId, .kObjectId, d, sc, sr, hs, dc, nr⟩ l1
            (by simp only [Phase.rank]; omega) (by simp only [Phase.rank]; omega)
        rw [hw, hp]
        exact ih ⟨m, .readObjectId, .kObjectId, d, sc, sr, hs, dc, nr⟩ l1 l2 (by simp only [Phase.rank]; omega)
      | kNull =>
        have hw : runF (f + 1) ⟨m, .value, .kNull, d, sc, sr, hs, dc, nr⟩ (l1 ++ l2) =
            ((runF f ⟨m, .fieldTyp, .kNull, d, sc, sr, hs, dc, nr⟩ (l1 ++ l2)).1,
              Event.nullE :: (runF f ⟨m, .fieldTyp, .kNull, d, sc, sr, hs, dc, nr⟩ (l1 ++ l2)).2) := by
          rw [runF_value]
        have hp : consumeRaw ⟨m, .value, .kNull, d, sc, sr, hs, dc, nr⟩ l1 =
            ((consumeRaw ⟨m, .fieldTyp, .kNull, d, sc, sr, hs, dc, nr⟩ l1).1,
              Event.nullE :: (consumeRaw ⟨m, .fieldTyp, .kNull, d, sc, sr, hs, dc, nr⟩ l1).2) := by
          simp only [consumeRaw]
          rw [runF_value]
          rw [runF_irrel (9 * l1.length + Phase.rank .value)
            (9 * l1.length + Phase.rank .fieldTyp + 1) ⟨m, .fieldTyp, .kNull, d, sc, sr, hs, dc, nr⟩ l1
            (by simp only [Phase.rank]; omega) (by simp only [Phase.rank]; omega)]
        rw [hw, hp]
        exact SplitOk.with_cons Event.nullE
          (ih ⟨m, .fieldTyp, .kNull, d, sc, sr, hs, dc, nr⟩ l1 l2 (by simp only [Phase.rank]; omega))
      | kRegexp =>
        have hw : runF (f + 1) ⟨m, .value, .kRegexp, d, sc, sr, hs, dc, nr⟩ (l1 ++ l2) =
            (⟨m, .error, .kRegexp, d, sc, sr, hs, dc, nr⟩, [Event.errorE "Field type no handled"]) := by
          rw [runF_value]
        have hp : consumeRaw ⟨m, .value, .kRegexp, d, sc, sr, hs, dc, nr⟩ l1 =
            (⟨m, .error, .kRegexp, d, sc, sr, hs, dc, nr⟩, [Event.errorE "Field type no handled"]) := by
          simp only [consumeRaw]
          rw [runF_value]
        rw [hw, hp]
        exact SplitOk.terminal rfl
      | kScopedJs =>
        have hw : runF (f + 1) ⟨m, .value, .kScopedJs, d, sc, sr, hs, dc, nr⟩ (l1 ++ l2) =
            (⟨m, .error, .kScopedJs, d, sc, sr, hs, dc, nr⟩, [Event.errorE "Field type no handled"]) := by
          rw [runF_value]
        have hp : consumeRaw ⟨m, .value, .kScopedJs, d, sc, sr, hs, dc, nr⟩ l1 =
            (⟨m, .error, .kScopedJs, d, sc, sr, hs, dc, nr⟩, [Event.errorE "Field type no handled"]) := by
          simp only [consumeRaw]
          rw [runF_value]
        rw [hw, hp]
        exact SplitOk.terminal rfl
      | kMinKey =>
        have hw : runF (f + 1) ⟨m, .value, .kMinKey, d, sc, sr, hs, dc, nr⟩ (l1 ++ l2) =
            (⟨m, .error, .kMinKey, d, sc, sr, hs, dc, nr⟩, [Event.errorE "Invalid bson tag"]) := by
          rw [runF_value]
        have hp : consumeRaw ⟨m, .value, .kMinKey, d, sc, sr, hs, dc, nr⟩ l1 =
            (⟨m, .error, .kMinKey, d, sc, sr, hs, dc, nr⟩, [Event.errorE "Invalid bson tag"]) := by
          simp only [consumeRaw]
          rw [runF_value]
        rw [hw, hp]
        exact SplitOk.terminal rfl
      | kMaxKey =>
        have hw : runF (f + 1) ⟨m, .value, .kMaxKey, d, sc, sr, hs, dc, nr⟩ (l1 ++ l2) =
            (⟨m, .error, .kMaxKey, d, sc, sr, hs, dc, nr⟩, [Event.errorE "Internal error"]) := by
          rw [runF_value]
        have hp : consumeRaw ⟨m, .value, .kMaxKey, d, sc, sr, hs, dc, nr⟩ l1 =
            (⟨m, .error, .kMaxKey, d, sc, sr, hs, dc, nr⟩, [Event.errorE "Internal error"]) := by
          simp only [consumeRaw]
          rw [runF_value]
        rw [hw, hp]
        exact SplitOk.terminal rfl
    | readInt32 =>
      simp only [Phase.rank] at hbnd
      rcases hg : grab 4 sc l1 with ⟨full, rest⟩ | sc2
      · obtain ⟨hge, hfull, hrest⟩ := grab_inl_elim hg
        subst hfull
        subst hrest
        have hgap := grab_append_enough hge l2
        have hdl : (l1.drop (4 - sc.length)).length =
            l1.length - (4 - sc.length) := by simp
        have hw : runF (f + 1) ⟨m, .readInt32, t, d, sc, sr, hs, dc, nr⟩ (l1 ++ l2) =
            runF f ⟨m, .int32Cnt (toInt32 (rd32 (sc ++ l1.take (4 - sc.length)) 0)), t, d, [], sr, hs, dc, nr⟩ (l1.drop (4 - sc.length) ++ l2) := by
          rw [runF_readInt32_inl f m t d sc sr hs dc nr hgap]
        have hp : consumeRaw ⟨m, .readInt32, t, d, sc, sr, hs, dc, nr⟩ l1 =
            consumeRaw ⟨m, .int32Cnt (toInt32 (rd32 (sc ++ l1.take (4 - sc.length)) 0)), t, d, [], sr, hs, dc, nr⟩ (l1.drop (4 - sc.length)) := by
          simp only [consumeRaw]
          rw [runF_readInt32_inl _ m t d sc sr hs dc nr hg]
          exact runF_irrel (9 * l1.length + Phase.rank .readInt32)
            (9 * (l1.drop (4 - sc.length)).length +
              Phase.rank (.int32Cnt (toInt32 (rd32 (sc ++ l1.take (4 - sc.length)) 0))) + 1)
            ⟨m, .int32Cnt (toInt32 (rd32 (sc ++ l1.take (4 - sc.length)) 0)), t, d, [], sr, hs, dc, nr⟩ (l1.drop (4 - sc.length))
            (by simp only [Phase.rank]; omega) (by simp only [Phase.rank]; omega)
        rw [hw, hp]
        exact ih ⟨m, .int32Cnt (toInt32 (rd32 (sc ++ l1.take (4 - sc.length)) 0)), t, d, [], sr, hs, dc, nr⟩ (l1.drop (4 - sc.length)) l2
          (by simp only [Phase.rank]; omega)
      · obtain ⟨hsc2, hlen1⟩ := grab_inr_elim hg
        subst hsc2
        have hw := runF_readInt32_absorb f m t d sc sr hs dc nr l2 hlen1
        have hp : consumeRaw ⟨m, .readInt32, t, d, sc, sr, hs, dc, nr⟩ l1 = (⟨m, .readInt32, t, d, sc ++ l1, sr, hs, dc, nr⟩, []) := by
          simp only [consumeRaw]
          rw [runF_readInt32_inr _ m t d sc sr hs dc nr hg]
        rw [hw, hp]
        exact SplitOk.of_eq (runF_irrel (f + 1) _ _ l2
          (by simp only [Phase.rank]; omega) (by simp only [Phase.rank]; omega))
    | int32Cnt v =>
      simp only [Phase.rank] at hbnd
      cases t with
      | kDocument =>
        have hw : runF (f + 1) ⟨m, .int32Cnt v, .kDocument, d, sc, sr, hs, dc, nr⟩ (l1 ++ l2) =
            ((runF f ⟨m, .fieldTyp, .kDocument, d + 1, sc, sr, hs, dc, nr⟩ (l1 ++ l2)).1,
              Event.openDoc :: (runF f ⟨m, .fieldTyp, .kDocument, d + 1, sc, sr, hs, dc, nr⟩ (l1 ++ l2)).2) := by
          rw [runF_int32Cnt]
        have hp : consumeRaw ⟨m, .int32Cnt v, .kDocument, d, sc, sr, hs, dc, nr⟩ l1 =
            ((consumeRaw ⟨m, .fieldTyp, .kDocument, d + 1, sc, sr, hs, dc, nr⟩ l1).1,
              Event.openDoc :: (consumeRaw ⟨m, .fieldTyp, .kDocument, d + 1, sc, sr, hs, dc, nr⟩ l1).2) := by
          simp only [consumeRaw]
          rw [runF_int32Cnt]
          rw [runF_irrel (9 * l1.length + Phase.rank (.int32Cnt v))
            (9 * l1.length + Phase.rank .fieldTyp + 1) ⟨m, .fieldTyp, .kDocument, d + 1, sc, sr, hs, dc, nr⟩ l1
            (by simp only [Phase.rank]; omega) (by simp only [Phase.rank]; omega)]
        rw [hw, hp]
        exact SplitOk.with_cons (Event.openDoc)
          (ih ⟨m, .fieldTyp, .kDocument, d + 1, sc, sr, hs, dc, nr⟩ l1 l2 (by simp only [Phase.rank]; omega))
      | kArray =>
        have hw : runF (f + 1) ⟨m, .int32Cnt v, .kArray, d, sc, sr, hs, dc, nr⟩ (l1 ++ l2) =
            ((runF f ⟨m, .fieldTyp, .kArray, d + 1, sc, sr, hs, dc, nr⟩ (l1 ++ l2)).1,
              Event.openArray :: (runF f ⟨m, .fieldTyp, .kArray, d + 1, sc, sr, hs, dc, nr⟩ (l1 ++ l2)).2) := by
          rw [runF_int32Cnt]
        have hp : consumeRaw ⟨m, .int32Cnt v, .kArray, d, sc, sr, hs, dc, nr⟩ l1 =
            ((consumeRaw ⟨m, .fieldTyp, .kArray, d + 1, sc, sr, hs, dc, nr⟩ l1).1,
              Event.openArray :: (consumeRaw ⟨m, .fieldTyp, .kArray, d + 1, sc, sr, hs, dc, nr⟩ l1).2) := by
          simp only [consumeRaw]
          rw [runF_int32Cnt]
          rw [runF_irrel (9 * l1.length + Phase.rank (.int32Cnt v))
            (9 * l1.length + Phase.rank .fieldTyp + 1) ⟨m, .fieldTyp, .kArray, d + 1, sc, sr, hs, dc, nr⟩ l1
            (by simp only [Phase.rank]; omega) (by simp only [Phase.rank]; omega)]
        rw [hw, hp]
        exact SplitOk.with_cons (Event.openArray)
          (ih ⟨m, .fieldTyp, .kArray, d + 1, sc, sr, hs, dc, nr⟩ l1 l2 (by simp only [Phase.rank]; omega))
      | kInt32 =>
        have hw : runF (f + 1) ⟨m, .int32Cnt v, .kInt32, d, sc, sr, hs, dc, nr⟩ (l1 ++ l2) =
            ((runF f ⟨m, .fieldTyp, .kInt32, d, sc, sr, hs, dc, nr⟩ (l1 ++ l2)).1,
              Event.int32 v :: (runF f ⟨m, .fieldTyp, .kInt32, d, sc, sr, hs, dc, nr⟩ (l1 ++ l2)).2) := by
          rw [runF_int32Cnt]
        have hp : consumeRaw ⟨m, .int32Cnt v, .kInt32, d, sc, sr, hs, dc, nr⟩ l1 =
            ((consumeRaw ⟨m, .fieldTyp, .kInt32, d, sc, sr, hs, dc, nr⟩ l1).1,
              Event.int32 v :: (consumeRaw ⟨m, .fieldTyp, .kInt32, d, sc, sr, hs, dc, nr⟩ l1).2) := by
          simp only [consumeRaw]
          rw [runF_int32Cnt]
          rw [runF_irrel (9 * l1.length + Phase.rank (.int32Cnt v))
            (9 * l1.length + Phase.rank .fieldTyp + 1) ⟨m, .fieldTyp, .kInt32, d, sc, sr, hs, dc, nr⟩ l1
            (by simp only [Phase.rank]; omega) (by simp only [Phase.rank]; omega)]
        rw [hw, hp]
        exact SplitOk.with_cons (Event.int32 v)
          (ih ⟨m, .fieldTyp, .kInt32, d, sc, sr, hs, dc, nr⟩ l1 l2 (by simp only [Phase.rank]; omega))
      | kUtf8 =>
        by_cases hv : v < 1
        · have hw : runF (f + 1) ⟨m, .int32Cnt v, .kUtf8, d, sc, sr, hs, dc, nr⟩ (l1 ++ l2) =
              (⟨m, .error, .kUtf8, d, sc, sr, hs, dc, nr⟩, [Event.errorE "Negative length!"]) := by
            rw [runF_int32Cnt, if_pos hv]
          have hp : consumeRaw ⟨m, .int32Cnt v, .kUtf8, d, sc, sr, hs, dc, nr⟩ l1 =
              (⟨m, .error, .kUtf8, d, sc, sr, hs, dc, nr⟩, [Event.errorE "Negative length!"]) := by
            simp only [consumeRaw]
            rw [runF_int32Cnt, if_pos hv]
          rw [hw, hp]
          exact SplitOk.terminal rfl
        · have hw : runF (f + 1) ⟨m, .int32Cnt v, .kUtf8, d, sc, sr, hs, dc, nr⟩ (l1 ++ l2) =
              runF f ⟨m, .readString, .kUtf8, d, sc, (v - 1).toNat, hs, dc, nr⟩ (l1 ++ l2) := by
            rw [runF_int32Cnt, if_neg hv]
          have hp : consumeRaw ⟨m, .int32Cnt v, .kUtf8, d, sc, sr, hs, dc, nr⟩ l1 =
              consumeRaw ⟨m, .readString, .kUtf8, d, sc, (v - 1).toNat, hs, dc, nr⟩ l1 := by
            simp only [consumeRaw]
            rw [runF_int32Cnt, if_neg hv]
            exact runF_irrel (9 * l1.length + Phase.rank (.int32Cnt v))
              (9 * l1.length + Phase.rank .readString + 1)
              ⟨m, .readString, .kUtf8, d, sc, (v - 1).toNat, hs, dc, nr⟩ l1
              (by simp only [Phase.rank]; omega) (by simp only [Phase.rank]; omega)
          rw [hw, hp]
          exact ih ⟨m, .readString, .kUtf8, d, sc, (v - 1).toNat, hs, dc, nr⟩ l1 l2
            (by simp only [Phase.rank]; omega)
      | kJs =>
        by_cases hv : v < 1
        · have hw : runF (f + 1) ⟨m, .int32Cnt v, .kJs, d, sc, sr, hs, dc, nr⟩ (l1 ++ l2) =
              (⟨m, .error, .kJs, d, sc, sr, hs, dc, nr⟩, [Event.errorE "Negative length!"]) := by
            rw [runF_int32Cnt, if_pos hv]
          have hp : consumeRaw ⟨m, .int32Cnt v, .kJs, d, sc, sr, hs, dc, nr⟩ l1 =
              (⟨m, .error, .kJs, d, sc, sr, hs, dc, nr⟩, [Event.errorE "Negative length!"]) := by
            simp only [consumeRaw]
            rw [runF_int32Cnt, if_pos hv]
          rw [hw, hp]
          exact SplitOk.terminal rfl
        · have hw : runF (f + 1) ⟨m, .int32Cnt v, .kJs, d, sc, sr, hs, dc, nr⟩ (l1 ++ l2) =
              runF f ⟨m, .readString, .kJs, d, sc, (v - 1).toNat, hs, dc, nr⟩ (l1 ++ l2) := by
            rw [runF_int32Cnt, if_neg hv]
          have hp : consumeRaw ⟨m, .int32Cnt v, .kJs, d, sc, sr, hs, dc, nr⟩ l1 =
              consumeRaw ⟨m, .readString, .kJs, d, sc, (v - 1).toNat, hs, dc, nr⟩ l1 := by
            simp only [consumeRaw]
            rw [runF_int32Cnt, if_neg hv]
            exact runF_irrel (9 * l1.length + Phase.rank (.int32Cnt v))
              (9 * l1.length + Phase.rank .readString + 1)
              ⟨m, .readString, .kJs, d, sc, (v - 1).toNat, hs, dc, nr⟩ l1
              (by simp only [Phase.rank]; omega) (by simp only [Phase.rank]; omega)
          rw [hw, hp]
          exact ih ⟨m, .readString, .kJs, d, sc, (v - 1).toNat, hs, dc, nr⟩ l1 l2
            (by simp only [Phase.rank]; omega)
      | kBindata =>
        by_cases hv : v < 0
        · have hw : runF (f + 1) ⟨m, .int32Cnt v, .kBindata, d, sc, sr, hs, dc, nr⟩ (l1 ++ l2) =
              (⟨m, .error, .kBindata, d, sc, sr, hs, dc, nr⟩, [Event.errorE "Negative length!"]) := by
            rw [runF_int32Cnt, if_pos hv]
          have hp : consumeRaw ⟨m, .int32Cnt v, .kBindata, d, sc, sr, hs, dc, nr⟩ l1 =
              (⟨m, .error, .kBindata, d, sc, sr, hs, dc, nr⟩, [Event.errorE "Negative length!"]) := by
            simp only [consumeRaw]
            rw [runF_int32Cnt, if_pos hv]
          rw [hw, hp]
          exact SplitOk.terminal rfl
        · have hw : runF (f + 1) ⟨m, .int32Cnt v, .kBindata, d, sc, sr, hs, dc, nr⟩ (l1 ++ l2) =
              runF f ⟨m, .readBinSubtype, .kBindata, d, sc, v.toNat, hs, dc, nr⟩ (l1 ++ l2) := by
            rw [runF_int32Cnt, if_neg hv]
          have hp : consumeRaw ⟨m, .int32Cnt v, .kBindata, d, sc, sr, hs, dc, nr⟩ l1 =
              consumeRaw ⟨m, .readBinSubtype, .kBindata, d, sc, v.toNat, hs, dc, nr⟩ l1 := by
            simp only [consumeRaw]
            rw [runF_int32Cnt, if_neg hv]
            exact runF_irrel (9 * l1.length + Phase.rank (.int32Cnt v))
              (9 * l1.length + Phase.rank .readBinSubtype + 1)
              ⟨m, .readBinSubtype, .kBindata, d, sc, v.toNat, hs, dc, nr⟩ l1
              (by simp only [Phase.rank]; omega) (by simp only [Phase.rank]; omega)
          rw [hw, hp]
          exact ih ⟨m, .readBinSubtype, .kBindata, d, sc, v.toNat, hs, dc, nr⟩ l1 l2
            (by simp only [Phase.rank]; omega)
      | kDouble =>
        have hw : runF (f + 1) ⟨m, .int32Cnt v, .kDouble, d, sc, sr, hs, dc, nr⟩ (l1 ++ l2) =
            (⟨m, .error, .kDouble, d, sc, sr, hs, dc, nr⟩, [Event.errorE "internal error"]) := by
          rw [runF_int32Cnt]
        have hp : consumeRaw ⟨m, .int32Cnt v, .kDouble, d, sc, sr, hs, dc, nr⟩ l1 =
            (⟨m, .error, .kDouble, d, sc, sr, hs, dc, nr⟩, [Event.errorE "internal error"]) := by
          simp only [consumeRaw]
          rw [runF_int32Cnt]
        rw [hw, hp]
        exact SplitOk.terminal rfl
      | kObjectId =>
        have hw : runF (f + 1) ⟨m, .int32Cnt v, .kObjectId, d, sc, sr, hs, dc, nr⟩ (l1 ++ l2) =
            (⟨m, .error, .kObjectId, d, sc, sr, hs, dc, nr⟩, [Event.errorE "internal error"]) := by
          rw [runF_int32Cnt]
        have hp : consumeRaw ⟨m, .int32Cnt v, .kObjectId, d, sc, sr, hs, dc, nr⟩ l1 =
            (⟨m, .error, .kObjectId, d, sc, sr, hs, dc, nr⟩, [Event.errorE "internal error"]) := by
          simp only [consumeRaw]
          rw [runF_int32Cnt]
        rw [hw, hp]
        exact SplitOk.terminal rfl
      | kBool =>
        have hw : runF (f + 1) ⟨m, .int32Cnt v, .kBool, d, sc, sr, hs, dc, nr⟩ (l1 ++ l2) =
            (⟨m, .error, .kBool, d, sc, sr, hs, dc, nr⟩, [Event.errorE "internal error"]) := by
          rw [runF_int32Cnt]
        have hp : consumeRaw ⟨m, .int32Cnt v, .kBool, d, sc, sr, hs, dc, nr⟩ l1 =
            (⟨m, .error, .kBool, d, sc, sr, hs, dc, nr⟩, [Event.errorE "internal error"]) := by
          simp only [consumeRaw]
          rw [runF_int32Cnt]
        rw [hw, hp]
        exact SplitOk.terminal rfl
      | kUtcDatetime =>
        have hw : runF (f + 1) ⟨m, .int32Cnt v, .kUtcDatetime, d, sc, sr, hs, dc, nr⟩ (l1 ++ l2) =
            (⟨m, .error, .kUtcDatetime, d, sc, sr, hs, dc, nr⟩, [Event.errorE "internal error"]) := by
          rw [runF_int32Cnt]
        have hp : consumeRaw ⟨m, .int32Cnt v, .kUtcDatetime, d, sc, sr, hs, dc, nr⟩ l1 =
            (⟨m, .error, .kUtcDatetime, d, sc, sr, hs, dc, nr⟩, [Event.errorE "internal error"]) := by
          simp only [consumeRaw]
          rw [runF_int32Cnt]
        rw [hw, hp]
        exact SplitOk.terminal rfl
      | kNull =>
        have hw : runF (f + 1) ⟨m, .int32Cnt v, .kNull, d, sc, sr, hs, dc, nr⟩ (l1 ++ l2) =
            (⟨m, .error, .kNull, d, sc, sr, hs, dc, nr⟩, [Event.errorE "internal error"]) := by
          rw [runF_int32Cnt]
        have hp : consumeRaw ⟨m, .int32Cnt v, .kNull, d, sc, sr, hs, dc, nr⟩ l1 =
            (⟨m, .error, .kNull, d, sc, sr, hs, dc, nr⟩, [Event.errorE "internal error"]) := by
          simp only [consumeRaw]
          rw [runF_int32Cnt]
        rw [hw, hp]
        exact SplitOk.terminal rfl
      | kRegexp =>
        have hw : runF (f + 1) ⟨m, .int32Cnt v, .kRegexp, d, sc, sr, hs, dc, nr⟩ (l1 ++ l2) =
            (⟨m, .error, .kRegexp, d, sc, sr, hs, dc, nr⟩, [Event.errorE "internal error"]) := by
          rw [runF_int32Cnt]
        have hp : consumeRaw ⟨m, .int32Cnt v, .kRegexp, d, sc, sr, hs, dc, nr⟩ l1 =
            (⟨m, .error, .kRegexp, d, sc, sr, hs, dc, nr⟩, [Event.errorE "internal error"]) := by
          simp only [consumeRaw]
          rw [runF_int32Cnt]
        rw [hw, hp]
        exact SplitOk.terminal rfl
      | kScopedJs =>
        have hw : runF (f + 1) ⟨m, .int32Cnt v, .kScopedJs, d, sc, sr, hs, dc, nr⟩ (l1 ++ l2) =
            (⟨m, .error, .kScopedJs, d, sc, sr, hs, dc, nr⟩, [Event.errorE "internal error"]) := by
          rw [runF_int32Cnt]
        have hp : consumeRaw ⟨m, .int32Cnt v, .kScopedJs, d, sc, sr, hs, dc, nr⟩ l1 =
            (⟨m, .error, .kScopedJs, d, sc, sr, hs, dc, nr⟩, [Event.errorE "internal error"]) := by
          simp only [consumeRaw]
          rw [runF_int32Cnt]
        rw [hw, hp]
        exact SplitOk.terminal rfl
      | kInt64 =>
        have hw : runF (f + 1) ⟨m, .int32Cnt v, .kInt64, d, sc, sr, hs, dc, nr⟩ (l1 ++ l2) =
            (⟨m, .error, .kInt64, d, sc, sr, hs, dc, nr⟩, [Event.errorE "internal error"]) := by
          rw [runF_int32Cnt]
        have hp : consumeRaw ⟨m, .int32Cnt v, .kInt64, d, sc, sr, hs, dc, nr⟩ l1 =
            (⟨m, .error, .kInt64, d, sc, sr, hs, dc, nr⟩, [Event.errorE "internal error"]) := by
          simp only [consumeRaw]
          rw [runF_int32Cnt]
        rw [hw, hp]
        exact SplitOk.terminal rfl
      | kTimestamp =>
        have hw : runF (f + 1) ⟨m, .int32Cnt v, .kTimestamp, d, sc, sr, hs, dc, nr⟩ (l1 ++ l2) =
            (⟨m, .error, .kTimestamp, d, sc, sr, hs, dc, nr⟩, [Event.errorE "internal error"]) := by
          rw [runF_int32Cnt]
        have hp : consumeRaw ⟨m, .int32Cnt v, .kTimestamp, d, sc, sr, hs, dc, nr⟩ l1 =
            (⟨m, .error, .kTimestamp, d, sc, sr, hs, dc, nr⟩, [Event.errorE "internal error"]) := by
          simp only [consumeRaw]
          rw [runF_int32Cnt]
        rw [hw, hp]
        exact SplitOk.terminal rfl
      | kMinKey =>
        have hw : runF (f + 1) ⟨m, .int32Cnt v, .kMinKey, d, sc, sr, hs, dc, nr⟩ (l1 ++ l2) =
            (⟨m, .error, .kMinKey, d, sc, sr, hs, dc, nr⟩, [Event.errorE "internal error"]) := by
          rw [runF_int32Cnt]
        have hp : consumeRaw ⟨m, .int32Cnt v, .kMinKey, d, sc, sr, hs, dc, nr⟩ l1 =
            (⟨m, .error, .kMinKey, d, sc, sr, hs, dc, nr⟩, [Event.errorE "internal error"]) := by
          simp only [consumeRaw]
          rw [runF_int32Cnt]
        rw [hw, hp]
        exact SplitOk.terminal rfl
      | kMaxKey =>
        have hw : runF (f + 1) ⟨m, .int32Cnt v, .kMaxKey, d, sc, sr, hs, dc, nr⟩ (l1 ++ l2) =
            (⟨m, .error, .kMaxKey, d, sc, sr, hs, dc, nr⟩, [Event.errorE "internal error"]) := by
          rw [runF_int32Cnt]
        have hp : consumeRaw ⟨m, .int32Cnt v, .kMaxKey, d, sc, sr, hs, dc, nr⟩ l1 =
            (⟨m, .error, .kMaxKey, d, sc, sr, hs, dc, nr⟩, [Event.errorE "internal error"]) := by
          simp only [consumeRaw]
          rw [runF_int32Cnt]
        rw [hw, hp]
        exact SplitOk.terminal rfl
    | readInt64 =>
      simp only [Phase.rank] at hbnd
      rcases hg : grab 8 sc l1 with ⟨full, rest⟩ | sc2
      · obtain ⟨hge, hfull, hrest⟩ := grab_inl_elim hg
        subst hfull
        subst hrest
        have hgap := grab_append_enough hge l2
        have hdl : (l1.drop (8 - sc.length)).length =
            l1.length - (8 - sc.length) := by simp
        have hw : runF (f + 1) ⟨m, .readInt64, t, d, sc, sr, hs, dc, nr⟩ (l1 ++ l2) =
            runF f ⟨m, .int64Cnt (toInt64 (rd64 (sc ++ l1.take (8 - sc.length)) 0)), t, d, [], sr, hs, dc, nr⟩ (l1.drop (8 - sc.length) ++ l2) := by
          rw [runF_readInt64_inl f m t d sc sr hs dc nr hgap]
        have hp : consumeRaw ⟨m, .readInt64, t, d, sc, sr, hs, dc, nr⟩ l1 =
            consumeRaw ⟨m, .int64Cnt (toInt64 (rd64 (sc ++ l1.take (8 - sc.length)) 0)), t, d, [], sr, hs, dc, nr⟩ (l1.drop (8 - sc.length)) := by
          simp only [consumeRaw]
          rw [runF_readInt64_inl _ m t d sc sr hs dc nr hg]
          exact runF_irrel (9 * l1.length + Phase.rank .readInt64)
            (9 * (l1.drop (8 - sc.length)).length +
              Phase.rank (.int64Cnt (toInt64 (rd64 (sc ++ l1.take (8 - sc.length)) 0))) + 1)
            ⟨m, .int64Cnt (toInt64 (rd64 (sc ++ l1.take (8 - sc.length)) 0)), t, d, [], sr, hs, dc, nr⟩ (l1.drop (8 - sc.length))
            (by simp only [Phase.rank]; omega) (by simp only [Phase.rank]; omega)
        rw [hw, hp]
        exact ih ⟨m, .int64Cnt (toInt64 (rd64 (sc ++ l1.take (8 - sc.length)) 0)), t, d, [], sr, hs, dc, nr⟩ (l1.drop (8 - sc.length)) l2
          (by simp only [Phase.rank]; omega)
      · obtain ⟨hsc2, hlen1⟩ := grab_inr_elim hg
        subst hsc2
        have hw := runF_readInt64_absorb f m t d sc sr hs dc nr l2 hlen1
        have hp : consumeRaw ⟨m, .readInt64, t, d, sc, sr, hs, dc, nr⟩ l1 = (⟨m, .readInt64, t, d, sc ++ l1, sr, hs, dc, nr⟩, []) := by
          simp only [consumeRaw]
          rw [runF_readInt64_inr _ m t d sc sr hs dc nr hg]
        rw [hw, hp]
        exact SplitOk.of_eq (runF_irrel (f + 1) _ _ l2
          (by simp only [Phase.rank]; omega) (by simp only [Phase.rank]; omega))
    | int64Cnt v =>
      simp only [Phase.rank] at hbnd
      cases t with
      | kInt64 =>
        have hw : runF (f + 1) ⟨m, .int64Cnt v, .kInt64, d, sc, sr, hs, dc, nr⟩ (l1 ++ l2) =
            ((runF f ⟨m, .fieldTyp, .kInt64, d, sc, sr, hs, dc, nr⟩ (l1 ++ l2)).1,
              Event.int64 v :: (runF f ⟨m, .fieldTyp, .kInt64, d, sc, sr, hs, dc, nr⟩ (l1 ++ l2)).2) := by
          rw [runF_int64Cnt]
        have hp : consumeRaw ⟨m, .int64Cnt v, .kInt64, d, sc, sr, hs, dc, nr⟩ l1 =
            ((consumeRaw ⟨m, .fieldTyp, .kInt64, d, sc, sr, hs, dc, nr⟩ l1).1,
              Event.int64 v :: (consumeRaw ⟨m, .fieldTyp, .kInt64, d, sc, sr, hs, dc, nr⟩ l1).2) := by
          simp only [consumeRaw]
          rw [runF_int64Cnt]
          rw [runF_irrel (9 * l1.length + Phase.rank (.int64Cnt v))
            (9 * l1.length + Phase.rank .fieldTyp + 1) ⟨m, .fieldTyp, .kInt64, d, sc, sr, hs, dc, nr⟩ l1
            (by simp only [Phase.rank]; omega) (by simp only [Phase.rank]; omega)]
        rw [hw, hp]
        exact SplitOk.with_cons (Event.int64 v)
          (ih ⟨m, .fieldTyp, .kInt64, d, sc, sr, hs, dc, nr⟩ l1 l2 (by simp only [Phase.rank]; omega))
      | kUtcDatetime =>
        have hw : runF (f + 1) ⟨m, .int64Cnt v, .kUtcDatetime, d, sc, sr, hs, dc, nr⟩ (l1 ++ l2) =
            ((runF f ⟨m, .fieldTyp, .kUtcDatetime, d, sc, sr, hs, dc, nr⟩ (l1 ++ l2)).1,
              Event.utcDatetime v :: (runF f ⟨m, .fieldTyp, .kUtcDatetime, d, sc, sr, hs, dc, nr⟩ (l1 ++ l2)).2) := by
          rw [runF_int64Cnt]
        have hp : consumeRaw ⟨m, .int64Cnt v, .kUtcDatetime, d, sc, sr, hs, dc, nr⟩ l1 =
            ((consumeRaw ⟨m, .fieldTyp, .kUtcDatetime, d, sc, sr, hs, dc, nr⟩ l1).1,
              Event.utcDatetime v :: (consumeRaw ⟨m, .fieldTyp, .kUtcDatetime, d, sc, sr, hs, dc, nr⟩ l1).2) := by
          simp only [consumeRaw]
          rw [runF_int64Cnt]
          rw [runF_irrel (9 * l1.length + Phase.rank (.int64Cnt v))
            (9 * l1.length + Phase.rank .fieldTyp + 1) ⟨m, .fieldTyp, .kUtcDatetime, d, sc, sr, hs, dc, nr⟩ l1
            (by simp only [Phase.rank]; omega) (by simp only [Phase.rank]; omega)]
        rw [hw, hp]
        exact SplitOk.with_cons (Event.utcDatetime v)
          (ih ⟨m, .fieldTyp, .kUtcDatetime, d, sc, sr, hs, dc, nr⟩ l1 l2 (by simp only [Phase.rank]; omega))
      | kTimestamp =>
        have hw : runF (f + 1) ⟨m, .int64Cnt v, .kTimestamp, d, sc, sr, hs, dc, nr⟩ (l1 ++ l2) =
            ((runF f ⟨m, .fieldTyp, .kTimestamp, d, sc, sr, hs, dc, nr⟩ (l1 ++ l2)).1,
              Event.timestamp v :: (runF f ⟨m, .fieldTyp, .kTimestamp, d, sc, sr, hs, dc, nr⟩ (l1 ++ l2)).2) := by
          rw [runF_int64Cnt]
        have hp : consumeRaw ⟨m, .int64Cnt v, .kTimestamp, d, sc, sr, hs, dc, nr⟩ l1 =
            ((consumeRaw ⟨m, .fieldTyp, .kTimestamp, d, sc, sr, hs, dc, nr⟩ l1).1,
              Event.timestamp v :: (consumeRaw ⟨m, .fieldTyp, .kTimestamp, d, sc, sr, hs, dc, nr⟩ l1).2) := by
          simp only [consumeRaw]
          rw [runF_int64Cnt]
          rw [runF_irrel (9 * l1.length + Phase.rank (.int64Cnt v))
            (9 * l1.length + Phase.rank .fieldTyp + 1) ⟨m, .fieldTyp, .kTimestamp, d, sc, sr, hs, dc, nr⟩ l1
            (by simp only [Phase.rank]; omega) (by simp only [Phase.rank]; omega)]
        rw [hw, hp]
        exact SplitOk.with_cons (Event.timestamp v)
          (ih ⟨m, .fieldTyp, .kTimestamp, d, sc, sr, hs, dc, nr⟩ l1 l2 (by simp only [Phase.rank]; omega))
      | kDouble =>
        have hw : runF (f + 1) ⟨m, .int64Cnt v, .kDouble, d, sc, sr, hs, dc, nr⟩ (l1 ++ l2) =
            runF f ⟨m, .fieldTyp, .kDouble, d, sc, sr, hs, dc, nr⟩ (l1 ++ l2) := by
          rw [runF_int64Cnt]
        have hp : consumeRaw ⟨m, .int64Cnt v, .kDouble, d, sc, sr, hs, dc, nr⟩ l1 =
            consumeRaw ⟨m, .fieldTyp, .kDouble, d, sc, sr, hs, dc, nr⟩ l1 := by
          simp only [consumeRaw]
          rw [runF_int64Cnt]
          exact runF_irrel (9 * l1.length + Phase.rank (.int64Cnt v))
            (9 * l1.length + Phase.rank .fieldTyp + 1) ⟨m, .fieldTyp, .kDouble, d, sc, sr, hs, dc, nr⟩ l1
            (by simp only [Phase.rank]; omega) (by simp only [Phase.rank]; omega)
        rw [hw, hp]
        exact ih ⟨m, .fieldTyp, .kDouble, d, sc, sr, hs, dc, nr⟩ l1 l2 (by simp only [Phase.rank]; omega)
      | kUtf8 =>
        have hw : runF (f + 1) ⟨m, .int64Cnt v, .kUtf8, d, sc, sr, hs, dc, nr⟩ (l1 ++ l2) =
            runF f ⟨m, .fieldTyp, .kUtf8, d, sc, sr, hs, dc, nr⟩ (l1 ++ l2) := by
          rw [runF_int64Cnt]
        have hp : consumeRaw ⟨m, .int64Cnt v, .kUtf8, d, sc, sr, hs, dc, nr⟩ l1 =
            consumeRaw ⟨m, .fieldTyp, .kUtf8, d, sc, sr, hs, dc, nr⟩ l1 := by
          simp only [consumeRaw]
          rw [runF_int64Cnt]
          exact runF_irrel (9 * l1.length + Phase.rank (.int64Cnt v))
            (9 * l1.length + Phase.rank .fieldTyp + 1) ⟨m, .fieldTyp, .kUtf8, d, sc, sr, hs, dc, nr⟩ l1
            (by simp only [Phase.rank]; omega) (by simp only [Phase.rank]; omega)
        rw [hw, hp]
        exact ih ⟨m, .fieldTyp, .kUtf8, d, sc, sr, hs, dc, nr⟩ l1 l2 (by simp only [Phase.rank]; omega)
      | kDocument =>
        have hw : runF (f + 1) ⟨m, .int64Cnt v, .kDocument, d, sc, sr, hs, dc, nr⟩ (l1 ++ l2) =
            runF f ⟨m, .fieldTyp, .kDocument, d, sc, sr, hs, dc, nr⟩ (l1 ++ l2) := by
          rw [runF_int64Cnt]
        have hp : consumeRaw ⟨m, .int64Cnt v, .kDocument, d, sc, sr, hs, dc, nr⟩ l1 =
            consumeRaw ⟨m, .fieldTyp, .kDocument, d, sc, sr, hs, dc, nr⟩ l1 := by
          simp only [consumeRaw]
          rw [runF_int64Cnt]
          exact runF_irrel (9 * l1.length + Phase.rank (.int64Cnt v))
            (9 * l1.length + Phase.rank .fieldTyp + 1) ⟨m, .fieldTyp, .kDocument, d, sc, sr, hs, dc, nr⟩ l1
            (by simp only [Phase.rank]; omega) (by simp only [Phase.rank]; omega)
        rw [hw, hp]
        exact ih ⟨m, .fieldTyp, .kDocument, d, sc, sr, hs, dc, nr⟩ l1 l2 (by simp only [Phase.rank]; omega)
      | kArray =>
        have hw : runF (f + 1) ⟨m, .int64Cnt v, .kArray, d, sc, sr, hs, dc, nr⟩ (l1 ++ l2) =
            runF f ⟨m, .fieldTyp, .kArray, d, sc, sr, hs, dc, nr⟩ (l1 ++ l2) := by
          rw [runF_int64Cnt]
        have hp : consumeRaw ⟨m, .int64Cnt v, .kArray, d, sc, sr, hs, dc, nr⟩ l1 =
            consumeRaw ⟨m, .fieldTyp, .kArray, d, sc, sr, hs, dc, nr⟩ l1 := by
          simp only [consumeRaw]
          rw [runF_int64Cnt]
          exact runF_irrel (9 * l1.length + Phase.rank (.int64Cnt v))
            (9 * l1.length + Phase.rank .fieldTyp + 1) ⟨m, .fieldTyp, .kArray, d, sc, sr, hs, dc, nr⟩ l1
            (by simp only [Phase.rank]; omega) (by simp only [Phase.rank]; omega)
        rw [hw, hp]
        exact ih ⟨m, .fieldTyp, .kArray, d, sc, sr, hs, dc, nr⟩ l1 l2 (by simp only [Phase.rank]; omega)
      | kBindata =>
        have hw : runF (f + 1) ⟨m, .int64Cnt v, .kBindata, d, sc, sr, hs, dc, nr⟩ (l1 ++ l2) =
            runF f ⟨m, .fieldTyp, .kBindata, d, sc, sr, hs, dc, nr⟩ (l1 ++ l2) := by
          rw [runF_int64Cnt]
        have hp : consumeRaw ⟨m, .int64Cnt v, .kBindata, d, sc, sr, hs, dc, nr⟩ l1 =
            consumeRaw ⟨m, .fieldTyp, .kBindata, d, sc, sr, hs, dc, nr⟩ l1 := by
          simp only [consumeRaw]
          rw [runF_int64Cnt]
          exact runF_irrel (9 * l1.length + Phase.rank (.int64Cnt v))
            (9 * l1.length + Phase.rank .fieldTyp + 1) ⟨m, .fieldTyp, .kBindata, d, sc, sr, hs, dc, nr⟩ l1
            (by simp only [Phase.rank]; omega) (by simp only [Phase.rank]; omega)
        rw [hw, hp]
        exact ih ⟨m, .fieldTyp, .kBindata, d, sc, sr, hs, dc, nr⟩ l1 l2 (by simp only [Phase.rank]; omega)
      | kObjectId =>
        have hw : runF (f + 1) ⟨m, .int64Cnt v, .kObjectId, d, sc, sr, hs, dc, nr⟩ (l1 ++ l2) =
            runF f ⟨m, .fieldTyp, .kObjectId, d, sc, sr, hs, dc, nr⟩ (l1 ++ l2) := by
          rw [runF_int64Cnt]
        have hp : consumeRaw ⟨m, .int64Cnt v, .kObjectId, d, sc, sr, hs, dc, nr⟩ l1 =
            consumeRaw ⟨m, .fieldTyp, .kObjectId, d, sc, sr, hs, dc, nr⟩ l1 := by
          simp only [consumeRaw]
          rw [runF_int64Cnt]
          exact runF_irrel (9 * l1.length + Phase.rank (.int64Cnt v))
            (9 * l1.length + Phase.rank .fieldTyp + 1) ⟨m, .fieldTyp, .kObjectId, d, sc, sr, hs, dc, nr⟩ l1
            (by simp only [Phase.rank]; omega) (by simp only [Phase.rank]; omega)
        rw [hw, hp]
        exact ih ⟨m, .fieldTyp, .kObjectId, d, sc, sr, hs, dc, nr⟩ l1 l2 (by simp only [Phase.rank]; omega)
      | kBool =>
        have hw : runF (f + 1) ⟨m, .int64Cnt v, .kBool, d, sc, sr, hs, dc, nr⟩ (l1 ++ l2) =
            runF f ⟨m, .fieldTyp, .kBool, d, sc, sr, hs, dc, nr⟩ (l1 ++ l2) := by
          rw [runF_int64Cnt]
        have hp : consumeRaw ⟨m, .int64Cnt v, .kBool, d, sc, sr, hs, dc, nr⟩ l1 =
            consumeRaw ⟨m, .fieldTyp, .kBool, d, sc, sr, hs, dc, nr⟩ l1 := by
          simp only [consumeRaw]
          rw [runF_int64Cnt]
          exact runF_irrel (9 * l1.length + Phase.rank (.int64Cnt v))
            (9 * l1.length + Phase.rank .fieldTyp + 1) ⟨m, .fieldTyp, .kBool, d, sc, sr, hs, dc, nr⟩ l1
            (by simp only [Phase.rank]; omega) (by simp only [Phase.rank]; omega)
        rw [hw, hp]
        exact ih ⟨m, .fieldTyp, .kBool, d, sc, sr, hs, dc, nr⟩ l1 l2 (by simp only [Phase.rank]; omega)
      | kNull =>
        have hw : runF (f + 1) ⟨m, .int64Cnt v, .kNull, d, sc, sr, hs, dc, nr⟩ (l1 ++ l2) =
            runF f ⟨m, .fieldTyp, .kNull, d, sc, sr, hs, dc, nr⟩ (l1 ++ l2) := by
          rw [runF_int64Cnt]
        have hp : consumeRaw ⟨m, .int64Cnt v, .kNull, d, sc, sr, hs, dc, nr⟩ l1 =
            consumeRaw ⟨m, .fieldTyp, .kNull, d, sc, sr, hs, dc, nr⟩ l1 := by
          simp only [consumeRaw]
          rw [runF_int64Cnt]
          exact runF_irrel (9 * l1.length + Phase.rank (.int64Cnt v))
            (9 * l1.length + Phase.rank .fieldTyp + 1) ⟨m, .fieldTyp, .kNull, d, sc, sr, hs, dc, nr⟩ l1
            (by simp only [Phase.rank]; omega) (by simp only [Phase.rank]; omega)
        rw [hw, hp]
        exact ih ⟨m, .fieldTyp, .kNull, d, sc, sr, hs, dc, nr⟩ l1 l2 (by simp only [Phase.rank]; omega)
      | kRegexp =>
        have hw : runF (f + 1) ⟨m, .int64Cnt v, .kRegexp, d, sc, sr, hs, dc, nr⟩ (l1 ++ l2) =
            runF f ⟨m, .fieldTyp, .kRegexp, d, sc, sr, hs, dc, nr⟩ (l1 ++ l2) := by
          rw [runF_int64Cnt]
        have hp : consumeRaw ⟨m, .int64Cnt v, .kRegexp, d, sc, sr, hs, dc, nr⟩ l1 =
            consumeRaw ⟨m, .fieldTyp, .kRegexp, d, sc, sr, hs, dc, nr⟩ l1 := by
          simp only [consumeRaw]
          rw [runF_int64Cnt]
          exact runF_irrel (9 * l1.length + Phase.rank (.int64Cnt v))
            (9 * l1.length + Phase.rank .fieldTyp + 1) ⟨m, .fieldTyp, .kRegexp, d, sc, sr, hs, dc, nr⟩ l1
            (by simp only [Phase.rank]; omega) (by simp only [Phase.rank]; omega)
        rw [hw, hp]
        exact ih ⟨m, .fieldTyp, .kRegexp, d, sc, sr, hs, dc, nr⟩ l1 l2 (by simp only [Phase.rank]; omega)
      | kJs =>
        have hw : runF (f + 1) ⟨m, .int64Cnt v, .kJs, d, sc, sr, hs, dc, nr⟩ (l1 ++ l2) =
            runF f ⟨m, .fieldTyp, .kJs, d, sc, sr, hs, dc, nr⟩ (l1 ++ l2) := by
          rw [runF_int64Cnt]
        have hp : consumeRaw ⟨m, .int64Cnt v, .kJs, d, sc, sr, hs, dc, nr⟩ l1 =
            consumeRaw ⟨m, .fieldTyp, .kJs, d, sc, sr, hs, dc, nr⟩ l1 := by
          simp only [consumeRaw]
          rw [runF_int64Cnt]
          exact runF_irrel (9 * l1.length + Phase.rank (.int64Cnt v))
            (9 * l1.length + Phase.rank .fieldTyp + 1) ⟨m, .fieldTyp, .kJs, d, sc, sr, hs, dc, nr⟩ l1
            (by simp only [Phase.rank]; omega) (by simp only [Phase.rank]; omega)
        rw [hw, hp]
        exact ih ⟨m, .fieldTyp, .kJs, d, sc, sr, hs, dc, nr⟩ l1 l2 (by simp only [Phase.rank]; omega)
      | kScopedJs =>
        have hw : runF (f + 1) ⟨m, .int64Cnt v, .kScopedJs, d, sc, sr, hs, dc, nr⟩ (l1 ++ l2) =
            runF f ⟨m, .fieldTyp, .kScopedJs, d, sc, sr, hs, dc, nr⟩ (l1 ++ l2) := by
          rw [runF_int64Cnt]
        have hp : consumeRaw ⟨m, .int64Cnt v, .kScopedJs, d, sc, sr, hs, dc, nr⟩ l1 =
            consumeRaw ⟨m, .fieldTyp, .kScopedJs, d, sc, sr, hs, dc, nr⟩ l1 := by
          simp only [consumeRaw]
          rw [runF_int64Cnt]
          exact runF_irrel (9 * l1.length + Phase.rank (.int64Cnt v))
            (9 * l1.length + Phase.rank .fieldTyp + 1) ⟨m, .fieldTyp, .kScopedJs, d, sc, sr, hs, dc, nr⟩ l1
            (by simp only [Phase.rank]; omega) (by simp only [Phase.rank]; omega)
        rw [hw, hp]
        exact ih ⟨m, .fieldTyp, .kScopedJs, d, sc, sr, hs, dc, nr⟩ l1 l2 (by simp only [Phase.rank]; omega)
      | kInt32 =>
        have hw : runF (f + 1) ⟨m, .int64Cnt v, .kInt32, d, sc, sr, hs, dc, nr⟩ (l1 ++ l2) =
            runF f ⟨m, .fieldTyp, .kInt32, d, sc, sr, hs, dc, nr⟩ (l1 ++ l2) := by
          rw [runF_int64Cnt]
        have hp : consumeRaw ⟨m, .int64Cnt v, .kInt32, d, sc, sr, hs, dc, nr⟩ l1 =
            consumeRaw ⟨m, .fieldTyp, .kInt32, d, sc, sr, hs, dc, nr⟩ l1 := by
          simp only [consumeRaw]
          rw [runF_int64Cnt]
          exact runF_irrel (9 * l1.length + Phase.rank (.int64Cnt v))
            (9 * l1.length + Phase.rank .fieldTyp + 1) ⟨m, .fieldTyp, .kInt32, d, sc, sr, hs, dc, nr⟩ l1
            (by simp only [Phase.rank]; omega) (by simp only [Phase.rank]; omega)
        rw [hw, hp]
        exact ih ⟨m, .fieldTyp, .kInt32, d, sc, sr, hs, dc, nr⟩ l1 l2 (by simp only [Phase.rank]; omega)
      | kMinKey =>
        have hw : runF (f + 1) ⟨m, .int64Cnt v, .kMinKey, d, sc, sr, hs, dc, nr⟩ (l1 ++ l2) =
            runF f ⟨m, .fieldTyp, .kMinKey, d, sc, sr, hs, dc, nr⟩ (l1 ++ l2) := by
          rw [runF_int64Cnt]
        have hp : consumeRaw ⟨m, .int64Cnt v, .kMinKey, d, sc, sr, hs, dc, nr⟩ l1 =
            consumeRaw ⟨m, .fieldTyp, .kMinKey, d, sc, sr, hs, dc, nr⟩ l1 := by
          simp only [consumeRaw]
          rw [runF_int64Cnt]
          exact runF_irrel (9 * l1.length + Phase.rank (.int64Cnt v))
            (9 * l1.length + Phase.rank .fieldTyp + 1) ⟨m, .fieldTyp, .kMinKey, d, sc, sr, hs, dc, nr⟩ l1
            (by simp only [Phase.rank]; omega) (by simp only [Phase.rank]; omega)
        rw [hw, hp]
        exact ih ⟨m, .fieldTyp, .kMinKey, d, sc, sr, hs, dc, nr⟩ l1 l2 (by simp only [Phase.rank]; omega)
      | kMaxKey =>
        have hw : runF (f + 1) ⟨m, .int64Cnt v, .kMaxKey, d, sc, sr, hs, dc, nr⟩ (l1 ++ l2) =
            runF f ⟨m, .fieldTyp, .kMaxKey, d, sc, sr, hs, dc, nr⟩ (l1 ++ l2) := by
          rw [runF_int64Cnt]
        have hp : consumeRaw ⟨m, .int64Cnt v, .kMaxKey, d, sc, sr, hs, dc, nr⟩ l1 =
            consumeRaw ⟨m, .fieldTyp, .kMaxKey, d, sc, sr, hs, dc, nr⟩ l1 := by
          simp only [consumeRaw]
          rw [runF_int64Cnt]
          exact runF_irrel (9 * l1.length + Phase.rank (.int64Cnt v))
            (9 * l1.length + Phase.rank .fieldTyp + 1) ⟨m, .fieldTyp, .kMaxKey, d, sc, sr, hs, dc, nr⟩ l1
            (by simp only [Phase.rank]; omega) (by simp only [Phase.rank]; omega)
        rw [hw, hp]
        exact ih ⟨m, .fieldTyp, .kMaxKey, d, sc, sr, hs, dc, nr⟩ l1 l2 (by simp only [Phase.rank]; omega)
    | readBool =>
      simp only [Phase.rank] at hbnd
      cases l1 with
      | nil =>
        simp only [List.length_nil] at hbnd
        exact SplitOk.of_eq (runF_irrel (f + 1) _ _ l2
          (by simp only [Phase.rank]; omega) (by simp only [Phase.rank]; omega))
      | cons b rest =>
        simp only [List.length_cons] at hbnd
        have hw : runF (f + 1) ⟨m, .readBool, t, d, sc, sr, hs, dc, nr⟩ ((b :: rest) ++ l2) =
            ((runF f ⟨m, .fieldTyp, t, d, sc, sr, hs, dc, nr⟩ (rest ++ l2)).1,
              Event.boolE (readBoolVal b) ::
                (runF f ⟨m, .fieldTyp, t, d, sc, sr, hs, dc, nr⟩ (rest ++ l2)).2) := by
          simp only [List.cons_append]
          rw [runF_readBool_cons]
        have hp : consumeRaw ⟨m, .readBool, t, d, sc, sr, hs, dc, nr⟩ (b :: rest) =
            ((consumeRaw ⟨m, .fieldTyp, t, d, sc, sr, hs, dc, nr⟩ rest).1,
              Event.boolE (readBoolVal b) ::
                (consumeRaw ⟨m, .fieldTyp, t, d, sc, sr, hs, dc, nr⟩ rest).2) := by
          simp only [consumeRaw]
          rw [runF_readBool_cons]
          rw [runF_irrel (9 * (b :: rest).length + Phase.rank .readBool)
            (9 * rest.length + Phase.rank .fieldTyp + 1) ⟨m, .fieldTyp, t, d, sc, sr, hs, dc, nr⟩ rest
            (by simp only [Phase.rank, List.length_cons]; omega)
            (by simp only [Phase.rank]; omega)]
        rw [hw, hp]
        exact SplitOk.with_cons (Event.boolE (readBoolVal b))
          (ih ⟨m, .fieldTyp, t, d, sc, sr, hs, dc, nr⟩ rest l2 (by simp only [Phase.rank]; omega))
    | readDouble =>
      simp only [Phase.rank] at hbnd
      rcases hg : grab 8 sc l1 with ⟨full, rest⟩ | sc2
      · obtain ⟨hge, hfull, hrest⟩ := grab_inl_elim hg
        subst hfull
        subst hrest
        have hgap := grab_append_enough hge l2
        have hdl : (l1.drop (8 - sc.length)).length =
            l1.length - (8 - sc.length) := by simp
        have hw : runF (f + 1) ⟨m, .readDouble, t, d, sc, sr, hs, dc, nr⟩ (l1 ++ l2) =
            runF f ⟨m, .doubleCnt (rd64 (sc ++ l1.take (8 - sc.length)) 0), t, d, [], sr, hs, dc, nr⟩ (l1.drop (8 - sc.length) ++ l2) := by
          rw [runF_readDouble_inl f m t d sc sr hs dc nr hgap]
        have hp : consumeRaw ⟨m, .readDouble, t, d, sc, sr, hs, dc, nr⟩ l1 =
            consumeRaw ⟨m, .doubleCnt (rd64 (sc ++ l1.take (8 - sc.length)) 0), t, d, [], sr, hs, dc, nr⟩ (l1.drop (8 - sc.length)) := by
          simp only [consumeRaw]
          rw [runF_readDouble_inl _ m t d sc sr hs dc nr hg]
          exact runF_irrel (9 * l1.length + Phase.rank .readDouble)
            (9 * (l1.drop (8 - sc.length)).length +
              Phase.rank (.doubleCnt (rd64 (sc ++ l1.take (8 - sc.length)) 0)) + 1)
            ⟨m, .doubleCnt (rd64 (sc ++ l1.take (8 - sc.length)) 0), t, d, [], sr, hs, dc, nr⟩ (l1.drop (8 - sc.length))
            (by simp only [Phase.rank]; omega) (by simp only [Phase.rank]; omega)
        rw [hw, hp]
        exact ih ⟨m, .doubleCnt (rd64 (sc ++ l1.take (8 - sc.length)) 0), t, d, [], sr, hs, dc, nr⟩ (l1.drop (8 - sc.length)) l2
          (by simp only [Phase.rank]; omega)
      · obtain ⟨hsc2, hlen1⟩ := grab_inr_elim hg
        subst hsc2
        have hw := runF_readDouble_absorb f m t d sc sr hs dc nr l2 hlen1
        have hp : consumeRaw ⟨m, .readDouble, t, d, sc, sr, hs, dc, nr⟩ l1 = (⟨m, .readDouble, t, d, sc ++ l1, sr, hs, dc, nr⟩, []) := by
          simp only [consumeRaw]
          rw [runF_readDouble_inr _ m t d sc sr hs dc nr hg]
        rw [hw, hp]
        exact SplitOk.of_eq (runF_irrel (f + 1) _ _ l2
          (by simp only [Phase.rank]; omega) (by simp only [Phase.rank]; omega))
    | doubleCnt bits =>
      simp only [Phase.rank] at hbnd
      have hw : runF (f + 1) ⟨m, .doubleCnt bits, t, d, sc, sr, hs, dc, nr⟩ (l1 ++ l2) =
          ((runF f ⟨m, .fieldTyp, t, d, sc, sr, hs, dc, nr⟩ (l1 ++ l2)).1,
            Event.doubleE bits :: (runF f ⟨m, .fieldTyp, t, d, sc, sr, hs, dc, nr⟩ (l1 ++ l2)).2) := by
        rw [runF_doubleCnt]
      have hp : consumeRaw ⟨m, .doubleCnt bits, t, d, sc, sr, hs, dc, nr⟩ l1 =
          ((consumeRaw ⟨m, .fieldTyp, t, d, sc, sr, hs, dc, nr⟩ l1).1,
            Event.doubleE bits :: (consumeRaw ⟨m, .fieldTyp, t, d, sc, sr, hs, dc, nr⟩ l1).2) := by
        simp only [consumeRaw]
        rw [runF_doubleCnt]
        rw [runF_irrel (9 * l1.length + Phase.rank (.doubleCnt bits))
          (9 * l1.length + Phase.rank .fieldTyp + 1) ⟨m, .fieldTyp, t, d, sc, sr, hs, dc, nr⟩ l1
          (by simp only [Phase.rank]; omega) (by simp only [Phase.rank]; omega)]
      rw [hw, hp]
      exact SplitOk.with_cons (Event.doubleE bits)
        (ih ⟨m, .fieldTyp, t, d, sc, sr, hs, dc, nr⟩ l1 l2 (by simp only [Phase.rank]; omega))
    | readString =>
      simp only [Phase.rank] at hbnd
      by_cases hB : l1.length + l2.length < sr
      · have hA : l1.length < sr := by omega
        have hlt1 : (l1 ++ l2).length < sr := by rw [List.length_append]; omega
        have hlt2 : l2.length < sr - l1.length := by omega
        have hw : runF (f + 1) ⟨m, .readString, t, d, sc, sr, hs, dc, nr⟩ (l1 ++ l2) =
            (⟨m, .readString, t, d, sc, sr - (l1 ++ l2).length, hs, dc, nr⟩,
              if (l1 ++ l2).isEmpty then [] else strEvents t (l1 ++ l2)) := by
          rw [runF_readString, if_pos hlt1]
        have hp : consumeRaw ⟨m, .readString, t, d, sc, sr, hs, dc, nr⟩ l1 =
            (⟨m, .readString, t, d, sc, sr - l1.length, hs, dc, nr⟩,
              if l1.isEmpty then [] else strEvents t l1) := by
          simp only [consumeRaw]
          rw [runF_readString, if_pos hA]
        have hq : consumeRaw ⟨m, .readString, t, d, sc, sr - l1.length, hs, dc, nr⟩ l2 =
            (⟨m, .readString, t, d, sc, sr - l1.length - l2.length, hs, dc, nr⟩,
              if l2.isEmpty then [] else strEvents t l2) := by
          simp only [consumeRaw]
          rw [runF_readString, if_pos hlt2]
        rw [hw, hp]
        refine SplitOk.parts ?_ ?_
        · rw [hq]
          simp [canonSrem, List.length_append, Nat.sub_sub]
        · rw [hq]
          rcases hk : strKindOf t with _ | k
          · exact evEq_of_eq (by simp [strEvents_eq_none hk])
          · rcases l1 with _ | ⟨x1, xs1⟩
            · exact evEq_of_eq (by simp)
            · rcases l2 with _ | ⟨x2, xs2⟩
              · exact evEq_of_eq (by simp)
              · have hsplit := evEq_data_split k (x1 :: xs1) (x2 :: xs2)
                  (by simp) (by simp)
                refine EvEq.trans (evEq_of_eq ?_)
                  (EvEq.trans hsplit (evEq_of_eq ?_))
                · simp [strEvents_eq_some hk]
                · simp [strEvents_eq_some hk]
      · by_cases hA : l1.length < sr
        · have hge1 : ¬((l1 ++ l2).length < sr) := by rw [List.length_append]; omega
          have hge2 : ¬(l2.length < sr - l1.length) := by omega
          have hde : (l1 ++ l2).drop sr = l2.drop (sr - l1.length) :=
            drop_append_long l2 (by omega)
          have hte : (l1 ++ l2).take sr = l1 ++ l2.take (sr - l1.length) :=
            take_append_long l2 (by omega)
          have hp : consumeRaw ⟨m, .readString, t, d, sc, sr, hs, dc, nr⟩ l1 =
              (⟨m, .readString, t, d, sc, sr - l1.length, hs, dc, nr⟩,
                if l1.isEmpty then [] else strEvents t l1) := by
            simp only [consumeRaw]
            rw [runF_readString, if_pos hA]
          have htkl : (l2.take (sr - l1.length)).length = sr - l1.length := by
            rw [List.length_take]
            omega
          have htkne : ¬((l2.take (sr - l1.length)).isEmpty = true) := by
            rcases hL : l2.take (sr - l1.length) with _ | ⟨a, as⟩
            · exfalso
              rw [hL] at htkl
              simp at htkl
              omega
            · simp
          have hdl2 : (l2.drop (sr - l1.length)).length =
              l2.length - (sr - l1.length) := by simp
          by_cases ht : t = .kBindata
          · subst ht
            have hw : runF (f + 1) ⟨m, .readString, .kBindata, d, sc, sr, hs, dc, nr⟩ (l1 ++ l2) =
                ((runF f ⟨m, .fieldTyp, .kBindata, d, sc, 0, hs, dc, nr⟩
                    (l2.drop (sr - l1.length))).1,
                  (strEvents .kBindata (l1 ++ l2.take (sr - l1.length)) ++
                    strEvents .kBindata []) ++
                    (runF f ⟨m, .fieldTyp, .kBindata, d, sc, 0, hs, dc, nr⟩
                      (l2.drop (sr - l1.length))).2) := by
              rw [runF_readString, if_neg hge1, if_pos rfl, hde, hte]
            have hq : consumeRaw ⟨m, .readString, .kBindata, d, sc, sr - l1.length, hs, dc, nr⟩ l2 =
                ((runF (9 * l2.length + Phase.rank .readString)
                    ⟨m, .fieldTyp, .kBindata, d, sc, 0, hs, dc, nr⟩ (l2.drop (sr - l1.length))).1,
                  (strEvents .kBindata (l2.take (sr - l1.length)) ++
                    strEvents .kBindata []) ++
                    (runF (9 * l2.length + Phase.rank .readString)
                      ⟨m, .fieldTyp, .kBindata, d, sc, 0, hs, dc, nr⟩
                      (l2.drop (sr - l1.length))).2) := by
              simp only [consumeRaw]
              rw [runF_readString, if_neg hge2, if_pos rfl]
            have hIR : runF f ⟨m, .fieldTyp, .kBindata, d, sc, 0, hs, dc, nr⟩
                (l2.drop (sr - l1.length)) =
                runF (9 * l2.length + Phase.rank .readString)
                  ⟨m, .fieldTyp, .kBindata, d, sc, 0, hs, dc, nr⟩ (l2.drop (sr - l1.length)) :=
              runF_irrel _ _ _ _ (by simp only [Phase.rank]; omega)
                (by simp only [Phase.rank]; omega)
            rw [hw, hp]
            refine SplitOk.parts ?_ ?_
            · rw [hq, hIR]
            · rw [hq, hIR]
              rcases l1 with _ | ⟨x1, xs1⟩
              · exact evEq_of_eq (by simp)
              · have hsplit := evEq_data_split .sb (x1 :: xs1)
                  (l2.take (sr - (x1 :: xs1).length)) (by simp) htkne
                have hcore : EvEq
                    (strEvents .kBindata
                        ((x1 :: xs1) ++ l2.take (sr - (x1 :: xs1).length)) ++
                      strEvents .kBindata [])
                    ((if (x1 :: xs1).isEmpty then []
                        else strEvents .kBindata (x1 :: xs1)) ++
                      (strEvents .kBindata (l2.take (sr - (x1 :: xs1).length)) ++
                        strEvents .kBindata [])) := by
                  refine EvEq.trans (evEq_of_eq ?_)
                    (EvEq.trans (EvEq.append_right [mkData .sb []] hsplit)
                      (evEq_of_eq ?_))
                  · simp [strEvents, mkData]
                  · simp [strEvents, mkData]
                refine EvEq.trans (EvEq.append_right _ hcore) (evEq_of_eq (by simp))
          · have hw : runF (f + 1) ⟨m, .readString, t, d, sc, sr, hs, dc, nr⟩ (l1 ++ l2) =
                ((runF f ⟨m, .stringTerm, t, d, sc, sr, hs, dc, nr⟩ (l2.drop (sr - l1.length))).1,
                  (strEvents t (l1 ++ l2.take (sr - l1.length)) ++ strEvents t []) ++
                    (runF f ⟨m, .stringTerm, t, d, sc, sr, hs, dc, nr⟩ (l2.drop (sr - l1.length))).2) := by
              rw [runF_readString, if_neg hge1, if_neg ht, hde, hte]
            have hq : consumeRaw ⟨m, .readString, t, d, sc, sr - l1.length, hs, dc, nr⟩ l2 =
                ((runF (9 * l2.length + Phase.rank .readString)
                    ⟨m, .stringTerm, t, d, sc, sr - l1.length, hs, dc, nr⟩ (l2.drop (sr - l1.length))).1,
                  (strEvents t (l2.take (sr - l1.length)) ++ strEvents t []) ++
                    (runF (9 * l2.length + Phase.rank .readString)
                      ⟨m, .stringTerm, t, d, sc, sr - l1.length, hs, dc, nr⟩
                      (l2.drop (sr - l1.length))).2) := by
              simp only [consumeRaw]
              rw [runF_readString, if_neg hge2, if_neg ht]
            have hCAN := runF_canon f m t d sc sr (sr - l1.length) hs dc nr
              (l2.drop (sr - l1.length))
            have hIR : runF f ⟨m, .stringTerm, t, d, sc, sr - l1.length, hs, dc, nr⟩
                (l2.drop (sr - l1.length)) =
                runF (9 * l2.length + Phase.rank .readString)
                  ⟨m, .stringTerm, t, d, sc, sr - l1.length, hs, dc, nr⟩ (l2.drop (sr - l1.length)) :=
              runF_irrel _ _ _ _ (by simp only [Phase.rank]; omega)
                (by simp only [Phase.rank]; omega)
            rw [hw, hp]
            refine SplitOk.parts ?_ ?_
            · rw [hq]
              rw [hCAN.2, hIR]
            · rw [hq]
              rw [hCAN.1, hIR]
              rcases hk : strKindOf t with _ | k
              · exact evEq_of_eq (by simp [strEvents_eq_none hk])
              · rcases l1 with _ | ⟨x1, xs1⟩
                · exact evEq_of_eq (by simp)
                · have hsplit := evEq_data_split k (x1 :: xs1)
                    (l2.take (sr - (x1 :: xs1).length)) (by simp) htkne
                  have hcore : EvEq
                      (strEvents t
                          ((x1 :: xs1) ++ l2.take (sr - (x1 :: xs1).length)) ++
                        strEvents t [])
                      ((if (x1 :: xs1).isEmpty then []
                          else strEvents t (x1 :: xs1)) ++
                        (strEvents t (l2.take (sr - (x1 :: xs1).length)) ++
                          strEvents t [])) := by
                    refine EvEq.trans (evEq_of_eq ?_)
                      (EvEq.trans (EvEq.append_right [mkData k []] hsplit)
                        (evEq_of_eq ?_))
                    · simp [strEvents_eq_some hk]
                    · simp [strEvents_eq_some hk]
                  refine EvEq.trans (EvEq.append_right _ hcore)
                    (evEq_of_eq (by simp))
        · have hA2 : sr ≤ l1.length := by omega
          have hge1 : ¬((l1 ++ l2).length < sr) := by rw [List.length_append]; omega
          have hde : (l1 ++ l2).drop sr = l1.drop sr ++ l2 :=
            List.drop_append_of_le_length hA2
          have hte : (l1 ++ l2).take sr = l1.take sr :=
            List.take_append_of_le_length hA2
          have hdl : (l1.drop sr).length = l1.length - sr := by simp
          by_cases ht : t = .kBindata
          · subst ht
            have hw : runF (f + 1) ⟨m, .readString, .kBindata, d, sc, sr, hs, dc, nr⟩ (l1 ++ l2) =
                ((runF f ⟨m, .fieldTyp, .kBindata, d, sc, 0, hs, dc, nr⟩ (l1.drop sr ++ l2)).1,
                  (strEvents .kBindata (l1.take sr) ++ strEvents .kBindata []) ++
                    (runF f ⟨m, .fieldTyp, .kBindata, d, sc, 0, hs, dc, nr⟩
                      (l1.drop sr ++ l2)).2) := by
              rw [runF_readString, if_neg hge1, if_pos rfl, hde, hte]
            have hp : consumeRaw ⟨m, .readString, .kBindata, d, sc, sr, hs, dc, nr⟩ l1 =
                ((consumeRaw ⟨m, .fieldTyp, .kBindata, d, sc, 0, hs, dc, nr⟩ (l1.drop sr)).1,
                  (strEvents .kBindata (l1.take sr) ++ strEvents .kBindata []) ++
                    (consumeRaw ⟨m, .fieldTyp, .kBindata, d, sc, 0, hs, dc, nr⟩
                      (l1.drop sr)).2) := by
              simp only [consumeRaw]
              rw [runF_readString, if_neg hA, if_pos rfl]
              rw [runF_irrel (9 * l1.length + Phase.rank .readString)
                (9 * (l1.drop sr).length + Phase.rank .fieldTyp + 1)
                ⟨m, .fieldTyp, .kBindata, d, sc, 0, hs, dc, nr⟩ (l1.drop sr)
                (by simp only [Phase.rank]; omega) (by simp only [Phase.rank]; omega)]
            rw [hw, hp]
            exact SplitOk.with_prefix _
              (ih ⟨m, .fieldTyp, .kBindata, d, sc, 0, hs, dc, nr⟩ (l1.drop sr) l2
                (by simp only [Phase.rank]; omega))
          · have hw : runF (f + 1) ⟨m, .readString, t, d, sc, sr, hs, dc, nr⟩ (l1 ++ l2) =
                ((runF f ⟨m, .stringTerm, t, d, sc, sr, hs, dc, nr⟩ (l1.drop sr ++ l2)).1,
                  (strEvents t (l1.take sr) ++ strEvents t []) ++
                    (runF f ⟨m, .stringTerm, t, d, sc, sr, hs, dc, nr⟩ (l1.drop sr ++ l2)).2) := by
              rw [runF_readString, if_neg hge1, if_neg ht, hde, hte]
            have hp : consumeRaw ⟨m, .readString, t, d, sc, sr, hs, dc, nr⟩ l1 =
                ((consumeRaw ⟨m, .stringTerm, t, d, sc, sr, hs, dc, nr⟩ (l1.drop sr)).1,
                  (strEvents t (l1.take sr) ++ strEvents t []) ++
                    (consumeRaw ⟨m, .stringTerm, t, d, sc, sr, hs, dc, nr⟩ (l1.drop sr)).2) := by
              simp only [consumeRaw]
              rw [runF_readString, if_neg hA, if_neg ht]
              rw [runF_irrel (9 * l1.length + Phase.rank .readString)
                (9 * (l1.drop sr).length + Phase.rank .stringTerm + 1)
                ⟨m, .stringTerm, t, d, sc, sr, hs, dc, nr⟩ (l1.drop sr)
                (by simp only [Phase.rank]; omega) (by simp only [Phase.rank]; omega)]
            rw [hw, hp]
            exact SplitOk.with_prefix _
              (ih ⟨m, .stringTerm, t, d, sc, sr, hs, dc, nr⟩ (l1.drop sr) l2
                (by simp only [Phase.rank]; omega))
    | stringTerm =>
      simp only [Phase.rank] at hbnd
      cases l1 with
      | nil =>
        simp only [List.length_nil] at hbnd
        exact SplitOk.of_eq (runF_irrel (f + 1) _ _ l2
          (by simp only [Phase.rank]; omega) (by simp only [Phase.rank]; omega))
      | cons b rest =>
        simp only [List.length_cons] at hbnd
        by_cases hb : b ≠ 0
        · have hw : runF (f + 1) ⟨m, .stringTerm, t, d, sc, sr, hs, dc, nr⟩ ((b :: rest) ++ l2) =
              (⟨m, .error, t, d, sc, 0, hs, dc, nr⟩, [Event.errorE "expected null byte"]) := by
            simp only [List.cons_append]
            rw [runF_stringTerm_cons, if_pos hb]
          have hp : consumeRaw ⟨m, .stringTerm, t, d, sc, sr, hs, dc, nr⟩ (b :: rest) =
              (⟨m, .error, t, d, sc, 0, hs, dc, nr⟩, [Event.errorE "expected null byte"]) := by
            simp only [consumeRaw]
            rw [runF_stringTerm_cons, if_pos hb]
          rw [hw, hp]
          exact SplitOk.terminal rfl
        · have hw : runF (f + 1) ⟨m, .stringTerm, t, d, sc, sr, hs, dc, nr⟩ ((b :: rest) ++ l2) =
              runF f ⟨m, .fieldTyp, t, d, sc, 0, hs, dc, nr⟩ (rest ++ l2) := by
            simp only [List.cons_append]
            rw [runF_stringTerm_cons, if_neg hb]
          have hp : consumeRaw ⟨m, .stringTerm, t, d, sc, sr, hs, dc, nr⟩ (b :: rest) =
              consumeRaw ⟨m, .fieldTyp, t, d, sc, 0, hs, dc, nr⟩ rest := by
            simp only [consumeRaw]
            rw [runF_stringTerm_cons, if_neg hb]
            exact runF_irrel (9 * (b :: rest).length + Phase.rank .stringTerm)
              (9 * rest.length + Phase.rank .fieldTyp + 1)
              ⟨m, .fieldTyp, t, d, sc, 0, hs, dc, nr⟩ rest
              (by simp only [Phase.rank, List.length_cons]; omega)
              (by simp only [Phase.rank]; omega)
          rw [hw, hp]
          exact ih ⟨m, .fieldTyp, t, d, sc, 0, hs, dc, nr⟩ rest l2
            (by simp only [Phase.rank]; omega)
    | readBinSubtype =>
      simp only [Phase.rank] at hbnd
      cases l1 with
      | nil =>
        simp only [List.length_nil] at hbnd
        exact SplitOk.of_eq (runF_irrel (f + 1) _ _ l2
          (by simp only [Phase.rank]; omega) (by simp only [Phase.rank]; omega))
      | cons b rest =>
        simp only [List.length_cons] at hbnd
        have hw : runF (f + 1) ⟨m, .readBinSubtype, t, d, sc, sr, hs, dc, nr⟩ ((b :: rest) ++ l2) =
            ((runF f ⟨m, .readString, t, d, sc, sr, hs, dc, nr⟩ (rest ++ l2)).1,
              Event.bindataSubtype b ::
                (runF f ⟨m, .readString, t, d, sc, sr, hs, dc, nr⟩ (rest ++ l2)).2) := by
          simp only [List.cons_append]
          rw [runF_readBinSubtype_cons]
        have hp : consumeRaw ⟨m, .readBinSubtype, t, d, sc, sr, hs, dc, nr⟩ (b :: rest) =
            ((consumeRaw ⟨m, .readString, t, d, sc, sr, hs, dc, nr⟩ rest).1,
              Event.bindataSubtype b ::
                (consumeRaw ⟨m, .readString, t, d, sc, sr, hs, dc, nr⟩ rest).2) := by
          simp only [consumeRaw]
          rw [runF_readBinSubtype_cons]
          rw [runF_irrel (9 * (b :: rest).length + Phase.rank .readBinSubtype)
            (9 * rest.length + Phase.rank .readString + 1) ⟨m, .readString, t, d, sc, sr, hs, dc, nr⟩ rest
            (by simp only [Phase.rank, List.length_cons]; omega)
            (by simp only [Phase.rank]; omega)]
        rw [hw, hp]
        exact SplitOk.with_cons (Event.bindataSubtype b)
          (ih ⟨m, .readString, t, d, sc, sr, hs, dc, nr⟩ rest l2 (by simp only [Phase.rank]; omega))
    | readObjectId =>
      simp only [Phase.rank] at hbnd
      rcases hg : grab 12 sc l1 with ⟨full, rest⟩ | sc2
      · obtain ⟨hge, hfull, hrest⟩ := grab_inl_elim hg
        subst hfull
        subst hrest
        have hgap := grab_append_enough hge l2
        have hdl : (l1.drop (12 - sc.length)).length =
            l1.length - (12 - sc.length) := by simp
        have hw : runF (f + 1) ⟨m, .readObjectId, t, d, sc, sr, hs, dc, nr⟩ (l1 ++ l2) =
            ((runF f ⟨m, .fieldTyp, t, d, [], sr, hs, dc, nr⟩ (l1.drop (12 - sc.length) ++ l2)).1,
              Event.objectId ((sc ++ l1.take (12 - sc.length)).take 12) ::
                (runF f ⟨m, .fieldTyp, t, d, [], sr, hs, dc, nr⟩
                  (l1.drop (12 - sc.length) ++ l2)).2) := by
          rw [runF_readObjectId_inl f m t d sc sr hs dc nr hgap]
        have hp : consumeRaw ⟨m, .readObjectId, t, d, sc, sr, hs, dc, nr⟩ l1 =
            ((consumeRaw ⟨m, .fieldTyp, t, d, [], sr, hs, dc, nr⟩ (l1.drop (12 - sc.length))).1,
              Event.objectId ((sc ++ l1.take (12 - sc.length)).take 12) ::
                (consumeRaw ⟨m, .fieldTyp, t, d, [], sr, hs, dc, nr⟩
                  (l1.drop (12 - sc.length))).2) := by
          simp only [consumeRaw]
          rw [runF_readObjectId_inl _ m t d sc sr hs dc nr hg]
          rw [runF_irrel (9 * l1.length + Phase.rank .readObjectId)
            (9 * (l1.drop (12 - sc.length)).length + Phase.rank .fieldTyp + 1)
            ⟨m, .fieldTyp, t, d, [], sr, hs, dc, nr⟩ (l1.drop (12 - sc.length))
            (by simp only [Phase.rank]; omega) (by simp only [Phase.rank]; omega)]
        rw [hw, hp]
        exact SplitOk.with_cons (Event.objectId ((sc ++ l1.take (12 - sc.length)).take 12))
          (ih ⟨m, .fieldTyp, t, d, [], sr, hs, dc, nr⟩ (l1.drop (12 - sc.length)) l2
            (by simp only [Phase.rank]; omega))
      · obtain ⟨hsc2, hlen1⟩ := grab_inr_elim hg
        subst hsc2
        have hw := runF_readObjectId_absorb f m t d sc sr hs dc nr l2 hlen1
        have hp : consumeRaw ⟨m, .readObjectId, t, d, sc, sr, hs, dc, nr⟩ l1 =
            (⟨m, .readObjectId, t, d, sc ++ l1, sr, hs, dc, nr⟩, []) := by
          simp only [consumeRaw]
          rw [runF_readObjectId_inr _ m t d sc sr hs dc nr hg]
        rw [hw, hp]
        exact SplitOk.of_eq (runF_irrel (f + 1) _ _ l2
          (by simp only [Phase.rank]; omega) (by simp only [Phase.rank]; omega))
    | hdr =>
      simp only [Phase.rank] at hbnd
      cases m with
      | false =>
        have hw : runF (f + 1) ⟨false, .hdr, t, d, sc, sr, hs, dc, nr⟩ (l1 ++ l2) =
            (⟨false, .hdr, t, d, sc, sr, hs, dc, nr⟩, []) := by
          rw [runF_hdr_plain]
        have hp : consumeRaw ⟨false, .hdr, t, d, sc, sr, hs, dc, nr⟩ l1 =
            (⟨false, .hdr, t, d, sc, sr, hs, dc, nr⟩, []) := by
          simp only [consumeRaw]
          rw [runF_hdr_plain]
        rw [hw, hp]
        exact SplitOk.terminal rfl
      | true =>
        rcases hg : grab 36 hs l1 with ⟨full, rest⟩ | hs2
        · obtain ⟨hge, hfull, hrest⟩ := grab_inl_elim hg
          subst hfull
          subst hrest
          have hgap := grab_append_enough hge l2
          have hdl : (l1.drop (36 - hs.length)).length =
              l1.length - (36 - hs.length) := by simp
          have hw : runF (f + 1) ⟨true, .hdr, t, d, sc, sr, hs, dc, nr⟩ (l1 ++ l2) =
              ((runF f ⟨true, .nextDoc, t, d, sc, sr, (hs ++ l1.take (36 - hs.length)).take 36, dc, toInt32 (rd32 ((hs ++ l1.take (36 - hs.length)).take 36) 32)⟩ (l1.drop (36 - hs.length) ++ l2)).1,
                Event.start ((hs ++ l1.take (36 - hs.length)).take 36) ::
                  (runF f ⟨true, .nextDoc, t, d, sc, sr, (hs ++ l1.take (36 - hs.length)).take 36, dc, toInt32 (rd32 ((hs ++ l1.take (36 - hs.length)).take 36) 32)⟩ (l1.drop (36 - hs.length) ++ l2)).2) := by
            rw [runF_hdr_inl f t d sc sr hs dc nr hgap]
          have hp : consumeRaw ⟨true, .hdr, t, d, sc, sr, hs, dc, nr⟩ l1 =
              ((consumeRaw ⟨true, .nextDoc, t, d, sc, sr, (hs ++ l1.take (36 - hs.length)).take 36, dc, toInt32 (rd32 ((hs ++ l1.take (36 - hs.length)).take 36) 32)⟩ (l1.drop (36 - hs.length))).1,
                Event.start ((hs ++ l1.take (36 - hs.length)).take 36) ::
                  (consumeRaw ⟨true, .nextDoc, t, d, sc, sr, (hs ++ l1.take (36 - hs.length)).take 36, dc, toInt32 (rd32 ((hs ++ l1.take (36 - hs.length)).take 36) 32)⟩ (l1.drop (36 - hs.length))).2) := by
            simp only [consumeRaw]
            rw [runF_hdr_inl _ t d sc sr hs dc nr hg]
            rw [runF_irrel (9 * l1.length + Phase.rank .hdr)
              (9 * (l1.drop (36 - hs.length)).length + Phase.rank .nextDoc + 1)
              ⟨true, .nextDoc, t, d, sc, sr, (hs ++ l1.take (36 - hs.length)).take 36, dc, toInt32 (rd32 ((hs ++ l1.take (36 - hs.length)).take 36) 32)⟩ (l1.drop (36 - hs.length))
              (by simp only [Phase.rank]; omega) (by simp only [Phase.rank]; omega)]
          rw [hw, hp]
          exact SplitOk.with_cons (Event.start ((hs ++ l1.take (36 - hs.length)).take 36))
            (ih ⟨true, .nextDoc, t, d, sc, sr, (hs ++ l1.take (36 - hs.length)).take 36, dc, toInt32 (rd32 ((hs ++ l1.take (36 - hs.length)).take 36) 32)⟩ (l1.drop (36 - hs.length)) l2
              (by simp only [Phase.rank]; omega))
        · obtain ⟨hhs2, hlen1⟩ := grab_inr_elim hg
          subst hhs2
          have hw := runF_hdr_absorb f t d sc sr hs dc nr l2 hlen1
          have hp : consumeRaw ⟨true, .hdr, t, d, sc, sr, hs, dc, nr⟩ l1 =
              (⟨true, .hdr, t, d, sc, sr, hs ++ l1, dc, nr⟩, []) := by
            simp only [consumeRaw]
            rw [runF_hdr_inr _ t d sc sr hs dc nr hg]
          rw [hw, hp]
          exact SplitOk.of_eq (runF_irrel (f + 1) _ _ l2
            (by simp only [Phase.rank]; omega) (by simp only [Phase.rank]; omega))
    | nextDoc =>
      simp only [Phase.rank] at hbnd
      cases m with
      | false =>
        have hw : runF (f + 1) ⟨false, .nextDoc, t, d, sc, sr, hs, dc, nr⟩ (l1 ++ l2) =
            (⟨false, .nextDoc, t, d, sc, sr, hs, dc, nr⟩, []) := by
          rw [runF_nextDoc_plain]
        have hp : consumeRaw ⟨false, .nextDoc, t, d, sc, sr, hs, dc, nr⟩ l1 =
            (⟨false, .nextDoc, t, d, sc, sr, hs, dc, nr⟩, []) := by
          simp only [consumeRaw]
          rw [runF_nextDoc_plain]
        rw [hw, hp]
        exact SplitOk.terminal rfl
      | true =>
        by_cases hdn : dc ≠ nr
        · have hw : runF (f + 1) ⟨true, .nextDoc, t, d, sc, sr, hs, dc, nr⟩ (l1 ++ l2) =
              ((runF f ⟨true, documentStartPhase, .kDocument, d, sc, sr, hs, dc + 1, nr⟩ (l1 ++ l2)).1,
                (if 0 < dc then [Event.docDone] else []) ++
                  Event.docStart dc :: (runF f ⟨true, documentStartPhase, .kDocument, d, sc, sr, hs, dc + 1, nr⟩ (l1 ++ l2)).2) := by
            rw [runF_nextDoc_true, if_pos hdn]
          have hp : consumeRaw ⟨true, .nextDoc, t, d, sc, sr, hs, dc, nr⟩ l1 =
              ((consumeRaw ⟨true, documentStartPhase, .kDocument, d, sc, sr, hs, dc + 1, nr⟩ l1).1,
                (if 0 < dc then [Event.docDone] else []) ++
                  Event.docStart dc :: (consumeRaw ⟨true, documentStartPhase, .kDocument, d, sc, sr, hs, dc + 1, nr⟩ l1).2) := by
            simp only [consumeRaw]
            rw [runF_nextDoc_true, if_pos hdn]
            rw [runF_irrel (9 * l1.length + Phase.rank .nextDoc)
              (9 * l1.length + Phase.rank documentStartPhase + 1) ⟨true, documentStartPhase, .kDocument, d, sc, sr, hs, dc + 1, nr⟩ l1
              (by simp only [Phase.rank, documentStartPhase]; omega)
              (by simp only [Phase.rank, documentStartPhase]; omega)]
          rw [hw, hp]
          exact SplitOk.with_mid (if 0 < dc then [Event.docDone] else [])
            (Event.docStart dc)
            (ih ⟨true, documentStartPhase, .kDocument, d, sc, sr, hs, dc + 1, nr⟩ l1 l2
              (by simp only [Phase.rank, documentStartPhase]; omega))
        · have hw : runF (f + 1) ⟨true, .nextDoc, t, d, sc, sr, hs, dc, nr⟩ (l1 ++ l2) =
              (⟨true, .done, t, d, sc, sr, hs, dc, nr⟩,
                (if 0 < dc then [Event.docDone] else []) ++ [Event.stop]) := by
            rw [runF_nextDoc_true, if_neg hdn]
          have hp : consumeRaw ⟨true, .nextDoc, t, d, sc, sr, hs, dc, nr⟩ l1 =
              (⟨true, .done, t, d, sc, sr, hs, dc, nr⟩,
                (if 0 < dc then [Event.docDone] else []) ++ [Event.stop]) := by
            simp only [consumeRaw]
            rw [runF_nextDoc_true, if_neg hdn]
          rw [hw, hp]
          exact SplitOk.terminal rfl

/-- Feed a list of chunks through successive `Consume` calls (bson.h
829-892, one call per chunk), concatenating the emitted events. -/
def feedChunks (s : RState) : List (List Nat) → RState × List Event
  | [] => (s, [])
  | c :: cs =>
    ((feedChunks (consume s c).1 cs).1,
      (consume s c).2 ++ (feedChunks (consume s c).1 cs).2)

theorem feed_empty : ∀ (cs : List (List Nat)), cs.flatten = [] →
    ∀ s : RState, feedChunks s cs = (s, []) := by
  intro cs
  induction cs with
  | nil =>
    intro _ s
    rfl
  | cons c cs ih =>
    intro h s
    rw [List.flatten_cons] at h
    obtain ⟨hc, hcs⟩ := List.append_eq_nil.mp h
    subst hc
    simp [feedChunks, consume_nil, ih hcs]

/-- Chunked feeding agrees with one-shot feeding: canonical final
states equal, events equivalent up to reassembly of chunked data. -/
theorem feed_split : ∀ (chunks : List (List Nat)) (s : RState),
    canonSrem (feedChunks s chunks).1 =
      canonSrem (consume s chunks.flatten).1 ∧
    EvEq (feedChunks s chunks).2 (consume s chunks.flatten).2 := by
  intro chunks
  induction chunks with
  | nil =>
    intro s
    exact ⟨rfl, EvEq.refl _⟩
  | cons c cs ih =>
    intro s
    cases c with
    | nil =>
      have h1 := ih s
      refine ⟨?_, ?_⟩
      · rw [List.flatten_cons]
        simpa [feedChunks, consume_nil] using h1.1
      · rw [List.flatten_cons]
        simp only [feedChunks, consume_nil, List.nil_append]
        exact h1.2
    | cons b c1 =>
      rcases hJ : cs.flatten with _ | ⟨j, J⟩
      · have hfe := feed_empty cs hJ (consume s (b :: c1)).1
        refine ⟨?_, ?_⟩
        · rw [List.flatten_cons, hJ, List.append_nil]
          simp only [feedChunks, hfe]
        · rw [List.flatten_cons, hJ, List.append_nil]
          simp only [feedChunks, hfe]
          exact evEq_of_eq (by simp)
      · have hbig : 9 * ((b :: c1).length + cs.flatten.length) + s.phase.rank <
            9 * ((b :: c1) ++ cs.flatten).length + s.phase.rank + 1 := by
          rw [List.length_append]
          omega
        have hsp := runF_append
          (9 * ((b :: c1) ++ cs.flatten).length + s.phase.rank + 1)
          s (b :: c1) cs.flatten hbig
        have hw : runF (9 * ((b :: c1) ++ cs.flatten).length + s.phase.rank + 1)
            s ((b :: c1) ++ cs.flatten) = consume s ((b :: c1) ++ cs.flatten) := rfl
        have hcr : consume s (b :: c1) = consumeRaw s (b :: c1) :=
          consume_eq_raw s b c1
        have hcr2 : consume (consumeRaw s (b :: c1)).1 cs.flatten =
            consumeRaw (consumeRaw s (b :: c1)).1 cs.flatten := by
          rw [hJ]
          exact consume_eq_raw _ j J
        have hih := ih (consume s (b :: c1)).1
        obtain ⟨hsp1, hsp2⟩ := hsp
        refine ⟨?_, ?_⟩
        · simp only [feedChunks]
          rw [hih.1, hcr, hcr2, ← hsp1, hw, List.flatten_cons]
        · simp only [feedChunks]
          refine EvEq.trans (EvEq.append_left _ hih.2) ?_
          rw [hcr, hcr2]
          refine EvEq.trans (EvEq.symm hsp2) ?_
          rw [hw, List.flatten_cons]
          exact EvEq.refl _

/-- C4: feeding a byte sequence to `BsonReader::Consume` in arbitrary
consecutive chunks (any sizes, empty chunks included) produces the same
final parser state as feeding it in one call — same `State` (in
particular the same `Done`/`Error` termination), full states equal
after canonicalising the dead `partial_` scratch of `kReadStringTerm` —
and the same event sequence once chunk-split string data is reassembled
(`norm` glues exactly the data pieces that the emit protocol closes
with a zero-length call). -/
theorem c4_chunk_invariance (chunks : List (List Nat)) :
    (feedChunks plainInit chunks).1.phase =
      (consume plainInit chunks.flatten).1.phase ∧
    canonSrem (feedChunks plainInit chunks).1 =
      canonSrem (consume plainInit chunks.flatten).1 ∧
    norm (feedChunks plainInit chunks).2 =
      norm (consume plainInit chunks.flatten).2 := by
  have h := feed_split chunks plainInit
  refine ⟨?_, h.1, EvEq.norm_eq h.2⟩
  have h2 := congrArg RState.phase h.1
  rw [canonSrem_phase, canonSrem_phase] at h2
  exact h2

/-! ## StringMatcher (C5)

The trie matcher of string_matcher.h 59-119: a two-pointer scan over a
lexicographically sorted, null-terminated keyword table. -/

/-- `StringMatcher::State` (string_matcher.h 74). -/
inductive MState where
  | running
  | success
  | failed
  deriving DecidableEq, Repr

/-- The matcher's fields: `pos_`, `min_`, `max_` (uint8) and `state_`. -/
structure SMState where
  pos : Nat
  min : Nat
  max : Nat
  state : MState
  deriving DecidableEq, Repr

/-- `keywords[i].match[j]`: the `match` field points at a
null-terminated C string constant, so the addressable bytes are
`w ++ [0]` (on the sorted tables the class requires, no read goes past
the terminator). -/
def kwByte (w : List Nat) (j : Nat) : Nat := (w ++ [0]).getD j 0

/-- First `AddChar` loop:
`while (min_ < max_ && keywords[min_].match[pos_] != c_in) ++min_;`.
The `uint8` increment is `% 256`; the guard keeps `min_ < max_ ≤ 255`,
so `max - min` fuel covers every iteration. -/
def advMinGo (kws : List (List Nat)) (c pos : Nat) : Nat → Nat → Nat → Nat
  | 0, mn, _ => mn
  | f + 1, mn, mx =>
    if mn < mx ∧ kwByte (kws.getD mn []) pos ≠ c then
      advMinGo kws c pos f ((mn + 1) % 256) mx
    else mn

/-- Second `AddChar` loop:
`while (min_ < max_ && keywords[max_].match[pos_] != c_in) --max_;`
(the `uint8` decrement is `+ 255 % 256`). -/
def advMaxGo (kws : List (List Nat)) (c pos : Nat) : Nat → Nat → Nat → Nat
  | 0, _, mx => mx
  | f + 1, mn, mx =>
    if mn < mx ∧ kwByte (kws.getD mx []) pos ≠ c then
      advMaxGo kws c pos f mn ((mx + 255) % 256)
    else mx

/-- The running-state body of `StringMatcher::AddChar`
(string_matcher.h 89-106): both scan loops, then the
failed/success/advance decision. -/
def addCharRun (kws : List (List Nat)) (c pos mn0 mx0 : Nat) : SMState :=
  let mn := advMinGo kws c pos (mx0 - mn0) mn0 mx0
  let mx := advMaxGo kws c pos (mx0 - mn) mn mx0
  if mn = mx then
    if kwByte (kws.getD mx []) pos ≠ c then ⟨pos, mn, mx, .failed⟩
    else if c = 0 then ⟨pos, mn, mx, .success⟩
    else ⟨(pos + 1) % 256, mn, mx, .running⟩
  else ⟨(pos + 1) % 256, mn, mx, .running⟩

/-- `StringMatcher::AddChar` (string_matcher.h 78-107): `kFailed`
returns at once, `kSuccess` asserts and returns, `kRunning` scans. -/
def addChar (kws : List (List Nat)) (c : Nat) (s : SMState) : SMState :=
  match s.state with
  | .failed => s
  | .success => s
  | .running => addCharRun kws c s.pos s.min s.max

/-- Feed a byte string through successive `AddChar` calls. -/
def runM (kws : List (List Nat)) (l : List Nat) (s : SMState) : SMState :=
  l.foldl (fun s c => addChar kws c s) s

/-- A fresh matcher over a table of `n` keywords: `pos_ = 0`,
`min_ = 0`, `max_ = totlen_ - 1`, `state_ = kRunning` (the
static asserts force `0 < totlen_ < 256`). -/
def initSM (n : Nat) : SMState := ⟨0, 0, n - 1, .running⟩

/-- `StringMatcher::GetResult` (string_matcher.h 109-111):
`keywords[state_ == kSuccess ? min_ : totlen_].val`, where entry
`totlen_` is the null sentinel carrying the default value. -/
def GetResult {α : Type} (acts : List (List Nat × α)) (dflt : α)
    (s : SMState) : α :=
  if s.state = .success then (acts.getD s.min ([], dflt)).2 else dflt

/-- The class contract (string_matcher.h 55-58, 61-65): a nonempty
table of fewer than 256 keywords, each shorter than 256 bytes,
null-free (C strings), strictly sorted in lexicographic byte order. -/
structure GoodKws (kws : List (List Nat)) : Prop where
  hne : 0 < kws.length
  htot : kws.length < 256
  hlen : ∀ w ∈ kws, w.length < 256
  hnf : ∀ w ∈ kws, ∀ b ∈ w, b ≠ 0
  hsort : List.Pairwise (fun a b => List.Lex (· < ·) a b) kws

theorem advMinGo_zero (kws : List (List Nat)) (c pos mn mx : Nat) :
    advMinGo kws c pos 0 mn mx = mn := rfl

theorem advMinGo_succ (kws : List (List Nat)) (c pos f mn mx : Nat) :
    advMinGo kws c pos (f + 1) mn mx =
      if mn < mx ∧ kwByte (kws.getD mn []) pos ≠ c then
        advMinGo kws c pos f ((mn + 1) % 256) mx
      else mn := rfl

theorem advMaxGo_zero (kws : List (List Nat)) (c pos mn mx : Nat) :
    advMaxGo kws c pos 0 mn mx = mx := rfl

theorem advMaxGo_succ (kws : List (List Nat)) (c pos f mn mx : Nat) :
    advMaxGo kws c pos (f + 1) mn mx =
      if mn < mx ∧ kwByte (kws.getD mx []) pos ≠ c then
        advMaxGo kws c pos f mn ((mx + 255) % 256)
      else mx := rfl

/-- What the first loop computes: the result stays in `[mn, mx]`, every
index skipped mismatches `c` at `pos`, and if the loop stopped before
`mx` the stopping index matches. -/
theorem advMinGo_spec (kws : List (List Nat)) (c pos : Nat) :
    ∀ (fuel mn mx : Nat), mn ≤ mx → mx - mn ≤ fuel → mx ≤ 255 →
    mn ≤ advMinGo kws c pos fuel mn mx ∧
    advMinGo kws c pos fuel mn mx ≤ mx ∧
    (∀ i, mn ≤ i → i < advMinGo kws c pos fuel mn mx →
      kwByte (kws.getD i []) pos ≠ c) ∧
    (advMinGo kws c pos fuel mn mx < mx →
      kwByte (kws.getD (advMinGo kws c pos fuel mn mx) []) pos = c) := by
  intro fuel
  induction fuel with
  | zero =>
    intro mn mx h1 h2 h3
    rw [advMinGo_zero]
    refine ⟨Nat.le_refl _, h1, ?_, ?_⟩
    · intro i hi1 hi2
      omega
    · intro h4
      omega
  | succ f ihf =>
    intro mn mx h1 h2 h3
    by_cases hcnd : mn < mx ∧ kwByte (kws.getD mn []) pos ≠ c
    · have hmod : (mn + 1) % 256 = mn + 1 := Nat.mod_eq_of_lt (by omega)
      have hrec := ihf ((mn + 1) % 256) mx (by omega) (by omega) h3
      rw [advMinGo_succ, if_pos hcnd]
      obtain ⟨a1, a2, a3, a4⟩ := hrec
      refine ⟨by omega, a2, ?_, a4⟩
      intro i hi1 hi2
      by_cases hieq : i = mn
      · subst hieq
        exact hcnd.2
      · exact a3 i (by omega) hi2
    · rw [advMinGo_succ, if_neg hcnd]
      refine ⟨Nat.le_refl _, h1, ?_, ?_⟩
      · intro i hi1 hi2
        omega
      · intro h4
        have h5 : ¬(kwByte (kws.getD mn []) pos ≠ c) := by
          intro h6
          exact hcnd ⟨h4, h6⟩
        exact not_not.mp h5

/-- What the second loop computes (mirror image of `advMinGo_spec`). -/
theorem advMaxGo_spec (kws : List (List Nat)) (c pos : Nat) :
    ∀ (fuel mn mx : Nat), mn ≤ mx → mx - mn ≤ fuel → mx ≤ 255 →
    mn ≤ advMaxGo kws c pos fuel mn mx ∧
    advMaxGo kws c pos fuel mn mx ≤ mx ∧
    (∀ i, advMaxGo kws c pos fuel mn mx < i → i ≤ mx →
      kwByte (kws.getD i []) pos ≠ c) ∧
    (mn < advMaxGo kws c pos fuel mn mx →
      kwByte (kws.getD (advMaxGo kws c pos fuel mn mx) []) pos = c) := by
  intro fuel
  induction fuel with
  | zero =>
    intro mn mx h1 h2 h3
    rw [advMaxGo_zero]
    refine ⟨h1, Nat.le_refl _, ?_, ?_⟩
    · intro i hi1 hi2
      omega
    · intro h4
      omega
  | succ f ihf =>
    intro mn mx h1 h2 h3
    by_cases hcnd : mn < mx ∧ kwByte (kws.getD mx []) pos ≠ c
    · have hmod : (mx + 255) % 256 = mx - 1 := by omega
      have hrec := ihf mn ((mx + 255) % 256) (by omega) (by omega) (by omega)
      rw [advMaxGo_succ, if_pos hcnd]
      obtain ⟨a1, a2, a3, a4⟩ := hrec
      refine ⟨a1, by omega, ?_, a4⟩
      intro i hi1 hi2
      by_cases hieq : i = mx
      · subst hieq
        exact hcnd.2
      · exact a3 i hi1 (by omega)
    · rw [advMaxGo_succ, if_neg hcnd]
      refine ⟨h1, Nat.le_refl _, ?_, ?_⟩
      · intro i hi1 hi2
        omega
      · intro h4
        have h5 : ¬(kwByte (kws.getD mx []) pos ≠ c) := by
          intro h6
          exact hcnd ⟨h4, h6⟩
        exact not_not.mp h5

theorem lex_irrefl (p : List Nat) : ¬ List.Lex (· < ·) p p := by
  induction p with
  | nil =>
    intro h
    cases h
  | cons a q ih =>
    intro h
    cases h with
    | rel h2 => omega
    | cons h2 => exact ih h2

/-- Strings sharing a prefix are contiguous in lexicographic order. -/
theorem lex_middle : ∀ (q x y z : List Nat), q <+: x → q <+: z →
    List.Lex (· < ·) x y → List.Lex (· < ·) y z → q <+: y := by
  intro q
  induction q with
  | nil =>
    intro x y z _ _ _ _
    exact List.nil_prefix
  | cons a q2 ih =>
    intro x y z hx hz hxy hyz
    obtain ⟨tx, rfl⟩ := hx
    obtain ⟨tz, rfl⟩ := hz
    simp only [List.cons_append] at hxy hyz
    cases hxy with
    | rel h1 =>
      cases hyz with
      | rel h2 => omega
      | cons h2 => omega
    | cons h1 =>
      cases hyz with
      | rel h2 => omega
      | cons h2 =>
        obtain ⟨t, rfl⟩ := ih (q2 ++ tx) _ (q2 ++ tz)
          (List.prefix_append q2 tx) (List.prefix_append q2 tz) h1 h2
        exact ⟨t, rfl⟩

/-- The byte right after a stored prefix. -/
theorem kwByte_at_append (p : List Nat) (b : Nat) (t : List Nat) :
    kwByte (p ++ b :: t) p.length = b := by
  have h3 := getD_shift p (b :: (t ++ [0])) 0 0
  simp only [Nat.add_zero, List.getD_cons_zero] at h3
  calc kwByte (p ++ b :: t) p.length
      = (p ++ (b :: (t ++ [0]))).getD p.length 0 := by simp [kwByte]
    _ = b := h3

theorem kwByte_self (p : List Nat) : kwByte p p.length = 0 := by
  have h := getD_shift p [0] 0 0
  simp only [Nat.add_zero, List.getD_cons_zero] at h
  simp [kwByte, h]

theorem kwByte_of_snoc_prefix {p : List Nat} {c : Nat} {w : List Nat}
    (h : (p ++ [c]) <+: w) : kwByte w p.length = c := by
  obtain ⟨t, rfl⟩ := h
  rw [show (p ++ [c]) ++ t = p ++ c :: t by simp]
  exact kwByte_at_append p c t

/-- A null at the prefix boundary of a null-free keyword is its
terminator: the keyword is the prefix itself. -/
theorem kwByte_term {p w : List Nat} (h : p <+: w) (hw0 : ∀ b ∈ w, b ≠ 0)
    (ht : kwByte w p.length = 0) : w = p := by
  obtain ⟨t, rfl⟩ := h
  cases t with
  | nil => simp
  | cons b t2 =>
    exfalso
    rw [kwByte_at_append] at ht
    exact hw0 b (by simp) ht

/-- A non-null match at the prefix boundary extends the prefix. -/
theorem kwByte_ext {p w : List Nat} {c : Nat} (h : p <+: w)
    (hb : kwByte w p.length = c) (hc : c ≠ 0) : (p ++ [c]) <+: w := by
  obtain ⟨t, rfl⟩ := h
  cases t with
  | nil =>
    exfalso
    rw [List.append_nil, kwByte_self] at hb
    exact hc hb.symm
  | cons b t2 =>
    rw [kwByte_at_append] at hb
    subst hb
    exact ⟨t2, by simp⟩

/-- The `AddChar` window invariant after feeding the null-free prefix
`p` (still running): `pos_` counts the fed bytes, the window is inside
the table, every window entry has `p` stored as a prefix, and every
table entry with prefix `p` is inside the window. -/
structure MatchInv (kws : List (List Nat)) (p : List Nat) (s : SMState) :
    Prop where
  hst : s.state = .running
  hpos : s.pos = p.length
  hle : s.min ≤ s.max
  hmax : s.max < kws.length
  hwin : ∀ i, s.min ≤ i → i ≤ s.max → p <+: kws.getD i []
  hall : ∀ i, i < kws.length → p <+: kws.getD i [] → s.min ≤ i ∧ i ≤ s.max

theorem getD_mem_kws {kws : List (List Nat)} {i : Nat}
    (h : i < kws.length) : kws.getD i [] ∈ kws := by
  rw [List.getD_eq_getElem kws [] h]
  exact List.getElem_mem h

theorem sorted_get {kws : List (List Nat)}
    (hs : List.Pairwise (fun a b => List.Lex (· < ·) a b) kws)
    {i j : Nat} (hij : i < j) (hj : j < kws.length) :
    List.Lex (· < ·) (kws.getD i []) (kws.getD j []) := by
  have hi : i < kws.length := by omega
  rw [List.pairwise_iff_get] at hs
  have h := hs ⟨i, hi⟩ ⟨j, hj⟩ hij
  rw [List.getD_eq_getElem kws [] hi, List.getD_eq_getElem kws [] hj]
  simpa using h

/-- Contiguity: if two entries of a sorted table carry the prefix `q`,
so does every entry between them. -/
theorem win_prefix {kws : List (List Nat)} (hg : GoodKws kws)
    {q : List Nat} {a b i : Nat} (hb : b < kws.length)
    (hai : a ≤ i) (hib : i ≤ b)
    (hqa : q <+: kws.getD a []) (hqb : q <+: kws.getD b []) :
    q <+: kws.getD i [] := by
  by_cases hia : i = a
  · subst hia
    exact hqa
  by_cases hib2 : i = b
  · subst hib2
    exact hqb
  have h1 := sorted_get hg.hsort (show a < i by omega) (show i < kws.length by omega)
  have h2 := sorted_get hg.hsort (show i < b by omega) hb
  exact lex_middle q _ _ _ hqa hqb h1 h2

theorem MatchInv.intro2 {kws : List (List Nat)} {p : List Nat}
    {pos mn mx : Nat} (hpos : pos = p.length) (hle : mn ≤ mx)
    (hmax : mx < kws.length)
    (hwin : ∀ i, mn ≤ i → i ≤ mx → p <+: kws.getD i [])
    (hall : ∀ i, i < kws.length → p <+: kws.getD i [] → mn ≤ i ∧ i ≤ mx) :
    MatchInv kws p ⟨pos, mn, mx, .running⟩ :=
  { hst := rfl, hpos := hpos, hle := hle, hmax := hmax, hwin := hwin,
    hall := hall }

/-- One non-null `AddChar` step from an invariant state: the matcher
either fails — and then no table entry extends the fed prefix — or the
invariant advances. -/
theorem addCharRun_step {kws : List (List Nat)} (hg : GoodKws kws)
    {p : List Nat} {s : SMState} (hv : MatchInv kws p s) (c : Nat)
    (hc : c ≠ 0) :
    ((addCharRun kws c s.pos s.min s.max).state = .failed ∧
      ∀ i, i < kws.length → ¬((p ++ [c]) <+: kws.getD i [])) ∨
    MatchInv kws (p ++ [c]) (addCharRun kws c s.pos s.min s.max) := by
  obtain ⟨hst, hpos, hle, hmax, hwin, hall⟩ := hv
  have hmx255 : s.max ≤ 255 := by
    have := hg.htot
    omega
  obtain ⟨a1, a2, a3, a4⟩ :=
    advMinGo_spec kws c s.pos (s.max - s.min) s.min s.max hle
      (Nat.le_refl _) hmx255
  obtain ⟨b1, b2, b3, b4⟩ :=
    advMaxGo_spec kws c s.pos
      (s.max - advMinGo kws c s.pos (s.max - s.min) s.min s.max)
      (advMinGo kws c s.pos (s.max - s.min) s.min s.max) s.max a2
      (Nat.le_refl _) hmx255
  set mn := advMinGo kws c s.pos (s.max - s.min) s.min s.max with hmndef
  set mx := advMaxGo kws c s.pos (s.max - mn) mn s.max with hmxdef
  have hrun : addCharRun kws c s.pos s.min s.max =
      (if mn = mx then
        if kwByte (kws.getD mx []) s.pos ≠ c then ⟨s.pos, mn, mx, .failed⟩
        else if c = 0 then ⟨s.pos, mn, mx, .success⟩
        else ⟨(s.pos + 1) % 256, mn, mx, .running⟩
      else ⟨(s.pos + 1) % 256, mn, mx, .running⟩) := rfl
  have hext : ∀ i, i < kws.length → (p ++ [c]) <+: kws.getD i [] →
      mn ≤ i ∧ i ≤ mx := by
    intro i hi hqi
    have hpi : p <+: kws.getD i [] :=
      List.IsPrefix.trans (List.prefix_append p [c]) hqi
    obtain ⟨hi1, hi2⟩ := hall i hi hpi
    have hbi : kwByte (kws.getD i []) s.pos = c := by
      rw [hpos]
      exact kwByte_of_snoc_prefix hqi
    constructor
    · by_contra hcon
      exact a3 i hi1 (by omega) hbi
    · by_contra hcon
      exact b3 i (by omega) hi2 hbi
  rw [hrun]
  by_cases hmneq : mn = mx
  · rw [if_pos hmneq]
    by_cases hbyte : kwByte (kws.getD mx []) s.pos ≠ c
    · rw [if_pos hbyte]
      left
      refine ⟨rfl, ?_⟩
      intro i hi hqi
      obtain ⟨hi1, hi2⟩ := hext i hi hqi
      have : i = mx := by omega
      subst this
      exact hbyte (by rw [hpos]; exact kwByte_of_snoc_prefix hqi)
    · rw [if_neg hbyte, if_neg hc]
      right
      have hbc : kwByte (kws.getD mx []) s.pos = c := not_not.mp hbyte
      have hpmx : p <+: kws.getD mx [] := hwin mx (by omega) b2
      have hqmx : (p ++ [c]) <+: kws.getD mx [] :=
        kwByte_ext hpmx (by rw [← hpos]; exact hbc) hc
      have hlmx : (kws.getD mx []).length < 256 :=
        hg.hlen _ (getD_mem_kws (by omega))
      have hplen : p.length + 1 < 256 := by
        have h9 := hqmx.length_le
        simp only [List.length_append, List.length_cons, List.length_nil] at h9
        omega
      refine MatchInv.intro2 ?_ (by omega) (by omega) ?_ ?_
      · rw [hpos, Nat.mod_eq_of_lt (by omega)]
        simp
      · intro i hi1 hi2
        have hieq : i = mx := by omega
        subst hieq
        exact hqmx
      · intro i hi hqi
        exact hext i hi hqi
  · rw [if_neg hmneq]
    right
    have hmnlt : mn < mx := by omega
    have hbmn : kwByte (kws.getD mn []) s.pos = c := a4 (by omega)
    have hbmx : kwByte (kws.getD mx []) s.pos = c := b4 hmnlt
    have hpmn : p <+: kws.getD mn [] := hwin mn a1 (by omega)
    have hpmx : p <+: kws.getD mx [] := hwin mx (by omega) b2
    have hqmn : (p ++ [c]) <+: kws.getD mn [] :=
      kwByte_ext hpmn (by rw [← hpos]; exact hbmn) hc
    have hqmx : (p ++ [c]) <+: kws.getD mx [] :=
      kwByte_ext hpmx (by rw [← hpos]; exact hbmx) hc
    have hlmx : (kws.getD mx []).length < 256 :=
      hg.hlen _ (getD_mem_kws (by omega))
    have hplen : p.length + 1 < 256 := by
      have h9 := hqmx.length_le
      simp only [List.length_append, List.length_cons, List.length_nil] at h9
      omega
    refine MatchInv.intro2 ?_ (by omega) (by omega) ?_ hext
    · rw [hpos, Nat.mod_eq_of_lt (by omega)]
      simp
    · intro i hi1 hi2
      exact win_prefix hg (show mx < kws.length by omega) hi1 hi2 hqmn hqmx

theorem initInv {kws : List (List Nat)} (hg : GoodKws kws) :
    MatchInv kws [] (initSM kws.length) := by
  have hne := hg.hne
  exact MatchInv.intro2 rfl (by omega) (by omega)
    (fun i _ _ => List.nil_prefix) (fun i hi _ => ⟨Nat.zero_le i, by omega⟩)

theorem runM_app (kws : List (List Nat)) (l : List Nat) (c : Nat)
    (s : SMState) : runM kws (l ++ [c]) s = addChar kws c (runM kws l s) := by
  simp [runM, List.foldl_append]

theorem runM_cons (kws : List (List Nat)) (c : Nat) (l : List Nat)
    (s : SMState) : runM kws (c :: l) s = runM kws l (addChar kws c s) := rfl

theorem addChar_failed {kws : List (List Nat)} {c : Nat} {s : SMState}
    (h : s.state = .failed) : addChar kws c s = s := by
  simp [addChar, h]

theorem addChar_running {kws : List (List Nat)} {c : Nat} {s : SMState}
    (h : s.state = .running) :
    addChar kws c s = addCharRun kws c s.pos s.min s.max := by
  simp [addChar, h]

/-- `kSuccess` is only ever entered on a null byte. -/
theorem addChar_success_src (kws : List (List Nat)) (c : Nat) (s : SMState)
    (hc : c ≠ 0) (h : (addChar kws c s).state = .success) :
    s.state = .success := by
  cases hs : s.state with
  | success => exact rfl
  | failed =>
    rw [addChar_failed hs, hs] at h
    simp at h
  | running =>
    have he : addChar kws c s = addCharRun kws c s.pos s.min s.max := by
      simp [addChar, hs]
    rw [he] at h
    simp only [addCharRun] at h
    split_ifs at h

theorem runM_success_src (kws : List (List Nat)) :
    ∀ (l : List Nat) (s : SMState), (∀ b ∈ l, b ≠ 0) →
    (runM kws l s).state = .success → s.state = .success := by
  intro l
  induction l with
  | nil =>
    intro s _ h
    exact h
  | cons c l2 ih =>
    intro s hnz h
    have h2 := ih (addChar kws c s) (fun b hb => hnz b (by simp [hb]))
      (by rw [← runM_cons]; exact h)
    exact addChar_success_src kws c s (hnz c (by simp)) h2

/-- Running the matcher over any null-free input from the fresh state:
either it failed, or the window invariant holds. -/
theorem runM_inv {kws : List (List Nat)} (hg : GoodKws kws) :
    ∀ (p : List Nat), (∀ b ∈ p, b ≠ 0) →
    (runM kws p (initSM kws.length)).state = .failed ∨
      MatchInv kws p (runM kws p (initSM kws.length)) := by
  intro p
  induction p using List.reverseRecOn with
  | nil =>
    intro _
    right
    exact initInv hg
  | append_singleton q c ihq =>
    intro hnz
    have hq := ihq (fun b hb => hnz b (by simp [hb]))
    rw [runM_app]
    rcases hq with hf | hv
    · left
      rw [addChar_failed hf]
      exact hf
    · have hc : c ≠ 0 := hnz c (by simp)
      have he : addChar kws c (runM kws q (initSM kws.length)) =
          addCharRun kws c (runM kws q (initSM kws.length)).pos
            (runM kws q (initSM kws.length)).min
            (runM kws q (initSM kws.length)).max := by
        simp [addChar, hv.hst]
      rw [he]
      rcases addCharRun_step hg hv c hc with ⟨hf2, _⟩ | hv2
      · left
        exact hf2
      · right
        exact hv2

/-- Feeding a prefix of a stored keyword never fails: the window
invariant holds throughout. -/
theorem runM_inv_target {kws : List (List Nat)} (hg : GoodKws kws)
    {j : Nat} (hj : j < kws.length) :
    ∀ (p : List Nat), p <+: kws.getD j [] →
      MatchInv kws p (runM kws p (initSM kws.length)) := by
  intro p
  induction p using List.reverseRecOn with
  | nil =>
    intro _
    exact initInv hg
  | append_singleton q c ihq =>
    intro hpre
    have hq := ihq (List.IsPrefix.trans (List.prefix_append q [c]) hpre)
    have hc : c ≠ 0 := by
      have hcmem : c ∈ kws.getD j [] := hpre.subset (by simp)
      exact hg.hnf _ (getD_mem_kws hj) c hcmem
    rw [runM_app]
    have he : addChar kws c (runM kws q (initSM kws.length)) =
        addCharRun kws c (runM kws q (initSM kws.length)).pos
          (runM kws q (initSM kws.length)).min
          (runM kws q (initSM kws.length)).max := by
      simp [addChar, hq.hst]
    rw [he]
    rcases addCharRun_step hg hq c hc with ⟨_, hnone⟩ | hv2
    · exact absurd hpre (hnone j hj)
    · exact hv2

/-- The null-byte step from an invariant state when the fed prefix is
exactly the `j`-th keyword: both scans collapse onto `j` and the state
becomes `kSuccess` with `min_ = j`. -/
theorem addCharRun_zero {kws : List (List Nat)} (hg : GoodKws kws)
    {p : List Nat} {s : SMState} (hv : MatchInv kws p s)
    {j : Nat} (hj : j < kws.length) (hpj : kws.getD j [] = p) :
    addCharRun kws 0 s.pos s.min s.max = ⟨s.pos, j, j, .success⟩ := by
  obtain ⟨hst, hpos, hle, hmax, hwin, hall⟩ := hv
  have hmx255 : s.max ≤ 255 := by
    have := hg.htot
    omega
  obtain ⟨a1, a2, a3, a4⟩ :=
    advMinGo_spec kws 0 s.pos (s.max - s.min) s.min s.max hle
      (Nat.le_refl _) hmx255
  obtain ⟨b1, b2, b3, b4⟩ :=
    advMaxGo_spec kws 0 s.pos
      (s.max - advMinGo kws 0 s.pos (s.max - s.min) s.min s.max)
      (advMinGo kws 0 s.pos (s.max - s.min) s.min s.max) s.max a2
      (Nat.le_refl _) hmx255
  set mn := advMinGo kws 0 s.pos (s.max - s.min) s.min s.max with hmndef
  set mx := advMaxGo kws 0 s.pos (s.max - mn) mn s.max with hmxdef
  have hjw := hall j hj (by rw [hpj])
  have hbj : kwByte (kws.getD j []) s.pos = 0 := by
    rw [hpj, hpos]
    exact kwByte_self p
  have huniq : ∀ i, s.min ≤ i → i ≤ s.max →
      kwByte (kws.getD i []) s.pos = 0 → i = j := by
    intro i h1 h2 h0
    have hpi := hwin i h1 h2
    have hieq : kws.getD i [] = p := by
      rw [hpos] at h0
      exact kwByte_term hpi (hg.hnf _ (getD_mem_kws (by omega))) h0
    by_contra hne2
    rcases Nat.lt_or_ge i j with hlt | hge2
    · have hx := sorted_get hg.hsort hlt hj
      rw [hieq, hpj] at hx
      exact lex_irrefl p hx
    · have hgt : j < i := by omega
      have hx := sorted_get hg.hsort hgt (by omega)
      rw [hieq, hpj] at hx
      exact lex_irrefl p hx
  have hmnj : mn = j := by
    have hmnle : mn ≤ j := by
      by_contra hcon
      exact a3 j hjw.1 (by omega) hbj
    by_contra hcon
    have hb := a4 (by omega)
    exact hcon (huniq mn (by omega) (by omega) hb)
  have hmxj : mx = j := by
    have hge3 : j ≤ mx := by
      by_contra hcon
      exact b3 j (by omega) hjw.2 hbj
    by_contra hcon
    have hb := b4 (by omega)
    exact hcon (huniq mx (by omega) (by omega) hb)
  have hrun : addCharRun kws 0 s.pos s.min s.max =
      (if mn = mx then
        if kwByte (kws.getD mx []) s.pos ≠ 0 then ⟨s.pos, mn, mx, .failed⟩
        else if (0 : Nat) = 0 then ⟨s.pos, mn, mx, .success⟩
        else ⟨(s.pos + 1) % 256, mn, mx, .running⟩
      else ⟨(s.pos + 1) % 256, mn, mx, .running⟩) := rfl
  rw [hrun, if_pos (by omega), if_neg (by rw [hmxj]; exact not_not_intro hbj),
    if_pos rfl, hmnj, hmxj]

/-- If the null-byte step succeeds, the fed prefix is a stored
keyword. -/
theorem addCharRun_zero_sound {kws : List (List Nat)} (hg : GoodKws kws)
    {p : List Nat} {s : SMState} (hv : MatchInv kws p s)
    (hsucc : (addCharRun kws 0 s.pos s.min s.max).state = .success) :
    p ∈ kws := by
  obtain ⟨hst, hpos, hle, hmax, hwin, hall⟩ := hv
  have hmx255 : s.max ≤ 255 := by
    have := hg.htot
    omega
  obtain ⟨a1, a2, a3, a4⟩ :=
    advMinGo_spec kws 0 s.pos (s.max - s.min) s.min s.max hle
      (Nat.le_refl _) hmx255
  obtain ⟨b1, b2, b3, b4⟩ :=
    advMaxGo_spec kws 0 s.pos
      (s.max - advMinGo kws 0 s.pos (s.max - s.min) s.min s.max)
      (advMinGo kws 0 s.pos (s.max - s.min) s.min s.max) s.max a2
      (Nat.le_refl _) hmx255
  set mn := advMinGo kws 0 s.pos (s.max - s.min) s.min s.max with hmndef
  set mx := advMaxGo kws 0 s.pos (s.max - mn) mn s.max with hmxdef
  have hrun : addCharRun kws 0 s.pos s.min s.max =
      (if mn = mx then
        if kwByte (kws.getD mx []) s.pos ≠ 0 then ⟨s.pos, mn, mx, .failed⟩
        else if (0 : Nat) = 0 then ⟨s.pos, mn, mx, .success⟩
        else ⟨(s.pos + 1) % 256, mn, mx, .running⟩
      else ⟨(s.pos + 1) % 256, mn, mx, .running⟩) := rfl
  rw [hrun] at hsucc
  by_cases h1 : mn = mx
  · rw [if_pos h1] at hsucc
    by_cases h2 : kwByte (kws.getD mx []) s.pos ≠ 0
    · rw [if_pos h2] at hsucc
      simp at hsucc
    · have hb0 : kwByte (kws.getD mx []) s.pos = 0 := not_not.mp h2
      have hpmx : p <+: kws.getD mx [] := hwin mx (by omega) b2
      have heq : kws.getD mx [] = p := by
        rw [hpos] at hb0
        exact kwByte_term hpmx (hg.hnf _ (getD_mem_kws (by omega))) hb0
      rw [← heq]
      exact getD_mem_kws (by omega)
  · rw [if_neg h1] at hsucc
    simp at hsucc

/-- C5: over any table meeting the class contract (string_matcher.h
55-65: nonempty, fewer than 256 keywords, each shorter than 256 bytes,
null-free, strictly sorted in lexicographic byte order), a fresh
`StringMatcher` returns the stored action for each keyword followed by
0x00, the default for any null-free non-member followed by 0x00, and
the default for a proper prefix of a keyword fed without terminator. -/
theorem c5_string_matcher {α : Type} (acts : List (List Nat × α)) (dflt : α)
    (hne : 0 < acts.length) (htot : acts.length < 256)
    (hlen : ∀ w ∈ acts.map Prod.fst, w.length < 256)
    (hnf : ∀ w ∈ acts.map Prod.fst, ∀ b ∈ w, b ≠ 0)
    (hsort : List.Pairwise (fun a b => List.Lex (· < ·) a b)
      (acts.map Prod.fst)) :
    (∀ j, j < acts.length →
      GetResult acts dflt
        (runM (acts.map Prod.fst)
          ((acts.map Prod.fst).getD j [] ++ [0]) (initSM acts.length)) =
        (acts.getD j ([], dflt)).2) ∧
    (∀ w : List Nat, (∀ b ∈ w, b ≠ 0) → w ∉ acts.map Prod.fst →
      GetResult acts dflt
        (runM (acts.map Prod.fst) (w ++ [0]) (initSM acts.length)) = dflt) ∧
    (∀ w kw : List Nat, kw ∈ acts.map Prod.fst → w <+: kw → w ≠ kw →
      GetResult acts dflt
        (runM (acts.map Prod.fst) w (initSM acts.length)) = dflt) := by
  set kws := acts.map Prod.fst with hkws
  have hlep : kws.length = acts.length := by
    rw [hkws, List.length_map]
  have hg : GoodKws kws := ⟨by omega, by omega, hlen, hnf, hsort⟩
  have hinit : initSM acts.length = initSM kws.length := by rw [hlep]
  refine ⟨?_, ?_, ?_⟩
  · intro j hj
    have hj2 : j < kws.length := by omega
    have hv := runM_inv_target hg hj2 (kws.getD j []) (List.prefix_refl _)
    rw [hinit, runM_app]
    rw [addChar_running hv.hst, addCharRun_zero hg hv hj2 rfl]
    simp [GetResult]
  · intro w hw hnotin
    rw [hinit, runM_app]
    rcases runM_inv hg w hw with hf | hv
    · rw [addChar_failed hf]
      simp [GetResult, hf]
    · rw [addChar_running hv.hst]
      by_cases hS : (addCharRun kws 0 (runM kws w (initSM kws.length)).pos
          (runM kws w (initSM kws.length)).min
          (runM kws w (initSM kws.length)).max).state = .success
      · exact absurd (addCharRun_zero_sound hg hv hS) hnotin
      · simp [GetResult, hS]
  · intro w kw hkw hpre hne2
    have hwnz : ∀ b ∈ w, b ≠ 0 := fun b hb => hg.hnf kw hkw b (hpre.subset hb)
    rw [hinit]
    have hns : ¬((runM kws w (initSM kws.length)).state = .success) := by
      intro hcon
      have h0 := runM_success_src kws w (initSM kws.length) hwnz hcon
      simp [initSM] at h0
    simp [GetResult, hns]

/-- The matcher theorem at a concrete two-keyword table: keyword
lookup, non-member rejection, unterminated-prefix rejection. -/
theorem c5_string_matcher_witness :
    GetResult [([97], (1 : Nat)), ([107, 111], 2)] 0
      (runM [[97], [107, 111]] ([97] ++ [0]) (initSM 2)) = 1 ∧
    GetResult [([97], (1 : Nat)), ([107, 111], 2)] 0
      (runM [[97], [107, 111]] ([98] ++ [0]) (initSM 2)) = 0 ∧
    GetResult [([97], (1 : Nat)), ([107, 111], 2)] 0
      (runM [[97], [107, 111]] [107] (initSM 2)) = 0 := by
  have h := c5_string_matcher [([97], (1 : Nat)), ([107, 111], 2)] 0
    (by decide) (by decide) (by decide) (by decide) (by decide)
  exact ⟨h.1 0 (by decide), h.2.1 [98] (by decide) (by decide),
    h.2.2 [107] [107, 111] (by decide) (by decide) (by decide)⟩

/-! ## BsonValue::GetField and BsonValueIt (C6)

`GetField` (bson.cc 218-261) scans the fields of a document view
linearly; `BsonValueIt` (bson.cc 263-315) walks the same layout.  Both
are modelled on a view whose `data` is the buffer suffix at the value
start and whose `end` pointer is the index `v.size`. -/

/-- The key-comparison loop of `GetField` (bson.cc 230-238):
`while (*curs == *match_cpy && *curs) { ++curs; ++match_cpy;
if (curs >= end - 1) return BsonValue(); }`.  The needle is a C string,
so `*match_cpy` is `kwByte needle moff`.  `none` models the early
`return BsonValue()`; fuel only forces termination. -/
def gfCmp (data : List Nat) (endI : Int) (needle : List Nat) :
    Nat → Nat → Nat → Option (Nat × Nat)
  | 0, _, _ => none
  | f + 1, curs, moff =>
    if data.getD curs 0 = kwByte needle moff ∧ data.getD curs 0 ≠ 0 then
      if (curs + 1 : Int) ≥ endI - 1 then none
      else gfCmp data endI needle f (curs + 1) (moff + 1)
    else some (curs, moff)

/-- The key-skip loop shared by `GetField` (bson.cc 240-246) and
`BsonValueIt::MoveTo` (bson.cc 281-287):
`while (*curs) { ++curs; if (curs >= end - 1) return ...; } ++curs;`.
Returns the index just past the key's null terminator. -/
def gfSkip (data : List Nat) (endI : Int) : Nat → Nat → Option Nat
  | 0, _ => none
  | f + 1, curs =>
    if data.getD curs 0 ≠ 0 then
      if (curs + 1 : Int) ≥ endI - 1 then none
      else gfSkip data endI f (curs + 1)
    else some (curs + 1)

/-- The field loop of `GetField` (bson.cc 223-259).  `sz.toNat` models
`curs += size` (`GetValueLength` never returns a negative size other
than the checked `-1`). -/
def gfLoop (data : List Nat) (endI : Int) (needle : List Nat) :
    Nat → Nat → Option BsonValue
  | 0, _ => none
  | f + 1, curs =>
    if (curs : Int) < endI then
      let tag := ToBsonTag (sbyte (data.getD curs 0))
      if tag = .kMinKey then none
      else
        match gfCmp data endI needle (endI.toNat + 1) (curs + 1) 0 with
        | none => none
        | some (c2, m2) =>
          let matched := data.getD c2 0 = 0 ∧ kwByte needle m2 = 0
          match gfSkip data endI (endI.toNat + 1) c2 with
          | none => none
          | some c3 =>
            let sz := GetValueLength tag (data.drop c3) (endI - c3)
            if sz = -1 then none
            else if matched then some ⟨data.drop c3, tag, sz⟩
            else gfLoop data endI needle f (c3 + sz.toNat)
    else none

/-- `BsonValue::GetField` (bson.cc 218-261): `none` is the empty view
`BsonValue()`. -/
def GetField (v : BsonValue) (needle : List Nat) : Option BsonValue :=
  if v.tag ≠ .kDocument then none
  else gfLoop v.data v.size needle (v.size.toNat + 1) 4

/-- A non-invalidated `BsonValueIt`: indices of the value start and of
the key, plus tag and size. -/
structure ItState where
  dataIdx : Nat
  tag : BsonTag
  size : Int
  keyIdx : Nat
  deriving DecidableEq, Repr

/-- `BsonValueIt::MoveTo` (bson.cc 270-298); `none` is `Invalidate()`. -/
def itMoveTo (data : List Nat) (endI : Int) (curs : Nat) :
    Option ItState :=
  if (curs : Int) ≥ endI - 1 then none
  else
    let tag := ToBsonTag (sbyte (data.getD curs 0))
    if tag = .kMinKey then none
    else
      match gfSkip data endI (endI.toNat + 1) (curs + 1) with
      | none => none
      | some c3 =>
        let sz := GetValueLength tag (data.drop c3) (endI - c3)
        if sz = -1 then none
        else some ⟨c3, tag, sz, curs + 1⟩

/-- `BsonValueIt::BsonValueIt(const BsonValue &)` (bson.cc 302-309). -/
def itInit (v : BsonValue) : Option ItState :=
  if v.tag ≠ .kArray ∧ v.tag ≠ .kDocument then none
  else itMoveTo v.data v.size 4

/-- `BsonValueIt::next` (bson.cc 311-315). -/
def itNext (data : List Nat) (endI : Int) (s : ItState) : Option ItState :=
  itMoveTo data endI (s.dataIdx + s.size.toNat)

/-- The iterator's `key()`: the C string starting at `key_`. -/
def itKey (data : List Nat) (s : ItState) : List Nat :=
  (data.drop s.keyIdx).takeWhile (fun b => b ≠ 0)

/-- Walk the iterator until its `key()` equals the needle, and return
that position as a value view (fuel only forces termination). -/
def itFindGo (data : List Nat) (endI : Int) (needle : List Nat) :
    Nat → Option ItState → Option BsonValue
  | _, none => none
  | 0, some _ => none
  | f + 1, some s =>
    if itKey data s = needle then some ⟨data.drop s.dataIdx, s.tag, s.size⟩
    else itFindGo data endI needle f (itNext data endI s)

/-- The first iterator position over `v` whose key equals the needle. -/
def itFindKey (v : BsonValue) (needle : List Nat) : Option BsonValue :=
  itFindGo v.data v.size needle (v.size.toNat + 1) (itInit v)

/-- The tag of a built field. -/
def itemTag : WItem → BsonTag
  | .elem _ v => v.tag
  | .wdoc _ _ => .kDocument
  | .warr _ _ => .kArray

/-- The key of a built field. -/
def itemKey : WItem → List Nat
  | .elem k _ => k
  | .wdoc k _ => k
  | .warr k _ => k

/-- The value bytes of a built field (what follows the key's null). -/
def itemPayload : WItem → List Nat
  | .elem _ v => v.payload
  | .wdoc _ c => le32 (5 + (serWItems c).length) ++ serWItems c ++ [0]
  | .warr _ c => le32 (5 + (serWItems c).length) ++ serWItems c ++ [0]

/-- Reference linear search: the first field whose key equals the
needle. -/
def findField : WItems → List Nat → Option WItem
  | .nil, _ => none
  | .cons i r, k => if itemKey i = k then some i else findField r k

/-- Reference search that also tracks buffer positions: the view the
first matching field occupies inside `B` when the field list starts at
index `p`. -/
def findFieldAt (B : List Nat) : WItems → List Nat → Nat → Option BsonValue
  | .nil, _, _ => none
  | .cons i r, k, p =>
    let vpos := p + 1 + (itemKey i).length + 1
    if itemKey i = k then
      some ⟨B.drop vpos, itemTag i, ((itemPayload i).length : Int)⟩
    else findFieldAt B r k (vpos + (itemPayload i).length)

/-- Well-formedness of built values: stored `int32` lengths are
positive (`GetValueLength` rejects empty bindata) and fit in an
`int32`. -/
def wValOk : WVal → Bool
  | .vutf8 s => decide ((s.length : Int) + 1 < 2 ^ 31)
  | .vbindata _ s => decide (0 < s.length) && decide ((s.length : Int) < 2 ^ 31)
  | _ => true

mutual
/-- Well-formedness of a built field: null-free key and well-formed
value (nested containers' serialized lengths fit an `int32`). -/
def wItemOk : WItem → Bool
  | .elem k v => k.all (fun b => b ≠ 0) && wValOk v
  | .wdoc k c =>
    k.all (fun b => b ≠ 0) && wItemsOk c &&
      decide (5 + ((serWItems c).length : Int) < 2 ^ 31)
  | .warr k c =>
    k.all (fun b => b ≠ 0) && wItemsOk c &&
      decide (5 + ((serWItems c).length : Int) < 2 ^ 31)
/-- Well-formedness of a field sequence. -/
def wItemsOk : WItems → Bool
  | .nil => true
  | .cons i r => wItemOk i && wItemsOk r
end

/-- Number of fields in a sequence. -/
def countWItems : WItems → Nat
  | .nil => 0
  | .cons _ r => countWItems r + 1

theorem getD_of_drop (B : List Nat) (p k d : Nat) :
    B.getD (p + k) d = (B.drop p).getD k d := by
  simp [List.getD_eq_getElem?_getD, List.getElem?_drop]

theorem drop_shift (B : List Nat) (p k : Nat) :
    B.drop (p + k) = (B.drop p).drop k := by
  rw [List.drop_drop]

theorem getD_head (B X : List Nat) (curs : Nat) (h : B.drop curs = X) (d : Nat) :
    B.getD curs d = X.getD 0 d := by
  have h2 := getD_of_drop B curs 0 d
  rw [Nat.add_zero] at h2
  rw [h2, h]

theorem takeWhile_null (key t : List Nat) (h : ∀ b ∈ key, b ≠ 0) :
    (key ++ 0 :: t).takeWhile (fun b => b ≠ 0) = key := by
  induction key with
  | nil => simp
  | cons a k ih =>
    have ha : a ≠ 0 := h a (by simp)
    have hi := ih (fun b hb => h b (by simp [hb]))
    simp only [List.cons_append, List.takeWhile_cons]
    rw [if_pos (by simp [ha]), hi]

theorem kwByte_drop (needle : List Nat) (moff : Nat) (h : moff ≤ needle.length) :
    kwByte needle moff = kwByte (needle.drop moff) 0 := by
  have hsplit : needle ++ [0] = needle.take moff ++ (needle.drop moff ++ [0]) := by
    rw [← List.append_assoc, List.take_append_drop]
  have hlen : (needle.take moff).length = moff := by
    rw [List.length_take]
    omega
  calc kwByte needle moff = (needle ++ [0]).getD moff 0 := rfl
    _ = (needle.take moff ++ (needle.drop moff ++ [0])).getD
          ((needle.take moff).length + 0) 0 := by
        rw [← hsplit, hlen, Nat.add_zero]
    _ = (needle.drop moff ++ [0]).getD 0 0 := getD_shift _ _ 0 0
    _ = kwByte (needle.drop moff) 0 := rfl

theorem itemTag_ne (i : WItem) : itemTag i ≠ .kMinKey ∧ itemTag i ≠ .kMaxKey := by
  cases i with
  | elem k v => cases v <;> exact ⟨(fun h => nomatch h), (fun h => nomatch h)⟩
  | wdoc k c => exact ⟨(fun h => nomatch h), (fun h => nomatch h)⟩
  | warr k c => exact ⟨(fun h => nomatch h), (fun h => nomatch h)⟩

theorem tag_roundtrip (t : BsonTag) (h1 : t ≠ .kMinKey) (h2 : t ≠ .kMaxKey) :
    ToBsonTag (sbyte t.byte) = t := by
  cases t <;> first
    | exact absurd rfl h1
    | exact absurd rfl h2
    | decide

theorem serWItem_shape (i : WItem) :
    serWItem i = (itemTag i).byte :: itemKey i ++ [0] ++ itemPayload i := by
  cases i <;> rfl

theorem serWItem_len_pos (i : WItem) : 1 ≤ (serWItem i).length := by
  cases i <;> simp [serWItem]

theorem countWItems_le : ∀ c : WItems, countWItems c ≤ (serWItems c).length
  | .nil => by simp [countWItems, serWItems]
  | .cons i r => by
    have ih := countWItems_le r
    have h1 := serWItem_len_pos i
    simp only [countWItems, serWItems, List.length_append]
    omega

/-- The key-comparison loop of `GetField` on a well-laid-out buffer: it
stops inside the key without hitting the early-return bound, and the
match flag it leaves behind decides key equality. -/
theorem gfCmp_go (B : List Nat) (endI : Int) (needle : List Nat)
    (hnf : ∀ b ∈ needle, b ≠ 0) :
    ∀ (krest : List Nat) (f curs moff : Nat) (tail : List Nat),
    B.drop curs = krest ++ [0] ++ tail →
    (∀ b ∈ krest, b ≠ 0) →
    moff ≤ needle.length →
    (curs : Int) + krest.length + 1 + tail.length = endI →
    1 ≤ tail.length →
    krest.length + 1 ≤ f →
    ∃ j, j ≤ krest.length ∧
      gfCmp B endI needle f curs moff = some (curs + j, moff + j) ∧
      B.drop (curs + j) = krest.drop j ++ [0] ++ tail ∧
      ((B.getD (curs + j) 0 = 0 ∧ kwByte needle (moff + j) = 0) ↔
        krest = needle.drop moff) := by
  intro krest
  induction krest with
  | nil =>
    intro f curs moff tail hlay hkn hm hend ht hf
    cases f with
    | zero => omega
    | succ f2 =>
      have hb : B.getD curs 0 = 0 := by
        have h0 := getD_head B ([] ++ [0] ++ tail) curs hlay 0
        simpa using h0
      refine ⟨0, le_refl _, ?_, by simpa using hlay, ?_⟩
      · simp only [gfCmp]
        rw [if_neg]
        · simp
        · rintro ⟨-, hne⟩
          exact hne hb
      · simp only [Nat.add_zero]
        constructor
        · rintro ⟨-, hkw⟩
          rw [kwByte_drop needle moff hm] at hkw
          cases hnd : needle.drop moff with
          | nil => rfl
          | cons a t2 =>
            exfalso
            rw [hnd] at hkw
            have ha : a ≠ 0 := hnf a (List.mem_of_mem_drop (by rw [hnd]; simp))
            exact ha hkw
        · intro hnd
          refine ⟨hb, ?_⟩
          rw [kwByte_drop needle moff hm, ← hnd]
          rfl
  | cons a kr ih =>
    intro f curs moff tail hlay hkn hm hend ht hf
    cases f with
    | zero => omega
    | succ f2 =>
      have ha : a ≠ 0 := hkn a (by simp)
      have hb : B.getD curs 0 = a := by
        have h0 := getD_head B ((a :: kr) ++ [0] ++ tail) curs hlay 0
        simpa using h0
      by_cases hkwm : kwByte needle moff = a
      · have hcond : B.getD curs 0 = kwByte needle moff ∧ B.getD curs 0 ≠ 0 := by
          rw [hb, hkwm]
          exact ⟨rfl, ha⟩
        have hbound : ¬ ((curs + 1 : Int) ≥ endI - 1) := by
          simp only [List.length_cons] at hend
          push_cast at hend ⊢
          omega
        have hmlt : moff < needle.length := by
          by_contra hc
          have hdn : needle.drop moff = [] := List.drop_eq_nil_of_le (by omega)
          rw [kwByte_drop needle moff hm, hdn] at hkwm
          exact ha hkwm.symm
        have hgm : needle.getD moff 0 = a := by
          rw [← hkwm]
          simp only [kwByte]
          rw [List.getD_append _ _ _ _ hmlt]
        have hdropm : needle.drop moff = a :: needle.drop (moff + 1) := by
          rw [List.drop_eq_getElem_cons hmlt, ← List.getD_eq_getElem needle 0 hmlt, hgm]
        have hlay2 : B.drop (curs + 1) = kr ++ [0] ++ tail := by
          rw [drop_shift, hlay]
          simp
        obtain ⟨j, hjle, hrun, hdrop, hiff⟩ := ih f2 (curs + 1) (moff + 1) tail hlay2
          (fun b hb2 => hkn b (by simp [hb2])) (by omega)
          (by simp only [List.length_cons] at hend; push_cast at hend ⊢; omega)
          ht (by simp only [List.length_cons] at hf; omega)
        refine ⟨j + 1, by simp only [List.length_cons]; omega, ?_, ?_, ?_⟩
        · simp only [gfCmp]
          rw [if_pos hcond, if_neg hbound,
            show curs + (j + 1) = curs + 1 + j from by omega,
            show moff + (j + 1) = moff + 1 + j from by omega]
          exact hrun
        · rw [show curs + (j + 1) = curs + 1 + j from by omega, List.drop_succ_cons]
          exact hdrop
        · rw [show curs + (j + 1) = curs + 1 + j from by omega,
            show moff + (j + 1) = moff + 1 + j from by omega, hiff, hdropm]
          constructor
          · intro h2
            rw [h2]
          · intro h2
            rw [List.cons.injEq] at h2
            exact h2.2
      · have hcond : ¬ (B.getD curs 0 = kwByte needle moff ∧ B.getD curs 0 ≠ 0) := by
          rintro ⟨he, -⟩
          rw [hb] at he
          exact hkwm he.symm
        refine ⟨0, by omega, ?_, by simpa using hlay, ?_⟩
        · simp only [gfCmp]
          rw [if_neg hcond]
          simp
        · simp only [Nat.add_zero]
          constructor
          · rintro ⟨hb0, -⟩
            rw [hb] at hb0
            exact absurd hb0 ha
          · intro h2
            exfalso
            apply hkwm
            rw [kwByte_drop needle moff hm, ← h2]
            rfl

/-- The key-skip loop lands just past the key's null terminator. -/
theorem gfSkip_run (B : List Nat) (endI : Int) :
    ∀ (krest : List Nat) (f curs : Nat) (tail : List Nat),
    B.drop curs = krest ++ [0] ++ tail →
    (∀ b ∈ krest, b ≠ 0) →
    (curs : Int) + krest.length + 1 + tail.length = endI →
    1 ≤ tail.length →
    krest.length + 1 ≤ f →
    gfSkip B endI f curs = some (curs + krest.length + 1) := by
  intro krest
  induction krest with
  | nil =>
    intro f curs tail hlay hkn hend ht hf
    cases f with
    | zero => omega
    | succ f2 =>
      have hb : B.getD curs 0 = 0 := by
        have h0 := getD_head B ([] ++ [0] ++ tail) curs hlay 0
        simpa using h0
      simp only [gfSkip]
      rw [if_neg (not_not_intro hb)]
      simp
  | cons a kr ih =>
    intro f curs tail hlay hkn hend ht hf
    cases f with
    | zero => omega
    | succ f2 =>
      have ha : a ≠ 0 := hkn a (by simp)
      have hb : B.getD curs 0 = a := by
        have h0 := getD_head B ((a :: kr) ++ [0] ++ tail) curs hlay 0
        simpa using h0
      have hlay2 : B.drop (curs + 1) = kr ++ [0] ++ tail := by
        rw [drop_shift, hlay]
        simp
      have hrec := ih f2 (curs + 1) tail hlay2 (fun b hb2 => hkn b (by simp [hb2]))
        (by simp only [List.length_cons] at hend; push_cast at hend ⊢; omega) ht
        (by simp only [List.length_cons] at hf; omega)
      simp only [gfSkip]
      rw [if_pos (by rw [hb]; exact ha), if_neg (by
        simp only [List.length_cons] at hend
        push_cast at hend ⊢
        omega)]
      rw [hrec]
      congr 1
      simp only [List.length_cons]
      omega

theorem toInt32_small (n : Nat) (h : n < 2 ^ 31) : toInt32 n = n := by
  rw [toInt32, if_pos h]

theorem le32I_natCast (n : Nat) (h : n < 2 ^ 32) : le32I (n : Int) = le32 n := by
  rw [le32I]
  congr 1
  omega

/-- `GetValueLength` on a length-prefixed null-terminated string value
(`kUtf8`/`kJs`): the stored length plus the 4 prefix bytes. -/
theorem gvl_prefix_str (tag : BsonTag) (hta : tag = .kUtf8 ∨ tag = .kJs)
    (n : Nat) (s tail : List Nat) (hn : n < 2 ^ 31)
    (hlen : s.length + 1 = n) (size : Int)
    (hsz : size = 4 + n + tail.length) :
    GetValueLength tag (le32 n ++ (s ++ ([0] ++ tail))) size = n + 4 := by
  have hb : (le32 n ++ (s ++ ([0] ++ tail))).getD ((n + 4 - 1 : Int)).toNat 0 = 0 := by
    have hidx : ((n + 4 - 1 : Int)).toNat = (le32 n).length + s.length := by
      simp only [le32_length]
      omega
    rw [hidx, getD_of_drop, List.drop_left]
    have h2 := getD_shift s ([0] ++ tail) 0 0
    rw [Nat.add_zero] at h2
    rw [h2]
    rfl
  have hb2 : (le32 n ++ (s ++ 0 :: tail))[(((n : Int) + 4).toNat - 1)]?.getD 0 = 0 := by
    have hidx2 : ((n : Int) + 4).toNat - 1 = (le32 n).length + s.length := by
      simp only [le32_length]
      omega
    rw [hidx2, ← List.getD_eq_getElem?_getD, getD_of_drop, List.drop_left]
    have h6 := getD_shift s (0 :: tail) 0 0
    rw [Nat.add_zero] at h6
    rw [h6]
    rfl
  have h2 : rd32 (le32 n ++ (s ++ ([0] ++ tail))) 0 = n := rd32_le32 _ _ (by omega)
  have h3 : toInt32 n = n := toInt32_small _ (by omega)
  rcases hta with rfl | rfl <;>
  · have h1 : ¬ (size < 4 + 1) := by omega
    have h4 : ¬ ((n : Int) ≤ 0) := by omega
    have h5 : ¬ (size < (n : Int) + 4) := by omega
    simp only [GetValueLength, TagLengthOffset, h2, h3, if_neg h1, if_neg h4]
    simp [if_neg h5]
    intro hcon
    exact absurd hb2 hcon

/-- `GetValueLength` on a serialized document or array value. -/
theorem gvl_prefix_doc (tag : BsonTag) (hta : tag = .kDocument ∨ tag = .kArray)
    (n : Nat) (mid tail : List Nat) (hn : n < 2 ^ 31)
    (hlen : mid.length + 5 = n) (size : Int)
    (hsz : size = n + tail.length) :
    GetValueLength tag (le32 n ++ (mid ++ ([0] ++ tail))) size = n := by
  have hb : (le32 n ++ (mid ++ ([0] ++ tail))).getD ((n + 0 - 1 : Int)).toNat 0 = 0 := by
    have hidx : ((n + 0 - 1 : Int)).toNat = (le32 n).length + mid.length := by
      simp only [le32_length]
      omega
    rw [hidx, getD_of_drop, List.drop_left]
    have h2 := getD_shift mid ([0] ++ tail) 0 0
    rw [Nat.add_zero] at h2
    rw [h2]
    rfl
  have hb2 : (le32 n ++ (mid ++ 0 :: tail))[n - 1]?.getD 0 = 0 := by
    have hidx2 : n - 1 = (le32 n).length + mid.length := by
      simp only [le32_length]
      omega
    rw [hidx2, ← List.getD_eq_getElem?_getD, getD_of_drop, List.drop_left]
    have h6 := getD_shift mid (0 :: tail) 0 0
    rw [Nat.add_zero] at h6
    rw [h6]
    rfl
  have h2 : rd32 (le32 n ++ (mid ++ ([0] ++ tail))) 0 = n := rd32_le32 _ _ (by omega)
  have h3 : toInt32 n = n := toInt32_small _ (by omega)
  rcases hta with rfl | rfl <;>
  · have h1 : ¬ (size < 4 + 1) := by omega
    have h4 : ¬ ((n : Int) ≤ 0) := by omega
    have h5 : ¬ (size < (n : Int)) := by omega
    simp only [GetValueLength, TagLengthOffset, h2, h3, if_neg h1, if_neg h4]
    simp [if_neg h5, hb2]

/-- `GetValueLength` on a bindata value. -/
theorem gvl_bindata (n : Nat) (rest : List Nat) (hn0 : 0 < n) (hn : n < 2 ^ 31)
    (size : Int) (hsz : (n + 5 : Int) ≤ size) :
    GetValueLength .kBindata (le32 n ++ rest) size = n + 5 := by
  have h2 : rd32 (le32 n ++ rest) 0 = n := rd32_le32 _ _ (by omega)
  have h3 : toInt32 n = n := toInt32_small _ (by omega)
  have h1 : ¬ (size < 4 + 1) := by omega
  have h4 : ¬ ((n : Int) ≤ 0) := by omega
  have h5 : ¬ (size < (n : Int) + 5) := by omega
  simp only [GetValueLength, TagLengthOffset, h2, h3, if_neg h1, if_neg h4]
  simp [if_neg h5]

/-- `GetValueLength` of each built payload, with arbitrary bytes behind
it in the buffer: exactly the payload length. -/
theorem gvl_payload (i : WItem) (tail : List Nat) (hok : wItemOk i = true) :
    GetValueLength (itemTag i) (itemPayload i ++ tail)
      (((itemPayload i).length : Int) + (tail.length : Int)) =
      ((itemPayload i).length : Int) := by
  cases i with
  | elem k v =>
    simp only [wItemOk, Bool.and_eq_true] at hok
    obtain ⟨-, hvok⟩ := hok
    cases v with
    | vint32 x =>
      simp only [itemTag, itemPayload, WVal.tag, WVal.payload, le32I_length]
      simp only [GetValueLength]
      rw [if_neg (by push_cast; omega)]
      simp
    | vint64 x =>
      simp only [itemTag, itemPayload, WVal.tag, WVal.payload, le64I_length]
      simp only [GetValueLength]
      rw [if_neg (by push_cast; omega)]
      simp
    | vdouble bits =>
      simp only [itemTag, itemPayload, WVal.tag, WVal.payload, le64_length]
      simp only [GetValueLength]
      rw [if_neg (by push_cast; omega)]
      simp
    | vbool b =>
      simp only [itemTag, itemPayload, WVal.tag, WVal.payload,
        List.length_singleton]
      simp only [GetValueLength]
      rw [if_neg (by push_cast; omega)]
      simp
    | vnull =>
      simp only [itemTag, itemPayload, WVal.tag, WVal.payload,
        List.length_nil, List.nil_append]
      simp only [GetValueLength]
      rw [if_neg (by push_cast; omega)]
      simp
    | vdatetime x =>
      simp only [itemTag, itemPayload, WVal.tag, WVal.payload, le64I_length]
      simp only [GetValueLength]
      rw [if_neg (by push_cast; omega)]
      simp
    | vtimestamp x =>
      simp only [itemTag, itemPayload, WVal.tag, WVal.payload, le64I_length]
      simp only [GetValueLength]
      rw [if_neg (by push_cast; omega)]
      simp
    | voidb oid =>
      have hplen : ((oid ++ List.replicate kObjectIdLen 0).take kObjectIdLen).length = 12 := by
        rw [List.length_take, List.length_append, List.length_replicate]
        simp only [kObjectIdLen]
        omega
      simp only [itemTag, itemPayload, WVal.tag, WVal.payload, hplen]
      simp only [GetValueLength]
      rw [if_neg (by push_cast; omega)]
      simp
    | vutf8 s =>
      simp only [wValOk, decide_eq_true_eq] at hvok
      simp only [itemTag, itemPayload, WVal.tag, WVal.payload]
      have hcast : ((s.length : Int) + 1) = ((s.length + 1 : Nat) : Int) := by
        push_cast
        ring
      have h31 : s.length + 1 < 2 ^ 31 := by omega
      rw [hcast, le32I_natCast _ (by omega)]
      have hassoc : (le32 (s.length + 1) ++ s ++ [0]) ++ tail =
          le32 (s.length + 1) ++ (s ++ ([0] ++ tail)) := by
        simp [List.append_assoc]
      have hlen2 : (le32 (s.length + 1) ++ s ++ [0]).length = 4 + s.length + 1 := by
        simp
        omega
      rw [hassoc, hlen2]
      rw [gvl_prefix_str .kUtf8 (Or.inl rfl) (s.length + 1) s tail h31 rfl
        _ (by push_cast; omega)]
      push_cast
      omega
    | vbindata st s =>
      simp only [wValOk, Bool.and_eq_true, decide_eq_true_eq] at hvok
      simp only [itemTag, itemPayload, WVal.tag, WVal.payload]
      have hcast : ((s.length : Int)) = ((s.length : Nat) : Int) := rfl
      rw [le32I_natCast _ (by omega)]
      have hassoc : (le32 s.length ++ [st % 256] ++ s) ++ tail =
          le32 s.length ++ (([st % 256] ++ s) ++ tail) := by
        simp [List.append_assoc]
      have hlen2 : (le32 s.length ++ [st % 256] ++ s).length = 4 + 1 + s.length := by
        simp
        omega
      rw [hassoc, hlen2]
      rw [gvl_bindata s.length _ hvok.1 (by omega) _ (by push_cast; omega)]
      push_cast
      omega
  | wdoc k c =>
    simp only [wItemOk, Bool.and_eq_true, decide_eq_true_eq] at hok
    simp only [itemTag, itemPayload]
    have hassoc : (le32 (5 + (serWItems c).length) ++ serWItems c ++ [0]) ++ tail =
        le32 (5 + (serWItems c).length) ++ (serWItems c ++ ([0] ++ tail)) := by
      simp [List.append_assoc]
    have hlen2 : (le32 (5 + (serWItems c).length) ++ serWItems c ++ [0]).length =
        5 + (serWItems c).length := by
      simp
      omega
    rw [hassoc, hlen2]
    rw [gvl_prefix_doc .kDocument (Or.inl rfl) (5 + (serWItems c).length) _ tail
      (by omega) (by omega) _ (by push_cast; omega)]
  | warr k c =>
    simp only [wItemOk, Bool.and_eq_true, decide_eq_true_eq] at hok
    simp only [itemTag, itemPayload]
    have hassoc : (le32 (5 + (serWItems c).length) ++ serWItems c ++ [0]) ++ tail =
        le32 (5 + (serWItems c).length) ++ (serWItems c ++ ([0] ++ tail)) := by
      simp [List.append_assoc]
    have hlen2 : (le32 (5 + (serWItems c).length) ++ serWItems c ++ [0]).length =
        5 + (serWItems c).length := by
      simp
      omega
    rw [hassoc, hlen2]
    rw [gvl_prefix_doc .kArray (Or.inr rfl) (5 + (serWItems c).length) _ tail
      (by omega) (by omega) _ (by push_cast; omega)]

theorem itemKey_nf (i : WItem) (h : wItemOk i = true) : ∀ b ∈ itemKey i, b ≠ 0 := by
  cases i with
  | elem k v =>
    simp only [wItemOk, Bool.and_eq_true, List.all_eq_true, decide_eq_true_eq] at h
    exact fun b hb => h.1 b hb
  | wdoc k c =>
    simp only [wItemOk, Bool.and_eq_true, List.all_eq_true, decide_eq_true_eq] at h
    exact fun b hb => h.1.1 b hb
  | warr k c =>
    simp only [wItemOk, Bool.and_eq_true, List.all_eq_true, decide_eq_true_eq] at h
    exact fun b hb => h.1.1 b hb

theorem serWItem_len (i : WItem) :
    (serWItem i).length = 1 + (itemKey i).length + 1 + (itemPayload i).length := by
  rw [serWItem_shape]
  simp only [List.cons_append, List.length_cons, List.length_append,
    List.length_cons, List.length_nil]
  omega

/-- The field loop of `GetField` agrees with the reference linear search
on a well-formed serialized field list. -/
theorem gfLoop_run (B : List Nat) (endI : Int) (needle : List Nat)
    (hnf : ∀ b ∈ needle, b ≠ 0) :
    ∀ (items : WItems) (f curs : Nat),
    B.drop curs = serWItems items ++ [0] →
    wItemsOk items = true →
    (curs : Int) + ((serWItems items).length : Int) + 1 = endI →
    countWItems items < f →
    gfLoop B endI needle f curs = findFieldAt B items needle curs
  | .nil, f, curs => by
    intro hlay hok hend hf
    simp only [countWItems] at hf
    cases f with
    | zero => omega
    | succ f2 =>
      have hb : B.getD curs 0 = 0 := by
        have h0 := getD_head B (serWItems .nil ++ [0]) curs hlay 0
        simpa [serWItems] using h0
      have hlt : (curs : Int) < endI := by
        simp only [serWItems, List.length_nil] at hend
        omega
      simp only [gfLoop, findFieldAt]
      rw [if_pos hlt, hb]
      rw [if_pos (by decide)]
  | .cons i rest, f, curs => by
    intro hlay hok hend hf
    simp only [countWItems] at hf
    cases f with
    | zero => omega
    | succ f2 =>
      simp only [wItemsOk, Bool.and_eq_true] at hok
      obtain ⟨hoki, hokr⟩ := hok
      have hknf := itemKey_nf i hoki
      have hli := serWItem_len i
      have hend2 : (curs : Int) + ((serWItem i).length : Int) +
          ((serWItems rest).length : Int) + 1 = endI := by
        simp only [serWItems, List.length_append] at hend
        push_cast at hend ⊢
        omega
      have hlt : (curs : Int) < endI := by
        push_cast at hend2 ⊢
        omega
      have hlay1 : B.drop curs = (itemTag i).byte ::
          (itemKey i ++ ([0] ++ (itemPayload i ++ (serWItems rest ++ [0])))) := by
        rw [hlay]
        simp only [serWItems]
        rw [serWItem_shape]
        simp [List.append_assoc]
      have hbyte : B.getD curs 0 = (itemTag i).byte := by
        have h0 := getD_head B _ curs hlay1 0
        simpa using h0
      have htag : ToBsonTag (sbyte (B.getD curs 0)) = itemTag i := by
        rw [hbyte]
        exact tag_roundtrip _ (itemTag_ne i).1 (itemTag_ne i).2
      have hlay2 : B.drop (curs + 1) =
          itemKey i ++ [0] ++ (itemPayload i ++ (serWItems rest ++ [0])) := by
        rw [drop_shift, hlay1]
        simp
      obtain ⟨j, hjle, hcmp, hdropj, hiff⟩ := gfCmp_go B endI needle hnf
        (itemKey i) (endI.toNat + 1) (curs + 1) 0
        (itemPayload i ++ (serWItems rest ++ [0])) hlay2 hknf (Nat.zero_le _)
        (by
          simp only [List.length_append, List.length_cons, List.length_nil]
          push_cast at hend2 ⊢
          omega)
        (by
          simp only [List.length_append, List.length_cons, List.length_nil]
          omega)
        (by omega)
      simp only [List.drop_zero] at hiff
      have hskip := gfSkip_run B endI ((itemKey i).drop j) (endI.toNat + 1)
        (curs + 1 + j) (itemPayload i ++ (serWItems rest ++ [0])) hdropj
        (fun b hb => hknf b (List.mem_of_mem_drop hb))
        (by
          simp only [List.length_drop, List.length_append, List.length_cons,
            List.length_nil]
          push_cast at hend2 ⊢
          omega)
        (by
          simp only [List.length_append, List.length_cons, List.length_nil]
          omega)
        (by simp only [List.length_drop]; omega)
      have hskip2 : gfSkip B endI (endI.toNat + 1) (curs + 1 + j) =
          some (curs + 2 + (itemKey i).length) := by
        rw [hskip]
        congr 1
        simp only [List.length_drop]
        omega
      have hlay3 : B.drop (curs + 2 + (itemKey i).length) =
          itemPayload i ++ (serWItems rest ++ [0]) := by
        have hz : (itemKey i).length - j + 1 -
            ((itemKey i).drop j ++ [0]).length = 0 := by
          simp only [List.length_append, List.length_drop, List.length_cons,
            List.length_nil]
          omega
        have hi2 : curs + 2 + (itemKey i).length =
            curs + 1 + j + ((itemKey i).length - j + 1) := by omega
        rw [hi2, drop_shift, hdropj,
          drop_append_long _ (by
            simp only [List.length_append, List.length_drop, List.length_cons,
              List.length_nil]
            omega), hz, List.drop_zero]
      have hgvl : GetValueLength (itemTag i)
          (B.drop (curs + 2 + (itemKey i).length))
          (endI - ((curs + 2 + (itemKey i).length : Nat) : Int)) =
          ((itemPayload i).length : Int) := by
        rw [hlay3]
        rw [show endI - ((curs + 2 + (itemKey i).length : Nat) : Int) =
            ((itemPayload i).length : Int) +
              (((serWItems rest ++ [0]).length : Nat) : Int) from by
          simp only [List.length_append, List.length_cons, List.length_nil]
          push_cast at hend2 ⊢
          omega]
        exact gvl_payload i (serWItems rest ++ [0]) hoki
      have hstep : gfLoop B endI needle (f2 + 1) curs =
          (if ((itemPayload i).length : Int) = -1 then none
           else if B.getD (curs + 1 + j) 0 = 0 ∧ kwByte needle (0 + j) = 0 then
             some ⟨B.drop (curs + 2 + (itemKey i).length), itemTag i,
               ((itemPayload i).length : Int)⟩
           else gfLoop B endI needle f2
             ((curs + 2 + (itemKey i).length) +
               (((itemPayload i).length : Int)).toNat)) := by
        simp only [gfLoop, htag, hcmp, hskip2, hgvl]
        rw [if_pos hlt, if_neg (itemTag_ne i).1]
      rw [hstep, if_neg (by omega)]
      by_cases hmk : itemKey i = needle
      · rw [if_pos (hiff.mpr hmk)]
        simp only [findFieldAt]
        rw [if_pos hmk,
          show curs + 1 + (itemKey i).length + 1 = curs + 2 + (itemKey i).length
            from by omega]
      · rw [if_neg (fun hc => hmk (hiff.mp hc))]
        simp only [findFieldAt]
        rw [if_neg hmk]
        rw [show (((itemPayload i).length : Int)).toNat = (itemPayload i).length
          from Int.toNat_natCast _]
        have hlayR : B.drop (curs + 2 + (itemKey i).length + (itemPayload i).length) =
            serWItems rest ++ [0] := by
          rw [drop_shift, hlay3, List.drop_left]
        have hendR : ((curs + 2 + (itemKey i).length + (itemPayload i).length : Nat) : Int) +
            ((serWItems rest).length : Int) + 1 = endI := by
          push_cast at hend2 ⊢
          omega
        have hrec := gfLoop_run B endI needle hnf rest f2
          (curs + 2 + (itemKey i).length + (itemPayload i).length)
          hlayR hokr hendR (by omega)
        rw [hrec,
          show curs + 1 + (itemKey i).length + 1 + (itemPayload i).length =
            curs + 2 + (itemKey i).length + (itemPayload i).length from by omega]

/-- The iterator walk agrees with the reference linear search on a
well-formed serialized field list. -/
theorem itGo_run (B : List Nat) (endI : Int) (needle : List Nat) :
    ∀ (items : WItems) (f curs : Nat),
    B.drop curs = serWItems items ++ [0] →
    wItemsOk items = true →
    (curs : Int) + ((serWItems items).length : Int) + 1 = endI →
    countWItems items < f →
    itFindGo B endI needle f (itMoveTo B endI curs) = findFieldAt B items needle curs
  | .nil, f, curs => by
    intro hlay hok hend hf
    have hg : (curs : Int) ≥ endI - 1 := by
      simp only [serWItems, List.length_nil] at hend
      push_cast at hend
      omega
    simp only [itMoveTo]
    rw [if_pos hg]
    simp only [itFindGo, findFieldAt]
  | .cons i rest, f, curs => by
    intro hlay hok hend hf
    simp only [countWItems] at hf
    cases f with
    | zero => omega
    | succ f2 =>
      simp only [wItemsOk, Bool.and_eq_true] at hok
      obtain ⟨hoki, hokr⟩ := hok
      have hknf := itemKey_nf i hoki
      have hli := serWItem_len i
      have hend2 : (curs : Int) + ((serWItem i).length : Int) +
          ((serWItems rest).length : Int) + 1 = endI := by
        simp only [serWItems, List.length_append] at hend
        push_cast at hend ⊢
        omega
      have hlay1 : B.drop curs = (itemTag i).byte ::
          (itemKey i ++ ([0] ++ (itemPayload i ++ (serWItems rest ++ [0])))) := by
        rw [hlay]
        simp only [serWItems]
        rw [serWItem_shape]
        simp [List.append_assoc]
      have hbyte : B.getD curs 0 = (itemTag i).byte := by
        have h0 := getD_head B _ curs hlay1 0
        simpa using h0
      have htag : ToBsonTag (sbyte (B.getD curs 0)) = itemTag i := by
        rw [hbyte]
        exact tag_roundtrip _ (itemTag_ne i).1 (itemTag_ne i).2
      have hlay2 : B.drop (curs + 1) =
          itemKey i ++ [0] ++ (itemPayload i ++ (serWItems rest ++ [0])) := by
        rw [drop_shift, hlay1]
        simp
      have hguard : ¬ ((curs : Int) ≥ endI - 1) := by
        push_cast at hend2 ⊢
        omega
      have hskip3 := gfSkip_run B endI (itemKey i) (endI.toNat + 1)
        (curs + 1) (itemPayload i ++ (serWItems rest ++ [0])) hlay2 hknf
        (by
          simp only [List.length_append, List.length_cons, List.length_nil]
          push_cast at hend2 ⊢
          omega)
        (by
          simp only [List.length_append, List.length_cons, List.length_nil]
          omega)
        (by omega)
      have hlay3b : B.drop (curs + 1 + (itemKey i).length + 1) =
          itemPayload i ++ (serWItems rest ++ [0]) := by
        have hz : (itemKey i).length + 1 - (itemKey i ++ [0]).length = 0 := by
          simp only [List.length_append, List.length_cons, List.length_nil]
          omega
        have hi2 : curs + 1 + (itemKey i).length + 1 =
            (curs + 1) + ((itemKey i).length + 1) := by omega
        rw [hi2, drop_shift, hlay2,
          drop_append_long _ (by
            simp only [List.length_append, List.length_cons, List.length_nil]
            omega), hz, List.drop_zero]
      have hgvl2 : GetValueLength (itemTag i)
          (B.drop (curs + 1 + (itemKey i).length + 1))
          (endI - ((curs + 1 + (itemKey i).length + 1 : Nat) : Int)) =
          ((itemPayload i).length : Int) := by
        rw [hlay3b]
        rw [show endI - ((curs + 1 + (itemKey i).length + 1 : Nat) : Int) =
            ((itemPayload i).length : Int) +
              (((serWItems rest ++ [0]).length : Nat) : Int) from by
          simp only [List.length_append, List.length_cons, List.length_nil]
          push_cast at hend2 ⊢
          omega]
        exact gvl_payload i (serWItems rest ++ [0]) hoki
      have hmv : itMoveTo B endI curs = some ⟨curs + 1 + (itemKey i).length + 1,
          itemTag i, ((itemPayload i).length : Int), curs + 1⟩ := by
        simp only [itMoveTo, htag, hskip3, hgvl2]
        rw [if_neg hguard, if_neg (itemTag_ne i).1, if_neg (by omega)]
      have hkey : itKey B ⟨curs + 1 + (itemKey i).length + 1, itemTag i,
          ((itemPayload i).length : Int), curs + 1⟩ = itemKey i := by
        simp only [itKey]
        have hlay2b : B.drop (curs + 1) =
            itemKey i ++ 0 :: (itemPayload i ++ (serWItems rest ++ [0])) := by
          rw [hlay2]
          simp
        rw [hlay2b]
        exact takeWhile_null _ _ hknf
      rw [hmv]
      simp only [itFindGo]
      rw [hkey]
      by_cases hmk : itemKey i = needle
      · rw [if_pos hmk]
        simp only [findFieldAt]
        rw [if_pos hmk]
      · rw [if_neg hmk]
        simp only [findFieldAt]
        rw [if_neg hmk]
        simp only [itNext]
        rw [show (((itemPayload i).length : Int)).toNat = (itemPayload i).length
          from Int.toNat_natCast _]
        have hlayR : B.drop (curs + 1 + (itemKey i).length + 1 + (itemPayload i).length) =
            serWItems rest ++ [0] := by
          rw [drop_shift, hlay3b, List.drop_left]
        have hendR : ((curs + 1 + (itemKey i).length + 1 + (itemPayload i).length : Nat) : Int) +
            ((serWItems rest).length : Int) + 1 = endI := by
          push_cast at hend2 ⊢
          omega
        exact itGo_run B endI needle rest f2
          (curs + 1 + (itemKey i).length + 1 + (itemPayload i).length)
          hlayR hokr hendR (by omega)

theorem findFieldAt_none (B : List Nat) (needle : List Nat) :
    ∀ (items : WItems) (p : Nat), findField items needle = none →
    findFieldAt B items needle p = none
  | .nil, p => fun _ => rfl
  | .cons i rest, p => by
    intro h
    simp only [findField] at h
    simp only [findFieldAt]
    by_cases hmk : itemKey i = needle
    · rw [if_pos hmk] at h
      exact absurd h (by simp)
    · rw [if_neg hmk] at h
      rw [if_neg hmk]
      exact findFieldAt_none B needle rest _ h

theorem findFieldAt_found (B : List Nat) (needle : List Nat) :
    ∀ (items : WItems) (p : Nat) (tail0 : List Nat) (i : WItem),
    B.drop p = serWItems items ++ tail0 →
    findField items needle = some i →
    ∃ q t2, findFieldAt B items needle p =
        some ⟨B.drop q, itemTag i, ((itemPayload i).length : Int)⟩ ∧
      B.drop q = itemPayload i ++ t2
  | .nil, p, tail0, i => by
    intro _ h
    exact absurd h (by simp [findField])
  | .cons j rest, p, tail0, i => by
    intro hlay h
    simp only [findField] at h
    simp only [findFieldAt]
    have hlay1 : B.drop p = (itemTag j).byte ::
        (itemKey j ++ ([0] ++ (itemPayload j ++ (serWItems rest ++ tail0)))) := by
      rw [hlay]
      simp only [serWItems]
      rw [serWItem_shape]
      simp [List.append_assoc]
    have hlay2a : B.drop (p + 1) =
        itemKey j ++ [0] ++ (itemPayload j ++ (serWItems rest ++ tail0)) := by
      rw [drop_shift, hlay1]
      simp
    have hlay2 : B.drop (p + 1 + (itemKey j).length + 1) =
        itemPayload j ++ (serWItems rest ++ tail0) := by
      have hz : (itemKey j).length + 1 - (itemKey j ++ [0]).length = 0 := by
        simp only [List.length_append, List.length_cons, List.length_nil]
        omega
      have hi2 : p + 1 + (itemKey j).length + 1 =
          (p + 1) + ((itemKey j).length + 1) := by omega
      rw [hi2, drop_shift, hlay2a,
        drop_append_long _ (by
          simp only [List.length_append, List.length_cons, List.length_nil]
          omega), hz, List.drop_zero]
    by_cases hmk : itemKey j = needle
    · rw [if_pos hmk] at h
      rw [if_pos hmk]
      have hji : j = i := by
        rw [Option.some.injEq] at h
        exact h
      subst hji
      exact ⟨p + 1 + (itemKey j).length + 1, serWItems rest ++ tail0, rfl, hlay2⟩
    · rw [if_neg hmk] at h
      rw [if_neg hmk]
      have hlayR : B.drop (p + 1 + (itemKey j).length + 1 + (itemPayload j).length) =
          serWItems rest ++ tail0 := by
        rw [drop_shift, hlay2, List.drop_left]
      exact findFieldAt_found B needle rest _ tail0 i hlayR h

/-- C6: on a well-formed serialized document viewed as a `kDocument`
`BsonValue` (the view the validating constructor returns), `GetField`
agrees with the iterator-based lookup, returns the empty view exactly
when no field's key equals the needle, and otherwise returns a
non-empty view whose tag, size and payload bytes are those of the first
matching field. -/
theorem c6_get_field (items : WItems) (needle : List Nat)
    (hok : wItemsOk items = true) (hnf : ∀ b ∈ needle, b ≠ 0)
    (hsz : ((serDoc items).length : Int) < 2 ^ 31) :
    BsonValueMk (serDoc items) ((serDoc items).length : Int) .kDocument =
      some ⟨serDoc items, .kDocument, ((serDoc items).length : Int)⟩ ∧
    GetField ⟨serDoc items, .kDocument, ((serDoc items).length : Int)⟩ needle =
      itFindKey ⟨serDoc items, .kDocument, ((serDoc items).length : Int)⟩ needle ∧
    (findField items needle = none →
      GetField ⟨serDoc items, .kDocument, ((serDoc items).length : Int)⟩ needle =
        none) ∧
    (∀ i, findField items needle = some i →
      ∃ w, GetField ⟨serDoc items, .kDocument,
            ((serDoc items).length : Int)⟩ needle = some w ∧
        w.tag = itemTag i ∧ w.size = ((itemPayload i).length : Int) ∧
        w.data.take (itemPayload i).length = itemPayload i) := by
  have hL : (serDoc items).length = 5 + (serWItems items).length := by
    simp only [serDoc, List.length_append, le32_length, List.length_cons,
      List.length_nil]
    omega
  have hlay0 : (serDoc items).drop 4 = serWItems items ++ [0] := by
    rw [serDoc, List.append_assoc]
    simp
  have hend0 : ((4 : Nat) : Int) + ((serWItems items).length : Int) + 1 =
      ((serDoc items).length : Int) := by
    push_cast
    omega
  have hfuel : countWItems items < (serDoc items).length + 1 := by
    have h := countWItems_le items
    omega
  have hGF : GetField ⟨serDoc items, .kDocument,
      ((serDoc items).length : Int)⟩ needle =
      findFieldAt (serDoc items) items needle 4 := by
    simp only [GetField]
    rw [if_neg (by simp)]
    rw [show ((((serDoc items).length : Int)).toNat) = (serDoc items).length from
      Int.toNat_natCast _]
    exact gfLoop_run (serDoc items) ((serDoc items).length : Int) needle hnf items
      ((serDoc items).length + 1) 4 hlay0 hok hend0 hfuel
  have hIT : itFindKey ⟨serDoc items, .kDocument,
      ((serDoc items).length : Int)⟩ needle =
      findFieldAt (serDoc items) items needle 4 := by
    simp only [itFindKey, itInit]
    rw [if_neg (by simp)]
    rw [show ((((serDoc items).length : Int)).toNat) = (serDoc items).length from
      Int.toNat_natCast _]
    exact itGo_run (serDoc items) ((serDoc items).length : Int) needle items
      ((serDoc items).length + 1) 4 hlay0 hok hend0 hfuel
  refine ⟨?_, ?_, ?_, ?_⟩
  · have hunf : BsonValueMk (serDoc items) ((serDoc items).length : Int)
        .kDocument =
        (if GetValueLength .kDocument (serDoc items)
            ((serDoc items).length : Int) = -1 then none
         else some ⟨serDoc items, .kDocument,
           GetValueLength .kDocument (serDoc items)
             ((serDoc items).length : Int)⟩) := rfl
    have hgv : GetValueLength .kDocument (serDoc items)
        ((serDoc items).length : Int) = ((serDoc items).length : Int) := by
      rw [show serDoc items = le32 (5 + (serWItems items).length) ++
          (serWItems items ++ ([0] ++ [])) from by simp [serDoc]]
      rw [gvl_prefix_doc .kDocument (Or.inl rfl) (5 + (serWItems items).length)
        (serWItems items) [] (by push_cast at hsz ⊢; omega) (by omega) _ (by
          simp only [List.length_append, le32_length, List.length_cons,
            List.length_nil]
          push_cast
          omega)]
      simp only [List.length_append, le32_length, List.length_cons,
        List.length_nil]
      push_cast
      omega
    have hne : ¬ (((serDoc items).length : Int) = -1) := by
      omega
    rw [hunf, hgv, if_neg hne]
  · rw [hGF, hIT]
  · intro hnone
    rw [hGF]
    exact findFieldAt_none _ needle items 4 hnone
  · intro i hi
    obtain ⟨q, t2, hfa, hdq⟩ := findFieldAt_found (serDoc items) needle items 4
      [0] i hlay0 hi
    refine ⟨⟨(serDoc items).drop q, itemTag i, ((itemPayload i).length : Int)⟩,
      ?_, rfl, rfl, ?_⟩
    · rw [hGF, hfa]
    · rw [hdq]
      exact List.take_left _ _

/-- C6 witness: the concrete document `{"a": int32(7), "b": {}}` with
needle `"b"`, satisfying every hypothesis. -/
theorem c6_get_field_witness :
    wItemsOk (WItems.cons (WItem.elem [97] (WVal.vint32 7))
      (WItems.cons (WItem.wdoc [98] WItems.nil) WItems.nil)) = true ∧
    ((serDoc (WItems.cons (WItem.elem [97] (WVal.vint32 7))
      (WItems.cons (WItem.wdoc [98] WItems.nil) WItems.nil))).length : Int) <
        2 ^ 31 ∧
    GetField ⟨serDoc (WItems.cons (WItem.elem [97] (WVal.vint32 7))
        (WItems.cons (WItem.wdoc [98] WItems.nil) WItems.nil)), .kDocument,
        ((serDoc (WItems.cons (WItem.elem [97] (WVal.vint32 7))
          (WItems.cons (WItem.wdoc [98] WItems.nil) WItems.nil))).length : Int)⟩
        [98] =
      itFindKey ⟨serDoc (WItems.cons (WItem.elem [97] (WVal.vint32 7))
        (WItems.cons (WItem.wdoc [98] WItems.nil) WItems.nil)), .kDocument,
        ((serDoc (WItems.cons (WItem.elem [97] (WVal.vint32 7))
          (WItems.cons (WItem.wdoc [98] WItems.nil) WItems.nil))).length : Int)⟩
        [98] :=
  ⟨by decide, by decide,
    (c6_get_field _ [98] (by decide) (by decide) (by decide)).2.1⟩


/-! ## The operation-response parser (`OpResponseParser`, C1)

`OpResponseParser` (src/mongo.h 236-323, src/mongo.cc 10-119) receives
the reader's emit calls and folds them into an `OperationResponse`.
The fold below maps each event of the reader model to the body of the
corresponding `Emit*` method. -/

/-- `OpResponseParser::BaseField` (src/mongo.h). -/
inductive BaseField where
  | kField | kOk | kNModified | kN | kUnknown | kWriteConcernErrors
  | kWriteErrors
  deriving DecidableEq, Repr

/-- `OpResponseParser::ErrorField` (src/mongo.h). -/
inductive ErrorField where
  | kField | kIndex | kErrMsg | kErrInfo | kCode | kUnknown
  deriving DecidableEq, Repr

/-- `CmdError::Type` (src/mongo.h). -/
inductive CmdErrType where
  | writeError | writeConcernError | parseError
  deriving DecidableEq, Repr

/-- `CmdError` (src/mongo.h; the strings as byte lists). -/
structure CmdErr where
  code : Int
  index : Int
  msg : List Nat
  info : List Nat
  etype : CmdErrType
  deriving DecidableEq, Repr

/-- `OperationResponse` (src/mongo.h). -/
structure OperationResponse where
  ok : Int
  n : Int
  nModified : Int
  errors : List CmdErr
  deriving DecidableEq, Repr

/-- The `sma_` table (src/mongo.h): the keywords "ok", "nModified",
"n", "writeErrors", "writeConcernErrors", in the order written; the
null sentinel carries `kUnknown`. -/
def smaActs : List (List Nat × BaseField) :=
  [([111, 107], .kOk),
   ([110, 77, 111, 100, 105, 102, 105, 101, 100], .kNModified),
   ([110], .kN),
   ([119, 114, 105, 116, 101, 69, 114, 114, 111, 114, 115], .kWriteErrors),
   ([119, 114, 105, 116, 101, 67, 111, 110, 99, 101, 114, 110, 69, 114, 114,
     111, 114, 115], .kWriteConcernErrors)]

/-- The `ema_` table (src/mongo.h): the keywords "index", "errmsg",
"errInfo" and — exactly as the source spells it — "kcode"; the null
sentinel carries `kUnknown`. -/
def emaActs : List (List Nat × ErrorField) :=
  [([105, 110, 100, 101, 120], .kIndex),
   ([101, 114, 114, 109, 115, 103], .kErrMsg),
   ([101, 114, 114, 73, 110, 102, 111], .kErrInfo),
   ([107, 99, 111, 100, 101], .kCode)]

/-- The parser's mutable fields.  The C++ keeps the two matchers in a
union, constructing one at a time; two fields that are only read
between construction and `GetResult` model it. -/
structure OPState where
  baseField : BaseField
  errorField : ErrorField
  depth : Nat
  baseM : SMState
  errorM : SMState
  res : OperationResponse
  deriving DecidableEq, Repr

/-- A freshly constructed `OpResponseParser`: `depth_ = 0`, both field
trackers `kUnknown`, empty result (the union's matcher bytes are never
read before placement construction, so any value models them). -/
def opInit : OPState :=
  ⟨.kUnknown, .kUnknown, 0, initSM smaActs.length, initSM emaActs.length,
    ⟨0, 0, 0, []⟩⟩

/-- `OpResponseParser::IsError` (src/mongo.cc 87-90). -/
def opIsError (s : OPState) : Bool :=
  s.depth = 3 &&
    (s.baseField = .kWriteErrors || s.baseField = .kWriteConcernErrors)

/-- The effect of a mutation through `res_.errors.back()` (no-op on an
empty vector, where the C++ would be undefined). -/
def modifyLast {α : Type} (f : α → α) : List α → List α
  | [] => []
  | [e] => [f e]
  | e :: rest => e :: modifyLast f rest

/-- Replace the parser's error vector. -/
def setErrors (s : OPState) (l : List CmdErr) : OPState :=
  { s with res := { s.res with errors := l } }

/-- `OpResponseParser::EmitFieldName` (src/mongo.cc 10-40): a name
arrives in chunks closed by a zero-length call; the matcher is
(re)constructed when the tracker is not `kField`, fed the chunk, and
resolved on the closing call with a terminating null. -/
def opEmitFieldName (s : OPState) (data : List Nat) : OPState :=
  if s.depth = 1 then
    let s1 := if s.baseField ≠ .kField then
        { s with baseField := .kField, baseM := initSM smaActs.length }
      else s
    let m1 := data.foldl (fun m c => addChar (smaActs.map Prod.fst) c m) s1.baseM
    if data.length = 0 then
      let m2 := addChar (smaActs.map Prod.fst) 0 m1
      { s1 with baseField := GetResult smaActs .kUnknown m2, baseM := m2 }
    else { s1 with baseM := m1 }
  else if opIsError s then
    let s1 := if s.errorField ≠ .kField then
        { s with errorField := .kField, errorM := initSM emaActs.length }
      else s
    let m1 := data.foldl (fun m c => addChar (emaActs.map Prod.fst) c m) s1.errorM
    if data.length = 0 then
      let m2 := addChar (emaActs.map Prod.fst) 0 m1
      { s1 with errorField := GetResult emaActs .kUnknown m2, errorM := m2 }
    else { s1 with errorM := m1 }
  else s

/-- `OpResponseParser::EmitOpenDoc` (src/mongo.cc 42-50): increment the
`uint8_t` depth, then push a fresh error when inside an error array
(`WriteConcernError` when that is the active base field). -/
def opEmitOpenDoc (s : OPState) : OPState :=
  let s1 := { s with depth := (s.depth + 1) % 256 }
  if opIsError s1 then
    let t := if s1.baseField = .kWriteConcernErrors then
      CmdErrType.writeConcernError else CmdErrType.writeError
    setErrors s1 (s1.res.errors ++ [⟨0, 0, [], [], t⟩])
  else s1

/-- `OpResponseParser::EmitInt32` (src/mongo.cc 52-85). -/
def opEmitInt32 (s : OPState) (i : Int) : OPState :=
  if s.depth = 1 then
    match s.baseField with
    | .kOk => { s with res := { s.res with ok := i } }
    | .kN => { s with res := { s.res with n := i } }
    | .kNModified => { s with res := { s.res with nModified := i } }
    | _ => s
  else if opIsError s then
    match s.errorField with
    | .kCode => setErrors s (modifyLast (fun e => { e with code := i }) s.res.errors)
    | .kIndex => setErrors s (modifyLast (fun e => { e with index := i }) s.res.errors)
    | _ => s
  else s

/-- `OpResponseParser::EmitUtf8` (src/mongo.cc 92-112). -/
def opEmitUtf8 (s : OPState) (cnt : List Nat) : OPState :=
  if cnt.length = 0 then s
  else if opIsError s then
    match s.errorField with
    | .kErrMsg => setErrors s (modifyLast (fun e => { e with msg := e.msg ++ cnt }) s.res.errors)
    | .kErrInfo => setErrors s (modifyLast (fun e => { e with info := e.info ++ cnt }) s.res.errors)
    | _ => s
  else s

/-- `OpResponseParser::EmitError` (src/mongo.cc 114-119). -/
def opEmitError (s : OPState) (m : String) : OPState :=
  setErrors s (s.res.errors ++ [⟨0, 0, m.toList.map Char.toNat, [], .parseError⟩])

/-- Dispatch one reader event to the corresponding `Emit*` body
(`EmitOpenArray` and `EmitClose` are the inline depth updates of
src/mongo.h; every other emit of the class is empty). -/
def opStep (s : OPState) : Event → OPState
  | .openDoc => opEmitOpenDoc s
  | .openArray => { s with depth := (s.depth + 1) % 256 }
  | .close => { s with depth := (s.depth + 255) % 256 }
  | .int32 v => opEmitInt32 s v
  | .utf8 l => opEmitUtf8 s l
  | .fieldName l => opEmitFieldName s l
  | .errorE m => opEmitError s m
  | _ => s

/-- The claim's response header: `message_length = 112`, reply opcode,
`number_returned = 1`, the other fields zero. -/
def c1Header : List Nat :=
  le32 112 ++ le32 0 ++ le32 0 ++ le32 1 ++ le32 0 ++ le64 0 ++ le32 0 ++
    le32 1

/-- The claim's returned document, serialized by the writer model:
`{"ok": int32(0), "writeErrors":
[{"index": int32(0), "code": int32(11000), "errmsg": "dup"}]}`
(76 bytes). -/
def c1Doc : List Nat :=
  serDoc (.cons (.elem [111, 107] (.vint32 0))
    (.cons (.warr [119, 114, 105, 116, 101, 69, 114, 114, 111, 114, 115]
      (.cons (.wdoc [48]
        (.cons (.elem [105, 110, 100, 101, 120] (.vint32 0))
          (.cons (.elem [99, 111, 100, 101] (.vint32 11000))
            (.cons (.elem [101, 114, 114, 109, 115, 103]
              (.vutf8 [100, 117, 112])) .nil))))
        .nil))
      .nil))

/-- C1: feeding the claimed 112-byte response (header with
`number_returned = 1`, then `{"ok": 0, "writeErrors": [{"index": 0,
"code": 11000, "errmsg": "dup"}]}`) through the response reader and
folding the parser over its emits completes the parse and records
exactly one `WriteError` with index 0 and msg "dup" — but its code is
0, not 11000: the claimed result does not hold, because the `ema_`
keyword is spelled "kcode", so the document's "code" field resolves to
`kUnknown` (while "kcode" would resolve to `kCode`), and `EmitInt32`
drops the 11000. -/
theorem c1_kcode_result :
    (consume responseInit (c1Header ++ c1Doc)).1.phase = Phase.done ∧
    ((consume responseInit (c1Header ++ c1Doc)).2.foldl opStep opInit).res =
      ⟨0, 0, 0, [⟨0, 0, [100, 117, 112], [], .writeError⟩]⟩ ∧
    GetResult emaActs .kUnknown
      (runM (emaActs.map Prod.fst) ([99, 111, 100, 101] ++ [0])
        (initSM emaActs.length)) = ErrorField.kUnknown ∧
    GetResult emaActs .kUnknown
      (runM (emaActs.map Prod.fst) ([107, 99, 111, 100, 101] ++ [0])
        (initSM emaActs.length)) = ErrorField.kCode := by
  decide

end Okmongo
